import Mathlib

/-! # go-moonshot: chat completion service and SSE stream decoder

A shallow embedding of `pkg/chat/chat.go`, `pkg/errors/errors.go`, the parts of
`pkg/client/client.go` and `pkg/types/types.go` they use, and the library
contracts they rely on (`bufio.Reader.ReadString`, `strings.TrimSpace`,
`io.ReadAll`, `io.ReadCloser`).

Conventions of the embedding:

* a Go `string` or byte stream is a `List Char` (the text it holds);
* a Go `(value, error)` result whose two shapes are `(nil, err)` and
  `(&v, nil)` is an `Except GoError _`;
* library behaviour that is not code of the repository (`json.Unmarshal`,
  `json.Marshal`, float64 multiplication) is taken as a parameter, collected
  in `Env`; the HTTP round trip is the `httpClient` of the `Client`;
* mutable objects (the response body, the heap cells behind `*float64` and
  `*bool`) are passed explicitly as state.
-/

deriving instance DecidableEq for Except

namespace Moonshot

/-! ## Error values -/

/-- The struct `errors.APIError` (`Type_` is its field `Type`, a reserved word here). -/
structure APIError where
  Code : String
  Message : String
  Type_ : String
  StatusCode : Int
deriving DecidableEq, Repr

/-- A Go `error` value. `eof` is the sentinel `io.EOF` (compared with `==` in
the source); `wrap ctx e` is `fmt.Errorf(ctx + ": %w", e)`; `other` stands for
an error value produced by a library (I/O, JSON), identified by its text;
`general` is `errors.Error`; `api` is an `errors.APIError` value. -/
inductive GoError where
  | eof
  | other (msg : String)
  | wrap (ctx : String) (inner : GoError)
  | general (msg : String)
  | api (e : APIError)
deriving DecidableEq, Repr

/-- The method `APIError.Error`. -/
def APIError.Error (e : APIError) : String :=
  "moonshot api error (status " ++ toString e.StatusCode ++ "): " ++ e.Code ++ " - " ++ e.Message

/-- The text `err.Error()` of a Go error. -/
def GoError.Error : GoError → String
  | .eof => "EOF"
  | .other msg => msg
  | .wrap ctx inner => ctx ++ ": " ++ inner.Error
  | .general msg => msg
  | .api e => e.Error

/-! ## Library contracts: strings, bufio, response bodies -/

/-- The predicate `unicode.IsSpace`: the white space that `strings.TrimSpace` removes. -/
def isSpace (c : Char) : Bool :=
  let n := c.toNat
  n = 9 || n = 10 || n = 11 || n = 12 || n = 13 || n = 32 || n = 0x85 || n = 0xA0 ||
  n = 0x1680 || (0x2000 ≤ n && n ≤ 0x200A) || n = 0x2028 || n = 0x2029 || n = 0x202F ||
  n = 0x205F || n = 0x3000

/-- The function `strings.TrimSpace`: leading and trailing white space removed. -/
def TrimSpace (s : List Char) : List Char :=
  ((s.dropWhile isSpace).reverse.dropWhile isSpace).reverse

/-- The function `strings.HasPrefix`. -/
def HasPrefix (s p : List Char) : Bool :=
  p.isPrefixOf s

/-- The function `strings.TrimPrefix`: `s` without the leading `p` if it has it, else `s`. -/
def TrimPrefix (s p : List Char) : List Char :=
  if HasPrefix s p then s.drop p.length else s

/-- The SSE field marker `"data: "`. -/
def dataMarker : List Char := "data: ".toList

/-- The sentinel payload `"[DONE]"`. -/
def doneSentinel : List Char := "[DONE]".toList

/-- An HTTP response body (`io.ReadCloser`). `pending` lists the chunks that
successive `Read` calls on the body will still deliver (the reads that deliver
data: a body that answers no data and no error a hundred times in a row, on
which `bufio` gives up with `io.ErrNoProgress`, is not described), `term` is
the error that ends it (`io.EOF` for a connection that closes cleanly),
`closes` counts the `Close` calls made so far and `closeResult k` is what the
call number `k` (from 0) returns. `closedRead` is what a `Read` on the body
does once `Close` has been called, which the interface leaves to the body:
`some e` fails with `e` (a net/http body: `errReadOnClosedBody`), `none` goes
on delivering as before `Close`. -/
structure Body where
  pending : List (List Char)
  term : GoError
  closes : Nat
  closeResult : Nat → Option GoError
  closedRead : Option GoError

/-- The error with which a net/http body answers a `Read` after `Close`
(`errReadOnClosedResBody`). -/
def errReadOnClosedBody : GoError := .other "http: read on closed response body"

/-- The method `Body.Close`: the call is counted and answers `closeResult`. -/
def Body.Close (b : Body) : Option GoError × Body :=
  (b.closeResult b.closes, { b with closes := b.closes + 1 })

/-- The error with which the body refuses a `Read` now, if it does: none while
no `Close` was called, `closedRead` afterwards. -/
def Body.refusal (b : Body) : Option GoError :=
  if 0 < b.closes then b.closedRead else none

/-- First line of a buffer: the text up to and including the first `'\n'`, and what follows it. -/
def splitLine : List Char → Option (List Char × List Char)
  | [] => none
  | c :: cs =>
    if c = '\n' then some ([c], cs)
    else match splitLine cs with
      | some (l, r) => some (c :: l, r)
      | none => none

/-- The method `bufio.Reader.ReadString('\n')` over a buffer `buf` and the chunks
the body still has: the data up to and including the first newline; the body
is read only when the buffer holds no newline, and when that read fails the
result is the data read so far and the error (`refusal`, the error of a body
that refuses reads, or `term` at the end of the chunks). Returns the string,
the error, the new buffer and the chunks left. -/
def ReadString (refusal : Option GoError) (term : GoError) :
    List Char → List (List Char) → (List Char × Option GoError) × List Char × List (List Char)
  | buf, [] =>
    match splitLine buf with
    | some (l, r) => ((l, none), r, [])
    | none =>
      match refusal with
      | some e => ((buf, some e), [], [])
      | none => ((buf, some term), [], [])
  | buf, c :: cs =>
    match splitLine buf with
    | some (l, r) => ((l, none), r, c :: cs)
    | none =>
      match refusal with
      | some e => ((buf, some e), [], c :: cs)
      | none => ReadString refusal term (buf ++ c) cs

/-- The function `io.ReadAll` on a body: all remaining data, and the error when
the body ends otherwise than with `io.EOF`; on a body that refuses reads, no
data and its error (none when that error is `io.EOF`). -/
def Body.ReadAll (b : Body) : (List Char × Option GoError) × Body :=
  match b.refusal with
  | some e => (([], if e = .eof then none else some e), b)
  | none =>
    ((b.pending.flatten, if b.term = .eof then none else some b.term), { b with pending := [] })

/-! ## Data model (`pkg/types/types.go`) -/

/-- A Go `float64`, identified by its IEEE-754 bit pattern. -/
structure Float64 where
  bits : Nat
deriving DecidableEq, Repr

/-- The float64 nearest to the constant `0.6`. -/
def Float64.c06 : Float64 := ⟨0x3FE3333333333333⟩

/-- The float64 `1.0`. -/
def Float64.one : Float64 := ⟨0x3FF0000000000000⟩

/-- A non-nil `interface{}` value of the request (`Content`, `Stop`, `ToolChoice`,
`ResponseFormat`, `Parameters`), identified by its JSON text. -/
structure Any where
  json : List Char
deriving DecidableEq, Repr

/-- The struct `types.FunctionCall`. -/
structure FunctionCall where
  Name : String
  Arguments : String
deriving DecidableEq, Repr

/-- The struct `types.ToolCall`. -/
structure ToolCall where
  ID : String
  Type_ : String
  Function : FunctionCall
deriving DecidableEq, Repr

/-- The struct `types.Message`. -/
structure Message where
  Role : String
  Content : Option Any
  Name : Option String
  ToolCalls : List ToolCall
  ToolCallID : Option String
deriving DecidableEq, Repr

/-- The struct `types.Function`. -/
structure Function where
  Name : String
  Description : String
  Parameters : Option Any
deriving DecidableEq, Repr

/-- The struct `types.Tool`. -/
structure Tool where
  Type_ : String
  Function : Function
deriving DecidableEq, Repr

/-- The struct `types.Usage`. -/
structure Usage where
  PromptTokens : Int
  CompletionTokens : Int
  TotalTokens : Int
  PromptCacheHitRate : Float64
  PromptCacheMissRate : Float64
deriving DecidableEq, Repr

/-- The struct `types.Choice`. -/
structure Choice where
  Index : Int
  Message : Message
  FinishReason : String
  LogProbs : Option (List Char)
deriving DecidableEq, Repr

/-- The struct `types.ChatCompletionResponse`. -/
structure ChatCompletionResponse where
  ID : String
  Object : String
  Created : Int
  Model : String
  Choices : List Choice
  Usage : Usage
  SystemFingerprint : String
deriving DecidableEq, Repr

/-- The struct `types.ChatCompletionStreamDelta`. -/
structure ChatCompletionStreamDelta where
  Role : Option String
  Content : Option String
  ToolCalls : List ToolCall
deriving DecidableEq, Repr

/-- The struct `types.ChatCompletionStreamChoice`. -/
structure ChatCompletionStreamChoice where
  Index : Int
  Delta : ChatCompletionStreamDelta
  FinishReason : Option String
  LogProbs : Option (List Char)
deriving DecidableEq, Repr

/-- The struct `types.ChatCompletionStream`: one decoded stream event. -/
structure ChatCompletionStream where
  ID : String
  Object : String
  Created : Int
  Model : String
  Choices : List ChatCompletionStreamChoice
  SystemFingerprint : String
  Usage : Option Usage
deriving DecidableEq, Repr

/-- A pointer: the address of a heap cell. -/
abbrev Ptr := Nat

/-- The heap cells behind the `*float64` and `*bool` fields of a request.
Addresses below `nextFloat` (`nextBool`) are allocated. -/
structure Heap where
  floats : Ptr → Float64
  bools : Ptr → Bool
  nextFloat : Ptr
  nextBool : Ptr

/-- Allocation of a fresh float64 cell holding `v` (`x := v; &x`). -/
def Heap.newFloat (h : Heap) (v : Float64) : Ptr × Heap :=
  (h.nextFloat,
   { h with floats := fun a => if a = h.nextFloat then v else h.floats a,
            nextFloat := h.nextFloat + 1 })

/-- Allocation of a fresh bool cell holding `v` (`&[]bool{v}[0]`). -/
def Heap.newBool (h : Heap) (v : Bool) : Ptr × Heap :=
  (h.nextBool,
   { h with bools := fun a => if a = h.nextBool then v else h.bools a,
            nextBool := h.nextBool + 1 })

/-- The struct `types.ChatCompletionRequest` as held in memory. The `*float64`
and `*bool` fields are pointers into the heap (`none` is nil); the `*int`,
`*int64` and `*string` fields, for which no cell is ever allocated or
written, are carried by value. -/
structure ChatCompletionRequest where
  Model : String
  Messages : List Message
  Temperature : Option Ptr
  TopP : Option Ptr
  N : Option Int
  Stream : Option Ptr
  Stop : Option Any
  MaxTokens : Option Int
  PresencePenalty : Option Ptr
  FrequencyPenalty : Option Ptr
  User : Option String
  Tools : List Tool
  ToolChoice : Option Any
  ResponseFormat : Option Any
  Seed : Option Int
  ParallelToolCalls : Option Ptr
  FileIDs : List String
deriving DecidableEq, Repr

/-- The JSON body that `json.Marshal` produces for a request, identified by
the value it encodes: every pointer is followed to its cell (`omitempty`
leaves a nil pointer out, here `none`). -/
structure RequestBody where
  Model : String
  Messages : List Message
  Temperature : Option Float64
  TopP : Option Float64
  N : Option Int
  Stream : Option Bool
  Stop : Option Any
  MaxTokens : Option Int
  PresencePenalty : Option Float64
  FrequencyPenalty : Option Float64
  User : Option String
  Tools : List Tool
  ToolChoice : Option Any
  ResponseFormat : Option Any
  Seed : Option Int
  ParallelToolCalls : Option Bool
  FileIDs : List String
deriving DecidableEq, Repr

/-- What `json.Marshal(req)` reads of a request in a given heap. -/
def ChatCompletionRequest.body (h : Heap) (req : ChatCompletionRequest) : RequestBody :=
  { Model := req.Model
    Messages := req.Messages
    Temperature := req.Temperature.map h.floats
    TopP := req.TopP.map h.floats
    N := req.N
    Stream := req.Stream.map h.bools
    Stop := req.Stop
    MaxTokens := req.MaxTokens
    PresencePenalty := req.PresencePenalty.map h.floats
    FrequencyPenalty := req.FrequencyPenalty.map h.floats
    User := req.User
    Tools := req.Tools
    ToolChoice := req.ToolChoice
    ResponseFormat := req.ResponseFormat
    Seed := req.Seed
    ParallelToolCalls := req.ParallelToolCalls.map h.bools
    FileIDs := req.FileIDs }

/-- An HTTP response: status code and body. -/
structure Response where
  StatusCode : Int
  Body : Body

/-- The HTTP request that `Client.Request` builds. -/
structure HTTPRequest where
  method : String
  url : String
  authorization : String
  contentType : String
  userAgent : String
  body : RequestBody
deriving DecidableEq, Repr

/-- Library behaviour the services are parameterised by. -/
structure Env where
  /-- The call `json.Unmarshal([]byte(data), &chunk)` for a `ChatCompletionStream`. -/
  unmarshalStream : List Char → Except GoError ChatCompletionStream
  /-- The call `json.NewDecoder(resp.Body).Decode(&completionResp)` on a body's data and end. -/
  decodeResponse : List Char → GoError → Except GoError ChatCompletionResponse
  /-- The call `json.Unmarshal(body, &errResp)` for an `ErrorResponse`: code, message and
  type of the decoded `error` member, `none` when it fails. -/
  unmarshalError : List Char → Option (String × String × String)
  /-- The error of `json.Marshal(body)`, if any. -/
  marshalError : RequestBody → Option GoError
  /-- The error of `http.NewRequestWithContext`, if any, for a method and URL. -/
  newRequestError : String → String → Option GoError
  /-- Multiplication of float64 values. -/
  fmul : Float64 → Float64 → Float64

/-! ## The client (`pkg/client/client.go`) -/

/-- The struct `client.Client`; `httpClient` is the call `httpClient.Do`. -/
structure Client where
  httpClient : HTTPRequest → Except GoError Response
  baseURL : String
  apiKey : String
  userAgent : String

/-- The method `Client.Request`: the result and the list of the requests handed
to `httpClient.Do` (at most one). -/
def Client.Request (env : Env) (c : Client) (method path : String) (body : RequestBody) :
    Except GoError Response × List HTTPRequest :=
  let url := c.baseURL ++ path
  match env.marshalError body with
  | some e => (.error (.wrap "marshaling request body" e), [])
  | none =>
    match env.newRequestError method url with
    | some e => (.error (.wrap "creating request" e), [])
    | none =>
      let req : HTTPRequest :=
        { method := method, url := url, authorization := "Bearer " ++ c.apiKey,
          contentType := "application/json", userAgent := c.userAgent, body := body }
      match c.httpClient req with
      | .error e => (.error (.wrap "performing request" e), [req])
      | .ok resp => (.ok resp, [req])

/-- The method `Client.StreamRequest`. -/
def Client.StreamRequest (env : Env) (c : Client) (method path : String) (body : RequestBody) :
    Except GoError Response × List HTTPRequest :=
  c.Request env method path body

/-! ## The error classifier (`pkg/errors/errors.go`) -/

/-- The function `errors.HandleErrorResponse`: the error it returns and the
response after it (the body read and, by the deferred call, closed). -/
def HandleErrorResponse (env : Env) (resp : Response) : GoError × Response :=
  let ((body, err), b1) := resp.Body.ReadAll
  let result : GoError :=
    match err with
    | some e =>
      .api { Code := "read_error"
             Message := "failed to read error response: " ++ e.Error
             Type_ := "client_error"
             StatusCode := resp.StatusCode }
    | none =>
      match env.unmarshalError body with
      | none =>
        .api { Code := "parse_error"
               Message := String.mk body
               Type_ := "client_error"
               StatusCode := resp.StatusCode }
      | some (code, message, type) =>
        .api { Code := code, Message := message, Type_ := type, StatusCode := resp.StatusCode }
  (result, { resp with Body := b1.Close.2 })

/-- The function `errors.IsAPIError`. -/
def IsAPIError (err : Option GoError) : Option APIError × Bool :=
  match err with
  | some (.api apiErr) => (some apiErr, true)
  | _ => (none, false)

/-! ## The stream decoder (`pkg/chat/chat.go`) -/

/-- The struct `chat.StreamReader`: `buffered` is the data held by `sr.reader`
(a `bufio.Reader` on the response body), `body` the response body, and
`hasResponse` tells whether `sr.response` is non-nil. -/
structure StreamReader where
  buffered : List Char
  body : Body
  hasResponse : Bool

/-- Number of characters a reader can still deliver. -/
def StreamReader.size (sr : StreamReader) : Nat :=
  sr.buffered.length + (sr.body.pending.map List.length).sum

/-- Body of `StreamReader.Read`, the self-call counted by `fuel`. -/
def StreamReader.readLoop (env : Env) :
    Nat → StreamReader → Option (Except GoError ChatCompletionStream × StreamReader)
  | 0, _ => none
  | fuel + 1, sr =>
    let ((line, err), buf, chunks) :=
      ReadString sr.body.refusal sr.body.term sr.buffered sr.body.pending
    let sr1 : StreamReader := { sr with buffered := buf, body := { sr.body with pending := chunks } }
    match err with
    | some e =>
      if e = .eof then some (.error .eof, sr1)
      else some (.error (.wrap "reading stream" e), sr1)
    | none =>
      let line := TrimSpace line
      -- Skip empty lines
      if line = [] then readLoop env fuel sr1
      -- Check for data prefix
      else if !HasPrefix line dataMarker then readLoop env fuel sr1
      else
        let data := TrimPrefix line dataMarker
        -- Check for end of stream
        if data = doneSentinel then some (.error .eof, sr1)
        else
          match env.unmarshalStream data with
          | .error e => some (.error (.wrap "parsing stream chunk" e), sr1)
          | .ok chunk => some (.ok chunk, sr1)

/-- The method `StreamReader.Read`: the next streaming chunk or an error, and
the reader after the call. The fuel covers one self-call per character left;
`none` would mean it ran out. -/
def StreamReader.Read (env : Env) (sr : StreamReader) :
    Option (Except GoError ChatCompletionStream × StreamReader) :=
  StreamReader.readLoop env (sr.size + 1) sr

/-- The method `StreamReader.Close`. -/
def StreamReader.Close (sr : StreamReader) : Option GoError × StreamReader :=
  if sr.hasResponse then
    let (e, b) := sr.body.Close
    (e, { sr with body := b })
  else (none, sr)

/-- Results of `n` successive `Read` calls, and the reader after them. -/
def StreamReader.reads (env : Env) :
    Nat → StreamReader → Option (List (Except GoError ChatCompletionStream) × StreamReader)
  | 0, sr => some ([], sr)
  | n + 1, sr =>
    match sr.Read env with
    | none => none
    | some (r, sr1) =>
      match StreamReader.reads env n sr1 with
      | none => none
      | some (rs, sr2) => some (r :: rs, sr2)

/-! ## The completion service (`pkg/chat/chat.go`) -/

/-- The constant `completionsEndpoint`. -/
def completionsEndpoint : String := "/chat/completions"

/-- The struct `chat.Service`. -/
structure Service where
  client : Client

/-- What a service call leaves behind: its result, the heap after it, the
requests it handed to `httpClient.Do`, and the response it received (if any)
in the state it has when the call returns. -/
structure Call (α : Type) where
  result : Except GoError α
  heap : Heap
  sent : List HTTPRequest
  response : Option Response

/-- The statements shared by `CreateCompletion` and `CreateCompletionStream`:
`req.Stream = &[]bool{stream}[0]`, then, when `req.Temperature != nil`,
`adjustedTemp := *req.Temperature * 0.6; req.Temperature = &adjustedTemp`.
The parameter `req` is the callee's copy of the caller's struct. -/
def adjustRequest (env : Env) (stream : Bool) (h : Heap) (req : ChatCompletionRequest) :
    ChatCompletionRequest × Heap :=
  let (ps, h1) := h.newBool stream
  let req1 := { req with Stream := some ps }
  match req1.Temperature with
  | some p =>
    let adjustedTemp := env.fmul (h1.floats p) Float64.c06
    let (pt, h2) := h1.newFloat adjustedTemp
    ({ req1 with Temperature := some pt }, h2)
  | none => (req1, h1)

/-- The method `Service.CreateCompletion`. -/
def Service.CreateCompletion (env : Env) (s : Service) (h : Heap) (req : ChatCompletionRequest) :
    Call ChatCompletionResponse :=
  let (req1, h1) := adjustRequest env false h req
  match s.client.Request env "POST" completionsEndpoint (req1.body h1) with
  | (.error err, sent) => { result := .error err, heap := h1, sent := sent, response := none }
  | (.ok resp, sent) =>
    if resp.StatusCode ≠ 200 then
      let (err, resp1) := HandleErrorResponse env resp
      -- deferred resp.Body.Close()
      { result := .error err, heap := h1, sent := sent,
        response := some { resp1 with Body := resp1.Body.Close.2 } }
    else
      let closed : Response := { resp with Body := resp.Body.Close.2 }
      match env.decodeResponse resp.Body.pending.flatten resp.Body.term with
      | .error err =>
        { result := .error (.wrap "decoding response" err), heap := h1, sent := sent,
          response := some closed }
      | .ok completionResp =>
        { result := .ok completionResp, heap := h1, sent := sent, response := some closed }

/-- The method `Service.CreateCompletionStream`. -/
def Service.CreateCompletionStream (env : Env) (s : Service) (h : Heap)
    (req : ChatCompletionRequest) : Call StreamReader :=
  let (req1, h1) := adjustRequest env true h req
  match s.client.StreamRequest env "POST" completionsEndpoint (req1.body h1) with
  | (.error err, sent) => { result := .error err, heap := h1, sent := sent, response := none }
  | (.ok resp, sent) =>
    if resp.StatusCode ≠ 200 then
      let (err, resp1) := HandleErrorResponse env resp
      -- deferred resp.Body.Close()
      { result := .error err, heap := h1, sent := sent,
        response := some { resp1 with Body := resp1.Body.Close.2 } }
    else
      { result := .ok { buffered := [], body := resp.Body, hasResponse := true },
        heap := h1, sent := sent, response := some resp }

/-- The loop of `CreateCompletionWithCallback`: the error returned, the reader
and the callback state when it exits; `none` when the fuel runs out. The
callback is a function of its own state `σ`. -/
def callbackLoop {σ : Type} (env : Env)
    (callback : σ → ChatCompletionStream → Option GoError × σ) :
    Nat → StreamReader → σ → Option (Option GoError × StreamReader × σ)
  | 0, _, _ => none
  | fuel + 1, stream, st =>
    match stream.Read env with
    | none => none
    | some (.error err, stream1) =>
      if err = .eof then some (none, stream1, st) else some (some err, stream1, st)
    | some (.ok chunk, stream1) =>
      match callback st chunk with
      | (some err, st1) => some (some err, stream1, st1)
      | (none, st1) => callbackLoop env callback fuel stream1 st1

/-- What `CreateCompletionWithCallback` leaves behind. -/
structure CallbackCall (σ : Type) where
  err : Option GoError
  state : σ
  heap : Heap
  sent : List HTTPRequest
  response : Option Response
  stream : Option StreamReader

/-- The method `Service.CreateCompletionWithCallback`; `none` when the loop
runs out of fuel (one iteration per character of the stream, plus one). -/
def Service.CreateCompletionWithCallback {σ : Type} (env : Env) (s : Service) (h : Heap)
    (req : ChatCompletionRequest) (callback : σ → ChatCompletionStream → Option GoError × σ)
    (st : σ) : Option (CallbackCall σ) :=
  let call := s.CreateCompletionStream env h req
  match call.result with
  | .error err =>
    some { err := some err, state := st, heap := call.heap, sent := call.sent,
           response := call.response, stream := none }
  | .ok stream =>
    match callbackLoop env callback (stream.size + 1) stream st with
    | none => none
    | some (err, stream1, st1) =>
      -- deferred stream.Close()
      let stream2 := stream1.Close.2
      some { err := err, state := st1, heap := call.heap, sent := call.sent,
             response := call.response.map (fun r => { r with Body := stream2.body }),
             stream := some stream2 }

/-! ## Auxiliary notions for the decoder -/

/-- The text a reader will still deliver: the buffer, then the chunks of the body. -/
def StreamReader.input (sr : StreamReader) : List Char :=
  sr.buffered ++ sr.body.pending.flatten

/-- The decision `Read` takes on a line that `ReadString` returned without error:
`none` when the line is skipped, else the result of the call. -/
def decodeLine (env : Env) (line : List Char) : Option (Except GoError ChatCompletionStream) :=
  let t := TrimSpace line
  if t = [] then none
  else if !HasPrefix t dataMarker then none
  else
    let data := TrimPrefix t dataMarker
    if data = doneSentinel then some (.error .eof)
    else
      match env.unmarshalStream data with
      | .error e => some (.error (.wrap "parsing stream chunk" e))
      | .ok chunk => some (.ok chunk)

/-- The reader after the `ReadString` call of a `Read`. -/
def StreamReader.advance (sr : StreamReader) : StreamReader :=
  let res := ReadString sr.body.refusal sr.body.term sr.buffered sr.body.pending
  { sr with buffered := res.2.1, body := { sr.body with pending := res.2.2 } }

/-- The line and error of the `ReadString` call of a `Read`. -/
def StreamReader.nextLine (sr : StreamReader) : List Char × Option GoError :=
  (ReadString sr.body.refusal sr.body.term sr.buffered sr.body.pending).1

/-- A reader on an open body that ends with `term` and will still deliver `text`. -/
structure Feeds (sr : StreamReader) (term : GoError) (text : List Char) : Prop where
  isOpen : sr.body.closes = 0
  term_eq : sr.body.term = term
  input_eq : sr.input = text

/-- The text made of newline-terminated lines. -/
def joinLines (ls : List (List Char)) : List Char :=
  (ls.map (fun l => l ++ ['\n'])).flatten

/-- The result of a `Read` that finds the body ended with `term` before a newline. -/
def endResult (term : GoError) : Except GoError ChatCompletionStream :=
  if term = .eof then .error .eof else .error (.wrap "reading stream" term)

/-- The result of one `Read` on a list of complete lines, and the lines left. -/
def nextResult (env : Env) (term : GoError) :
    List (List Char) → Except GoError ChatCompletionStream × List (List Char)
  | [] => (endResult term, [])
  | l :: ls =>
    match decodeLine env (l ++ ['\n']) with
    | none => nextResult env term ls
    | some r => (r, ls)

/-- The results of `n` successive `Read` calls on a list of complete lines. -/
def results (env : Env) (term : GoError) :
    Nat → List (List Char) → List (Except GoError ChatCompletionStream)
  | 0, _ => []
  | n + 1, ls => (nextResult env term ls).1 :: results env term n (nextResult env term ls).2


/-! ## Shapes of input used in the statements -/

/-- A line that `Read` skips: blank after trimming, or without the `data: ` marker. -/
@[reducible] def Skipped (l : List Char) : Prop :=
  TrimSpace l = [] ∨ HasPrefix (TrimSpace l) dataMarker = false

/-- A blank line: white space only, and no newline inside. -/
@[reducible] def Blank (l : List Char) : Prop :=
  l.all isSpace = true ∧ '\n' ∉ l

/-- A data line of an SSE stream, with the blank lines that precede it, its
JSON payload and the event the payload stands for. -/
structure DataLine where
  blanks : List (List Char)
  json : List Char
  event : ChatCompletionStream

/-- The payload is one line of JSON text that ends an object and that
`json.Unmarshal` decodes to the event; the lines before it are blank. -/
@[reducible] def DataLine.WellFormed (env : Env) (d : DataLine) : Prop :=
  (∀ b ∈ d.blanks, Blank b) ∧ '\n' ∉ d.json ∧ d.json.getLast? = some '}' ∧
    env.unmarshalStream d.json = .ok d.event

/-- The lines of an SSE stream of data lines. -/
def sseLines : List DataLine → List (List Char)
  | [] => []
  | d :: rest => d.blanks ++ (dataMarker ++ d.json) :: sseLines rest

/-- The line `data: [DONE]`. -/
def doneLine : List Char := dataMarker ++ doneSentinel

/-- What the wire format assigns to a complete line: for a line that, trimmed,
is `data: <payload>`, the event of the payload or the decode error; nothing for
any other line. -/
def lineEvent (env : Env) (l : List Char) : Option (Except GoError ChatCompletionStream) :=
  if HasPrefix (TrimSpace l) dataMarker then
    match env.unmarshalStream (TrimPrefix (TrimSpace l) dataMarker) with
    | .ok chunk => some (.ok chunk)
    | .error e => some (.error (.wrap "parsing stream chunk" e))
  else none

/-! ## Concrete inputs -/

/-- An event whose only content is its identifier. -/
def exampleEvent (id : String) : ChatCompletionStream :=
  { ID := id, Object := "", Created := 0, Model := "", Choices := [], SystemFingerprint := "",
    Usage := none }

/-- A response whose only content is its identifier. -/
def exampleResponse (id : String) : ChatCompletionResponse :=
  { ID := id, Object := "", Created := 0, Model := "", Choices := [],
    Usage := { PromptTokens := 0, CompletionTokens := 0, TotalTokens := 0,
               PromptCacheHitRate := ⟨0⟩, PromptCacheMissRate := ⟨0⟩ },
    SystemFingerprint := "" }

/-- A small instance of the library behaviour: the JSON decoders accept a text
that starts with `{` and ends with `}` and keep it as the identifier of what
they decode; marshalling and request construction succeed; the float product
is exact for a factor `1.0`. -/
def exampleEnv : Env :=
  { unmarshalStream := fun d =>
      if d.head? = some '{' ∧ d.getLast? = some '}' then .ok (exampleEvent (String.mk d))
      else .error (.other "invalid character")
    decodeResponse := fun d _ =>
      if d.head? = some '{' ∧ d.getLast? = some '}' then .ok (exampleResponse (String.mk d))
      else .error (.other "invalid character")
    unmarshalError := fun d =>
      if d.head? = some '{' ∧ d.getLast? = some '}' then some ("", "", "") else none
    marshalError := fun _ => none
    newRequestError := fun _ _ => none
    fmul := fun a b => if a = Float64.one then b else if b = Float64.one then a else ⟨0⟩ }

/-- A body that delivers the given chunks, then `io.EOF`, whose `Close` returns
nil and which, as a net/http body, refuses reads once closed. -/
def exampleBody (chunks : List String) : Body :=
  { pending := chunks.map String.toList, term := .eof, closes := 0, closeResult := fun _ => none,
    closedRead := some errReadOnClosedBody }

/-- A fresh reader on `exampleBody`. -/
def exampleReader (chunks : List String) : StreamReader :=
  { buffered := [], body := exampleBody chunks, hasResponse := true }

/-- The data lines of the stream `data: {"id":"1"}\n\ndata: {"id":"2"}\n\ndata: [DONE]\n\n`. -/
def exampleItems : List DataLine :=
  [ { blanks := [], json := "\x7b\"id\":\"1\"\x7d".toList, event := exampleEvent "\x7b\"id\":\"1\"\x7d" },
    { blanks := [[]], json := "\x7b\"id\":\"2\"\x7d".toList, event := exampleEvent "\x7b\"id\":\"2\"\x7d" } ]

/-- A reader on a body whose `Close` and `Read` fail once the body is closed. -/
def strictCloseReader : StreamReader :=
  { buffered := []
    body := { pending := [], term := .eof, closes := 0,
              closeResult := fun k => if k = 0 then none else some (.other "already closed"),
              closedRead := some (.other "already closed") }
    hasResponse := true }

/-- A reader on a body whose `Close` only counts the calls: the body goes on
delivering its chunks afterwards. -/
def lenientCloseReader : StreamReader :=
  { buffered := []
    body := { exampleBody ["data: \x7b\"id\":\"1\"\x7d\n", "data: \x7b\"id\":\"2\"\x7d\n"] with
              closedRead := none }
    hasResponse := true }

/-- Two readers that a `Read` cannot tell apart: the same buffer, the same
chunks and end of the body, and the same answer of the body to a read. -/
def StreamReader.SameInput (a b : StreamReader) : Prop :=
  a.buffered = b.buffered ∧ a.body.pending = b.body.pending ∧ a.body.term = b.body.term ∧
    a.body.refusal = b.body.refusal

/-- Every pointer of the request points to an allocated cell of the heap. -/
@[reducible] def ChatCompletionRequest.ValidIn (h : Heap) (req : ChatCompletionRequest) : Prop :=
  (∀ p, req.Temperature = some p → p < h.nextFloat) ∧
  (∀ p, req.TopP = some p → p < h.nextFloat) ∧
  (∀ p, req.PresencePenalty = some p → p < h.nextFloat) ∧
  (∀ p, req.FrequencyPenalty = some p → p < h.nextFloat) ∧
  (∀ p, req.Stream = some p → p < h.nextBool) ∧
  (∀ p, req.ParallelToolCalls = some p → p < h.nextBool)

/-- A client whose transport answers every request with the given status and body. -/
def exampleClient (status : Int) (chunks : List String) : Client :=
  { httpClient := fun _ => .ok { StatusCode := status, Body := exampleBody chunks }
    baseURL := "https://api.moonshot.ai/v1"
    apiKey := "test-key"
    userAgent := "go-moonshot/0.1.0" }

/-- A heap with one float64 cell holding `1.0` and one bool cell holding `true`. -/
def exampleHeap : Heap :=
  { floats := fun _ => Float64.one, bools := fun _ => true, nextFloat := 1, nextBool := 1 }

/-- A request with `Temperature` pointing to the cell that holds `1.0` and
`Stream` pointing to the cell that holds `true`. -/
def exampleRequest : ChatCompletionRequest :=
  { Model := "moonshot-v1-8k"
    Messages := [{ Role := "user", Content := some ⟨"\"Hello\"".toList⟩, Name := none,
                   ToolCalls := [], ToolCallID := none }]
    Temperature := some 0, TopP := none, N := none, Stream := some 0, Stop := none,
    MaxTokens := none, PresencePenalty := none, FrequencyPenalty := none, User := none,
    Tools := [], ToolChoice := none, ResponseFormat := none, Seed := none,
    ParallelToolCalls := none, FileIDs := [] }

/-- The HTTP request that the example client is handed for `exampleRequest`. -/
def exampleSent (stream : Bool) : HTTPRequest :=
  { method := "POST"
    url := "https://api.moonshot.ai/v1/chat/completions"
    authorization := "Bearer test-key"
    contentType := "application/json"
    userAgent := "go-moonshot/0.1.0"
    body :=
      { Model := "moonshot-v1-8k"
        Messages := [{ Role := "user", Content := some ⟨"\"Hello\"".toList⟩, Name := none,
                       ToolCalls := [], ToolCallID := none }]
        Temperature := some Float64.c06, TopP := none, N := none, Stream := some stream,
        Stop := none, MaxTokens := none, PresencePenalty := none, FrequencyPenalty := none,
        User := none, Tools := [], ToolChoice := none, ResponseFormat := none, Seed := none,
        ParallelToolCalls := none, FileIDs := [] } }

/-- A callback that records the events it is given and never fails. -/
def recordChunk (st : List ChatCompletionStream) (chunk : ChatCompletionStream) :
    Option GoError × List ChatCompletionStream :=
  (none, st ++ [chunk])

/-! ## The handler of `CreateCompletionWithCallback` -/

/-- The handler applied to events in order, each in the state the one before
left, up to its first error: the error (if any) and the state reached. -/
def feed {σ : Type} (callback : σ → ChatCompletionStream → Option GoError × σ) :
    σ → List ChatCompletionStream → Option GoError × σ
  | st, [] => (none, st)
  | st, e :: es =>
    match callback st e with
    | (some err, st1) => (some err, st1)
    | (none, st1) => feed callback st1 es

/-- A callback that records the events it is given and fails on the event
whose identifier is `bad`. -/
def recordUntil (bad : String) (st : List ChatCompletionStream) (chunk : ChatCompletionStream) :
    Option GoError × List ChatCompletionStream :=
  if chunk.ID = bad then (some (.general "handler failed"), st ++ [chunk])
  else (none, st ++ [chunk])

/-! ## Concrete error responses -/

/-- What `json.Unmarshal` into an `ErrorResponse` makes of a few bodies: the
error body of the API with and without an extra member, and two JSON objects
without `error` member, which decode to the zero value; every other text is
rejected here. -/
def exampleUnmarshalError (d : List Char) : Option (String × String × String) :=
  if d = "\x7b\"error\":\x7b\"code\":\"rate_limit_exceeded\",\"message\":\"x\",\"type\":\"client_error\"\x7d\x7d".toList then
    some ("rate_limit_exceeded", "x", "client_error")
  else if d = "\x7b\"error\":\x7b\"code\":\"rate_limit_exceeded\",\"message\":\"x\",\"type\":\"client_error\",\"param\":\"n\"\x7d\x7d".toList then
    some ("rate_limit_exceeded", "x", "client_error")
  else if d = "\x7b\x7d".toList ∨ d = "\x7b\"message\":\"oops\"\x7d".toList then some ("", "", "")
  else none

/-- The example library behaviour with `exampleUnmarshalError` as decoder of error bodies. -/
def errorEnv : Env := { exampleEnv with unmarshalError := exampleUnmarshalError }

/-- A response with the given status whose body delivers the given chunks and ends cleanly. -/
def exampleHTTPResponse (status : Int) (chunks : List String) : Response :=
  { StatusCode := status, Body := exampleBody chunks }

/-- A response whose body fails with `connection reset` after the given chunks. -/
def brokenResponse (status : Int) (chunks : List String) : Response :=
  { StatusCode := status,
    Body := { exampleBody chunks with term := .other "connection reset" } }

/-- The decimal numeral of an integer, as `%d` prints it. -/
def decimal (z : Int) : String :=
  if z < 0 then "-" ++ Nat.repr z.natAbs else Nat.repr z.natAbs

/-! ## Models (`pkg/models/models.go`) -/

/-- The type `models.Model`, a string. -/
abbrev Model := String

/-- The constant `MoonshotV18K`. -/
def MoonshotV18K : Model := "moonshot-v1-8k"

/-- The constant `MoonshotV132K`. -/
def MoonshotV132K : Model := "moonshot-v1-32k"

/-- The constant `MoonshotV1128K`. -/
def MoonshotV1128K : Model := "moonshot-v1-128k"

/-- The constant `KimiK2`. -/
def KimiK2 : Model := "kimi-k2"

/-- The constant `KimiK2Base`. -/
def KimiK2Base : Model := "kimi-k2-base"

/-- The constant `KimiK2Instruct`. -/
def KimiK2Instruct : Model := "kimi-k2-instruct"

/-- The legacy alias `Moonshot8K`. -/
def Moonshot8K : Model := MoonshotV18K

/-- The legacy alias `Moonshot32K`. -/
def Moonshot32K : Model := MoonshotV132K

/-- The legacy alias `Moonshot128K`. -/
def Moonshot128K : Model := MoonshotV1128K

/-- The method `Model.IsValid`. -/
def Model.IsValid (m : Model) : Bool :=
  if m = MoonshotV18K ∨ m = MoonshotV132K ∨ m = MoonshotV1128K ∨
      m = KimiK2 ∨ m = KimiK2Base ∨ m = KimiK2Instruct then true
  else false

/-- The method `Model.MaxTokens`. -/
def Model.MaxTokens (m : Model) : Int :=
  if m = MoonshotV18K then 8192
  else if m = MoonshotV132K then 32768
  else if m = MoonshotV1128K then 131072
  else if m = KimiK2 ∨ m = KimiK2Base ∨ m = KimiK2Instruct then 131072
  else 0

/-- The method `Model.SupportsTools`. -/
def Model.SupportsTools (m : Model) : Bool :=
  Model.IsValid m

/-- The method `Model.SupportsVision`. -/
def Model.SupportsVision (m : Model) : Bool :=
  if m = KimiK2 ∨ m = KimiK2Instruct then true else false

/-! ## Pointer helpers (`pkg/utils/pointers.go`) -/

/-- The cells of one type that pointers point to; addresses below `next` are allocated. -/
structure Cells (α : Type) where
  val : Ptr → α
  next : Ptr

/-- The statement `return &v`: a fresh cell holding `v`, and the pointer to it
(`none` is the nil pointer). -/
def Cells.addressOf {α : Type} (c : Cells α) (v : α) : Option Ptr × Cells α :=
  (some c.next, { val := fun a => if a = c.next then v else c.val a, next := c.next + 1 })

/-- The statements `if v != nil { return *v }; return zero`. -/
def Cells.valueOr {α : Type} (c : Cells α) (zero : α) (v : Option Ptr) : α :=
  match v with
  | some p => c.val p
  | none => zero

/-- A Go `float32`, identified by its IEEE-754 bit pattern. -/
structure Float32 where
  bits : Nat
deriving DecidableEq, Repr

/-- A Go `time.Time`: the fields `wall`, `ext` and `loc` (`none` is the nil location). -/
structure Time where
  wall : Nat
  ext : Int
  loc : Option String
deriving DecidableEq, Repr

/-- The zero value `time.Time{}`. -/
def Time.zero : Time := { wall := 0, ext := 0, loc := none }

/-- The Go type `string`. -/
abbrev GoString := String

/-- The Go types `int` and `int64`. -/
abbrev GoInt := Int

/-- The Go type `bool`. -/
abbrev GoBool := Bool

/-- The Go type `float32`. -/
abbrev GoFloat32 := Float32

/-- The Go type `float64`. -/
abbrev GoFloat64 := Float64

/-- The Go type `time.Time`. -/
abbrev GoTime := Time

/-- The function `utils.String`. -/
def utils.String (c : Cells GoString) (v : GoString) : Option Ptr × Cells GoString :=
  c.addressOf v

/-- The function `utils.StringValue`. -/
def utils.StringValue (c : Cells GoString) (v : Option Ptr) : GoString :=
  c.valueOr "" v

/-- The function `utils.Int`. -/
def utils.Int (c : Cells GoInt) (v : GoInt) : Option Ptr × Cells GoInt :=
  c.addressOf v

/-- The function `utils.IntValue`. -/
def utils.IntValue (c : Cells GoInt) (v : Option Ptr) : GoInt :=
  c.valueOr 0 v

/-- The function `utils.Int64`. -/
def utils.Int64 (c : Cells GoInt) (v : GoInt) : Option Ptr × Cells GoInt :=
  c.addressOf v

/-- The function `utils.Int64Value`. -/
def utils.Int64Value (c : Cells GoInt) (v : Option Ptr) : GoInt :=
  c.valueOr 0 v

/-- The function `utils.Float32`. -/
def utils.Float32 (c : Cells GoFloat32) (v : GoFloat32) : Option Ptr × Cells GoFloat32 :=
  c.addressOf v

/-- The function `utils.Float32Value`. -/
def utils.Float32Value (c : Cells GoFloat32) (v : Option Ptr) : GoFloat32 :=
  c.valueOr ⟨0⟩ v

/-- The function `utils.Float64`. -/
def utils.Float64 (c : Cells GoFloat64) (v : GoFloat64) : Option Ptr × Cells GoFloat64 :=
  c.addressOf v

/-- The function `utils.Float64Value`. -/
def utils.Float64Value (c : Cells GoFloat64) (v : Option Ptr) : GoFloat64 :=
  c.valueOr ⟨0⟩ v

/-- The function `utils.Bool`. -/
def utils.Bool (c : Cells GoBool) (v : GoBool) : Option Ptr × Cells GoBool :=
  c.addressOf v

/-- The function `utils.BoolValue`. -/
def utils.BoolValue (c : Cells GoBool) (v : Option Ptr) : GoBool :=
  c.valueOr false v

/-- The function `utils.Time`. -/
def utils.Time (c : Cells GoTime) (v : GoTime) : Option Ptr × Cells GoTime :=
  c.addressOf v

/-- The function `utils.TimeValue`. -/
def utils.TimeValue (c : Cells GoTime) (v : Option Ptr) : GoTime :=
  c.valueOr { wall := 0, ext := 0, loc := none } v

/-! ## Construction of the client (`pkg/client/client.go`) -/

/-- The constant `defaultBaseURL`. -/
def defaultBaseURL : String := "https://api.moonshot.ai/v1"

/-- The constant `EnvAPIKey`. -/
def EnvAPIKey : String := "MOONSHOT_API_KEY"

/-- The constant `Version`. -/
def Version : String := "0.1.0"

/-- The struct `client.Client` as `New` builds it, with the field `httpClient`
the pointer it is: nil (`none`) or an `http.Client`, given by its `Do` (in
`Client`, on which the services run, the pointer is not nil). -/
structure ClientStruct where
  httpClient : Option (HTTPRequest → Except GoError Response)
  baseURL : String
  apiKey : String
  userAgent : String

/-- A value of the type `client.Option`, a `func(*Client)`: the closure returned
by one of the four constructors of the package, or any other function value,
given by the client it leaves, `none` when its call does not return (a panic;
the nil function value is the function that panics on every client). -/
inductive ClientOption where
  | WithHTTPClient (httpClient : Option (HTTPRequest → Except GoError Response))
  | WithBaseURL (baseURL : String)
  | WithTimeout (timeout : Int)
  | WithUserAgent (userAgent : String)
  | custom (f : ClientStruct → Option ClientStruct)

/-- The call `v(c)` of an option, `none` when it panics; `setTimeout` is the
assignment of the field `Timeout` of an `http.Client`. The closure of
`WithTimeout` runs `c.httpClient.Timeout = timeout`, a nil pointer dereference
when `c.httpClient` is nil. -/
def ClientOption.apply
    (setTimeout : Int → (HTTPRequest → Except GoError Response) →
      HTTPRequest → Except GoError Response) :
    ClientOption → ClientStruct → Option ClientStruct
  | .WithHTTPClient httpClient, c => some { c with httpClient := httpClient }
  | .WithBaseURL baseURL, c => some { c with baseURL := baseURL }
  | .WithTimeout timeout, c =>
    match c.httpClient with
    | none => none
    | some httpClient => some { c with httpClient := some (setTimeout timeout httpClient) }
  | .WithUserAgent userAgent, c => some { c with userAgent := userAgent }
  | .custom f, c => f c

/-- A parameter of `New`, an `interface{}`: a string, an `Option`, a plain
`func(*Client)` (given by the client it leaves, as in `ClientOption.custom`),
or a value of another type. -/
inductive Param where
  | string (v : String)
  | option (v : ClientOption)
  | func (v : ClientStruct → Option ClientStruct)
  | other

/-- The body of the loop of `New`: the type switch on one parameter. -/
def Client.applyParam
    (setTimeout : Int → (HTTPRequest → Except GoError Response) →
      HTTPRequest → Except GoError Response)
    (c : ClientStruct) : Param → Option ClientStruct
  | .string v => some { c with apiKey := v }
  | .option v => v.apply setTimeout c
  | .func v => v c
  | .other => some c

/-- The loop of `New` over the parameters; a panic ends it. -/
def Client.applyParams
    (setTimeout : Int → (HTTPRequest → Except GoError Response) →
      HTTPRequest → Except GoError Response) :
    ClientStruct → List Param → Option ClientStruct
  | c, [] => some c
  | c, p :: ps =>
    match Client.applyParam setTimeout c p with
    | none => none
    | some c1 => Client.applyParams setTimeout c1 ps

/-- The function `client.New`, `none` when it panics; `defaultHTTP` is the
`http.Client` with the default timeout and `getenv` is `os.Getenv` at the time
`New` calls it. -/
def Client.New (defaultHTTP : HTTPRequest → Except GoError Response)
    (setTimeout : Int → (HTTPRequest → Except GoError Response) →
      HTTPRequest → Except GoError Response)
    (getenv : String → String) (params : List Param) : Option ClientStruct :=
  let c : ClientStruct :=
    { httpClient := some defaultHTTP, baseURL := defaultBaseURL, apiKey := "",
      userAgent := "go-moonshot/" ++ Version }
  -- Process parameters
  match Client.applyParams setTimeout c params with
  | none => none
  | some c =>
    -- If no API key provided, try environment variable
    some (if c.apiKey = "" then { c with apiKey := getenv EnvAPIKey } else c)

/-- The method `Client.BaseURL`. -/
def ClientStruct.BaseURL (c : ClientStruct) : String := c.baseURL

/-- The method `Client.APIKey`. -/
def ClientStruct.APIKey (c : ClientStruct) : String := c.apiKey

/-- The last string of a parameter list, if it has one. -/
def lastString : List Param → Option String
  | [] => none
  | p :: ps =>
    match lastString ps with
    | some s => some s
    | none =>
      match p with
      | .string v => some v
      | _ => none

/-- The URL of the last `WithBaseURL` option of a parameter list, if it has one. -/
def lastBaseURL : List Param → Option String
  | [] => none
  | p :: ps =>
    match lastBaseURL ps with
    | some s => some s
    | none =>
      match p with
      | .option (.WithBaseURL u) => some u
      | _ => none

/-- A parameter whose call, if it is a function value that no constructor of
the package built, returns and leaves the key and the base URL of the client
as they are, and an HTTP client that is not nil not nil. -/
def Param.WellBehaved : Param → Prop
  | .option (.custom f) =>
    ∀ c, ∃ c1, f c = some c1 ∧ c1.apiKey = c.apiKey ∧ c1.baseURL = c.baseURL ∧
      (c.httpClient.isSome = true → c1.httpClient.isSome = true)
  | .func f =>
    ∀ c, ∃ c1, f c = some c1 ∧ c1.apiKey = c.apiKey ∧ c1.baseURL = c.baseURL ∧
      (c.httpClient.isSome = true → c1.httpClient.isSome = true)
  | _ => True

/-- Whether a parameter list holds a `WithTimeout` option at a place where the
HTTP client may be nil: after a `WithHTTPClient(nil)` option with no
`WithHTTPClient` option of a client that is not nil in between. `isNil` tells
whether the client may be nil at the start of the list. -/
def timeoutOnNil : Bool → List Param → Bool
  | _, [] => false
  | _, .option (.WithHTTPClient httpClient) :: ps => timeoutOnNil httpClient.isNone ps
  | isNil, .option (.WithTimeout _) :: ps => isNil || timeoutOnNil isNil ps
  | isNil, _ :: ps => timeoutOnNil isNil ps

/-- An HTTP client that fails every request. -/
def noHTTP : HTTPRequest → Except GoError Response := fun _ => .error (.other "no network")

/-- An environment in which `MOONSHOT_API_KEY` is `env-key`. -/
def exampleGetenv (name : String) : String :=
  if name = "MOONSHOT_API_KEY" then "env-key" else ""

/-! ## Listing files (`pkg/files/files.go`) and the query a server decodes -/

/-- The struct `types.File`. -/
structure File where
  ID : String
  Object : String
  Bytes : Int
  CreatedAt : Int
  Filename : String
  Purpose : String
  Status : String
  StatusDetails : Option String
deriving DecidableEq, Repr

/-- The struct `types.FileListParams`. -/
structure FileListParams where
  Purpose : String
deriving DecidableEq, Repr

/-- The struct `types.FileListResponse`. -/
structure FileListResponse where
  Data : List File
  Object : String
deriving DecidableEq, Repr

/-- The HTTP request that `Client.Request` builds when its `body` is nil. -/
structure PlainRequest where
  method : String
  url : String
  authorization : String
  contentType : String
  userAgent : String
deriving DecidableEq, Repr

/-- The method `Client.Request` with a nil `body`; `send` is `httpClient.Do` on a
request without body. Returns the result and the requests handed to `send`. -/
def Client.RequestNoBody (env : Env) (send : PlainRequest → Except GoError Response)
    (c : Client) (method path : String) : Except GoError Response × List PlainRequest :=
  let url := c.baseURL ++ path
  match env.newRequestError method url with
  | some e => (.error (.wrap "creating request" e), [])
  | none =>
    let req : PlainRequest :=
      { method := method, url := url, authorization := "Bearer " ++ c.apiKey,
        contentType := "application/json", userAgent := c.userAgent }
    match send req with
    | .error e => (.error (.wrap "performing request" e), [req])
    | .ok resp => (.ok resp, [req])

/-- The constant `filesEndpoint`. -/
def filesEndpoint : String := "/files"

/-- The struct `files.Service`. -/
structure FilesService where
  client : Client

/-- What `List` leaves behind: its result, the requests it handed to the
transport and the response it received, after the deferred `Close`. -/
structure ListCall where
  result : Except GoError FileListResponse
  sent : List PlainRequest
  response : Option Response

/-- The method `files.Service.List`; `decodeList` is the call
`json.NewDecoder(resp.Body).Decode(&listResp)` on the data and the end of a body. -/
def FilesService.List (env : Env) (send : PlainRequest → Except GoError Response)
    (decodeList : List Char → GoError → Except GoError FileListResponse)
    (s : FilesService) (params : Option FileListParams) : ListCall :=
  let endpoint :=
    match params with
    | some p => if p.Purpose ≠ "" then filesEndpoint ++ "?purpose=" ++ p.Purpose else filesEndpoint
    | none => filesEndpoint
  match s.client.RequestNoBody env send "GET" endpoint with
  | (.error err, sent) => { result := .error err, sent := sent, response := none }
  | (.ok resp, sent) =>
    if resp.StatusCode ≠ 200 then
      let (err, resp1) := HandleErrorResponse env resp
      { result := .error err, sent := sent,
        response := some { resp1 with Body := resp1.Body.Close.2 } }
    else
      let closed : Response := { resp with Body := resp.Body.Close.2 }
      match decodeList resp.Body.pending.flatten resp.Body.term with
      | .error err =>
        { result := .error (.wrap "decoding response" err), sent := sent,
          response := some closed }
      | .ok listResp => { result := .ok listResp, sent := sent, response := some closed }

/-- The function `strings.Cut` for a separator of one character: the text before
the first separator and the text after it (all the text and nothing when there is none). -/
def cutAt (sep : Char) : List Char → List Char × List Char
  | [] => ([], [])
  | c :: cs => if c = sep then ([], cs) else (c :: (cutAt sep cs).1, (cutAt sep cs).2)

/-- The raw query of a URL as `url.Parse` finds it: what follows the first `?`
of the text before the first `#`. -/
def rawQuery (url : List Char) : List Char :=
  (cutAt '?' (cutAt '#' url).1).2

/-- The value of a hexadecimal digit. -/
def hexValue (c : Char) : Option Nat :=
  if '0' ≤ c ∧ c ≤ '9' then some (c.toNat - '0'.toNat)
  else if 'a' ≤ c ∧ c ≤ 'f' then some (c.toNat - 'a'.toNat + 10)
  else if 'A' ≤ c ∧ c ≤ 'F' then some (c.toNat - 'A'.toNat + 10)
  else none

/-- The function `url.QueryUnescape`: `+` is a blank and `%XY` the byte with that
code; `none` for a malformed escape. The byte is taken as the character of
that code, which is what Go yields for the escape of an ASCII byte; the escaped
bytes of a character beyond ASCII, which Go reads as UTF-8, are not described. -/
def QueryUnescape : List Char → Option (List Char)
  | [] => some []
  | c :: rest =>
    if c = '%' then
      match rest with
      | a :: b :: rest2 =>
        match hexValue a, hexValue b, QueryUnescape rest2 with
        | some x, some y, some r => some (Char.ofNat (16 * x + y) :: r)
        | _, _, _ => none
      | _ => none
    else
      match QueryUnescape rest with
      | some r => some ((if c = '+' then ' ' else c) :: r)
      | none => none

/-- The pieces of a query between its `&` separators (`strings.Cut` in a loop). -/
def queryPieces : List Char → List (List Char)
  | [] => []
  | c :: cs =>
    if c = '&' then [] :: queryPieces cs
    else
      match queryPieces cs with
      | [] => [[c]]
      | x :: xs => (c :: x) :: xs

/-- The function `url.ParseQuery` without its error: a piece that is empty,
holds a `;` or has a malformed escape is dropped; the others give a key and a
value, cut at the first `=` and unescaped. -/
def ParseQuery (query : List Char) : List (List Char × List Char) :=
  (queryPieces query).filterMap fun piece =>
    if ';' ∈ piece ∨ piece = [] then none
    else
      match QueryUnescape (cutAt '=' piece).1, QueryUnescape (cutAt '=' piece).2 with
      | some k, some v => some (k, v)
      | _, _ => none

/-- The call `r.URL.Query().Get(key)` of a server on the request with the given
URL: the first value of the key, or the empty string. -/
def queryGet (url : String) (key : String) : String :=
  match (ParseQuery (rawQuery url.toList)).find? (fun kv => kv.1 = key.toList) with
  | some kv => String.mk kv.2
  | none => ""

/-- A client with the default base URL and the key `test-key`. -/
def filesClient : Client :=
  { httpClient := noHTTP, baseURL := "https://api.moonshot.ai/v1", apiKey := "test-key",
    userAgent := "go-moonshot/0.1.0" }

/-- A transport that answers every request without body with 200 and an empty list. -/
def filesSend (_ : PlainRequest) : Except GoError Response :=
  .ok { StatusCode := 200, Body := exampleBody ["\x7b\x7d"] }

/-- A decoder of list responses that yields the empty list. -/
def filesDecode (_ : List Char) (_ : GoError) : Except GoError FileListResponse :=
  .ok { Data := [], Object := "list" }

/-! # Theorems -/

/-! ## Lines and `ReadString` -/

theorem splitLine_eq_none {s : List Char} : splitLine s = none ↔ '\n' ∉ s := by
  induction s with
  | nil => simp [splitLine]
  | cons c cs ih =>
    by_cases hc : c = '\n'
    · simp [splitLine, hc]
    · have hc2 : ¬ '\n' = c := fun h => hc h.symm
      cases hs : splitLine cs with
      | none => simp [splitLine, hc, hc2, hs, ih.mp hs]
      | some p =>
        have : ¬ ('\n' ∉ cs) := fun h => by rw [ih.mpr h] at hs; cases hs
        simp only [not_not] at this
        simp [splitLine, hc, hs, this]

theorem splitLine_append_cons {l r : List Char} (h : '\n' ∉ l) :
    splitLine (l ++ '\n' :: r) = some (l ++ ['\n'], r) := by
  induction l with
  | nil => simp [splitLine]
  | cons c cs ih =>
    have hc : c ≠ '\n' := fun e => h (by simp [e])
    have hcs : '\n' ∉ cs := fun e => h (by simp [e])
    simp [splitLine, hc, ih hcs]

theorem splitLine_eq_some {s l r : List Char} (h : splitLine s = some (l, r)) :
    ∃ l0, '\n' ∉ l0 ∧ l = l0 ++ ['\n'] ∧ s = l0 ++ '\n' :: r := by
  induction s generalizing l r with
  | nil => simp [splitLine] at h
  | cons c cs ih =>
    by_cases hc : c = '\n'
    · simp [splitLine, hc] at h
      exact ⟨[], by simp, by simp [h.1], by simp [hc, h.2]⟩
    · cases hs : splitLine cs with
      | none => simp [splitLine, hc, hs] at h
      | some p =>
        obtain ⟨l1, r1⟩ := p
        simp [splitLine, hc, hs] at h
        obtain ⟨l0, h0, h1, h2⟩ := ih hs
        refine ⟨c :: l0, ?_, ?_, ?_⟩
        · simp [h0]; exact fun e => hc e.symm
        · simp [← h.1, h1]
        · simp [h2, h.2]

theorem splitLine_append_of_some {a b l r : List Char} (h : splitLine a = some (l, r)) :
    splitLine (a ++ b) = some (l, r ++ b) := by
  obtain ⟨l0, h0, h1, h2⟩ := splitLine_eq_some h
  subst h1 h2
  simpa using splitLine_append_cons (r := r ++ b) h0

/-- On a body that does not refuse reads, `ReadString` returns the first line of the text that the
buffer and the chunks hold together, and leaves the rest of that text. -/
theorem ReadString_line (term : GoError) (chunks : List (List Char)) (buf l r : List Char)
    (h : splitLine (buf ++ chunks.flatten) = some (l, r)) :
    ∃ buf1 chunks1, ReadString none term buf chunks = ((l, none), buf1, chunks1) ∧
      buf1 ++ chunks1.flatten = r ∧
      buf1.length + (chunks1.map List.length).sum + l.length
        = buf.length + (chunks.map List.length).sum := by
  induction chunks generalizing buf with
  | nil =>
    simp at h
    obtain ⟨l0, h0, h1, h2⟩ := splitLine_eq_some h
    refine ⟨r, [], ?_, by simp, ?_⟩
    · simp [ReadString, h]
    · subst h1 h2; simp; omega
  | cons c cs ih =>
    cases hb : splitLine buf with
    | some p =>
      obtain ⟨l1, r1⟩ := p
      have := splitLine_append_of_some (b := (c :: cs).flatten) hb
      rw [this] at h
      simp at h
      obtain ⟨l0, h0, h1, h2⟩ := splitLine_eq_some hb
      refine ⟨r1, c :: cs, ?_, ?_, ?_⟩
      · simp [ReadString, hb, h.1]
      · simp [← h.2]
      · subst h2; simp [← h.1, h1]; omega
    | none =>
      have h2 : splitLine ((buf ++ c) ++ cs.flatten) = some (l, r) := by simpa using h
      obtain ⟨buf1, chunks1, e1, e2, e3⟩ := ih (buf ++ c) h2
      refine ⟨buf1, chunks1, ?_, e2, ?_⟩
      · simp [ReadString, hb, e1]
      · simp at e3 ⊢; omega

/-- On a body that does not refuse reads and with no newline left, `ReadString` returns all the text and the
error that ends the body, and leaves nothing. -/
theorem ReadString_end (term : GoError) (chunks : List (List Char)) (buf : List Char)
    (h : splitLine (buf ++ chunks.flatten) = none) :
    ReadString none term buf chunks = ((buf ++ chunks.flatten, some term), [], []) := by
  induction chunks generalizing buf with
  | nil =>
    simp at h
    simp [ReadString, h]
  | cons c cs ih =>
    have hb : splitLine buf = none := by
      rw [splitLine_eq_none] at h ⊢
      exact fun e => h (by simp [e])
    have h2 : splitLine ((buf ++ c) ++ cs.flatten) = none := by simpa using h
    simp [ReadString, hb, ih (buf ++ c) h2]

/-! ## The loop of `Read` -/

theorem readLoop_succ (env : Env) (fuel : Nat) (sr : StreamReader) :
    StreamReader.readLoop env (fuel + 1) sr =
      match sr.nextLine.2 with
      | some e =>
        if e = .eof then some (.error .eof, sr.advance)
        else some (.error (.wrap "reading stream" e), sr.advance)
      | none =>
        match decodeLine env sr.nextLine.1 with
        | none => StreamReader.readLoop env fuel sr.advance
        | some res => some (res, sr.advance) := by
  simp only [StreamReader.readLoop, StreamReader.nextLine, StreamReader.advance, decodeLine]
  generalize ReadString sr.body.refusal sr.body.term sr.buffered sr.body.pending = res
  obtain ⟨⟨line, err⟩, buf, chunks⟩ := res
  cases err with
  | some e => simp
  | none =>
    simp only
    split_ifs <;> try rfl
    cases env.unmarshalStream (TrimPrefix (TrimSpace line) dataMarker) <;> rfl

theorem ReadString_size (refusal : Option GoError) (term : GoError) (chunks : List (List Char))
    (buf : List Char) (h : (ReadString refusal term buf chunks).1.2 = none) :
    (ReadString refusal term buf chunks).2.1.length
        + ((ReadString refusal term buf chunks).2.2.map List.length).sum
      < buf.length + (chunks.map List.length).sum := by
  induction chunks generalizing buf with
  | nil =>
    cases hb : splitLine buf with
    | none => cases refusal <;> simp [ReadString, hb] at h
    | some p =>
      obtain ⟨l1, r1⟩ := p
      obtain ⟨l0, h0, h1, h2⟩ := splitLine_eq_some hb
      subst h2
      simp [ReadString, hb]
      omega
  | cons c cs ih =>
    cases hb : splitLine buf with
    | none =>
      cases refusal
      · simp [ReadString, hb] at h ⊢
        have := ih (buf ++ c) h
        simp at this
        omega
      · simp [ReadString, hb] at h
    | some p =>
      obtain ⟨l1, r1⟩ := p
      obtain ⟨l0, h0, h1, h2⟩ := splitLine_eq_some hb
      subst h2
      simp [ReadString, hb]
      omega

theorem advance_size (sr : StreamReader) (h : sr.nextLine.2 = none) :
    sr.advance.size < sr.size := by
  simpa [StreamReader.size, StreamReader.advance] using
    ReadString_size _ sr.body.term sr.body.pending sr.buffered h

/-- Fuel beyond the size of the reader does not change what `readLoop` computes. -/
theorem readLoop_fuel (env : Env) (fuel : Nat) :
    ∀ sr : StreamReader, sr.size < fuel →
      StreamReader.readLoop env fuel sr = StreamReader.Read env sr := by
  induction fuel using Nat.strong_induction_on with
  | _ fuel ih =>
    intro sr hlt
    cases fuel with
    | zero => omega
    | succ f =>
      rw [StreamReader.Read, readLoop_succ, readLoop_succ]
      cases he : sr.nextLine.2 with
      | some e => rfl
      | none =>
        simp only
        cases decodeLine env sr.nextLine.1 with
        | some res => rfl
        | none =>
          simp only
          have hs := advance_size sr he
          rw [ih f (by omega) sr.advance (by omega), ih sr.size (by omega) sr.advance hs]

/-- One step of `Read`: the `ReadString` call, then the decision on its line. -/
theorem Read_step (env : Env) (sr : StreamReader) :
    StreamReader.Read env sr =
      match sr.nextLine.2 with
      | some e =>
        if e = .eof then some (.error .eof, sr.advance)
        else some (.error (.wrap "reading stream" e), sr.advance)
      | none =>
        match decodeLine env sr.nextLine.1 with
        | none => StreamReader.Read env sr.advance
        | some res => some (res, sr.advance) := by
  rw [StreamReader.Read, readLoop_succ]
  cases he : sr.nextLine.2 with
  | some e => rfl
  | none =>
    simp only
    cases decodeLine env sr.nextLine.1 with
    | some res => rfl
    | none => exact readLoop_fuel env sr.size sr.advance (advance_size sr he)

/-- The method `Read` returns on every reader: the fuel never runs out. -/
theorem Read_isSome (env : Env) (sr : StreamReader) : (StreamReader.Read env sr).isSome := by
  generalize hn : sr.size = n
  induction n using Nat.strong_induction_on generalizing sr with
  | _ n ih =>
    rw [Read_step]
    cases he : sr.nextLine.2 with
    | some e => simp only; split_ifs <;> rfl
    | none =>
      simp only
      cases decodeLine env sr.nextLine.1 with
      | some res => rfl
      | none => exact ih _ (hn ▸ advance_size sr he) sr.advance rfl

theorem Feeds.line {sr : StreamReader} {term : GoError} {l r : List Char}
    (h : Feeds sr term (l ++ '\n' :: r)) (hl : '\n' ∉ l) :
    sr.nextLine = (l ++ ['\n'], none) ∧ Feeds sr.advance term r ∧
      sr.advance.hasResponse = sr.hasResponse ∧
      sr.advance.body.closeResult = sr.body.closeResult := by
  have hs : splitLine (sr.buffered ++ sr.body.pending.flatten) = some (l ++ ['\n'], r) := by
    have := h.input_eq
    rw [StreamReader.input] at this
    rw [this]
    exact splitLine_append_cons hl
  obtain ⟨buf1, chunks1, e1, e2, -⟩ := ReadString_line sr.body.term _ _ _ _ hs
  have hc : sr.body.refusal = none := by simp [Body.refusal, h.isOpen]
  refine ⟨?_, ⟨?_, ?_, ?_⟩, ?_, ?_⟩
  · simp [StreamReader.nextLine, hc, e1]
  · simp [StreamReader.advance, h.isOpen]
  · simp [StreamReader.advance, h.term_eq]
  · simp [StreamReader.advance, StreamReader.input, hc, e1, e2]
  · simp [StreamReader.advance]
  · simp [StreamReader.advance]

theorem Feeds.ending {sr : StreamReader} {term : GoError} {text : List Char}
    (h : Feeds sr term text) (hl : '\n' ∉ text) :
    sr.nextLine = (text, some term) ∧ Feeds sr.advance term [] ∧
      sr.advance.hasResponse = sr.hasResponse ∧
      sr.advance.body.closeResult = sr.body.closeResult := by
  have hi := h.input_eq
  rw [StreamReader.input] at hi
  have hs : splitLine (sr.buffered ++ sr.body.pending.flatten) = none := by
    rw [hi]; exact splitLine_eq_none.mpr hl
  have e1 := ReadString_end sr.body.term _ _ hs
  have hc : sr.body.refusal = none := by simp [Body.refusal, h.isOpen]
  refine ⟨?_, ⟨?_, ?_, ?_⟩, ?_, ?_⟩
  · rw [StreamReader.nextLine, hc, e1, hi, h.term_eq]
  · simp [StreamReader.advance, h.isOpen]
  · simp [StreamReader.advance, h.term_eq]
  · simp [StreamReader.advance, StreamReader.input, hc, e1]
  · simp [StreamReader.advance]
  · simp [StreamReader.advance]

/-- One `Read` on a reader that feeds complete lines and an unterminated tail
returns what `nextResult` computes from the lines, and leaves a reader that feeds
the lines left (and the tail, unless the call reached the end of the body). -/
theorem Read_lines (env : Env) (term : GoError) (tail : List Char) (htail : '\n' ∉ tail) :
    ∀ (ls : List (List Char)) (sr : StreamReader), (∀ l ∈ ls, '\n' ∉ l) →
      Feeds sr term (joinLines ls ++ tail) →
      ∃ sr1 tail1, StreamReader.Read env sr = some ((nextResult env term ls).1, sr1) ∧
        Feeds sr1 term (joinLines (nextResult env term ls).2 ++ tail1) ∧ '\n' ∉ tail1 ∧
        (tail1 = tail ∨ tail1 = []) ∧
        sr1.hasResponse = sr.hasResponse ∧ sr1.body.closeResult = sr.body.closeResult := by
  intro ls
  induction ls with
  | nil =>
    intro sr _ h
    have h0 : Feeds sr term tail := by simpa [joinLines] using h
    obtain ⟨e1, e2, e3, e4⟩ := h0.ending htail
    refine ⟨sr.advance, [], ?_, by simpa [joinLines, nextResult] using e2, by simp, Or.inr rfl,
      e3, e4⟩
    rw [Read_step, e1]
    simp only [nextResult, endResult]
    split_ifs <;> rfl
  | cons l ls ih =>
    intro sr hls h
    have hl : '\n' ∉ l := hls l (by simp)
    have hls1 : ∀ x ∈ ls, '\n' ∉ x := fun x hx => hls x (by simp [hx])
    have h0 : Feeds sr term (l ++ '\n' :: (joinLines ls ++ tail)) := by
      simpa [joinLines] using h
    obtain ⟨e1, e2, e3, e4⟩ := h0.line hl
    rw [Read_step, e1]
    simp only [nextResult]
    cases hd : decodeLine env (l ++ ['\n']) with
    | none =>
      simp only
      obtain ⟨sr1, tail1, a1, a2, a3, a4, a5, a6⟩ := ih sr.advance hls1 e2
      exact ⟨sr1, tail1, a1, a2, a3, a4, a5.trans e3, a6.trans e4⟩
    | some r =>
      exact ⟨sr.advance, tail, rfl, e2, htail, Or.inl rfl, e3, e4⟩

/-- Successive `Read` calls on a reader that feeds complete lines and an
unterminated tail return what `results` computes from the lines. -/
theorem reads_lines (env : Env) (term : GoError) :
    ∀ (n : Nat) (ls : List (List Char)) (tail : List Char) (sr : StreamReader),
      (∀ l ∈ ls, '\n' ∉ l) → '\n' ∉ tail → Feeds sr term (joinLines ls ++ tail) →
      (StreamReader.reads env n sr).map Prod.fst = some (results env term n ls) := by
  intro n
  induction n with
  | zero => intro ls tail sr _ _ _; simp [StreamReader.reads, results]
  | succ n ih =>
    intro ls tail sr hls htail h
    obtain ⟨sr1, tail1, a1, a2, a3, -, -, -⟩ := Read_lines env term tail htail ls sr hls h
    have hls1 : ∀ l ∈ (nextResult env term ls).2, '\n' ∉ l := by
      clear a1 a2 h
      induction ls with
      | nil => simp [nextResult]
      | cons l ls ih2 =>
        simp only [nextResult]
        cases decodeLine env (l ++ ['\n']) with
        | none => exact ih2 (fun x hx => hls x (by simp [hx]))
        | some r => exact fun x hx => hls x (by simp [hx])
    have := ih _ tail1 sr1 hls1 a3 a2
    simp only [StreamReader.reads, a1, results]
    cases hr : StreamReader.reads env n sr1 with
    | none => simp [hr] at this
    | some p => simp [hr] at this ⊢; exact this

/-! ## `TrimSpace` and the decision on a line -/

theorem TrimSpace_eq (s : List Char) : TrimSpace s = (s.dropWhile isSpace).rdropWhile isSpace := rfl

theorem dropWhile_append_of_ne_nil {p : Char → Bool} {x y : List Char}
    (h : x.dropWhile p ≠ []) : (x ++ y).dropWhile p = x.dropWhile p ++ y := by
  induction x with
  | nil => simp at h
  | cons c cs ih =>
    by_cases hc : p c
    · simp only [List.cons_append, List.dropWhile_cons, hc, if_true] at h ⊢
      exact ih h
    · simp [List.dropWhile_cons, hc]

theorem rdropWhile_append_of_ne_nil {p : Char → Bool} {a b : List Char}
    (h : b.rdropWhile p ≠ []) : (a ++ b).rdropWhile p = a ++ b.rdropWhile p := by
  have h2 : b.reverse.dropWhile p ≠ [] := by
    intro e; apply h; simp [List.rdropWhile, e]
  simp [List.rdropWhile, dropWhile_append_of_ne_nil h2]

theorem dropWhile_eq_nil_of_all {p : Char → Bool} {x : List Char} (h : x.all p = true) :
    x.dropWhile p = [] := by
  simpa using h

theorem TrimSpace_of_all {s : List Char} (h : s.all isSpace = true) : TrimSpace s = [] := by
  simp [TrimSpace_eq, dropWhile_eq_nil_of_all h]

theorem isSpace_newline : isSpace '\n' = true := by decide

/-- The newline that ends a line does not survive `TrimSpace`. -/
theorem TrimSpace_append_newline (l : List Char) : TrimSpace (l ++ ['\n']) = TrimSpace l := by
  by_cases h : l.dropWhile isSpace = []
  · have hall : l.all isSpace = true := by simpa using h
    have h2 : (l ++ ['\n']).all isSpace = true := by simp [List.all_append, hall, isSpace_newline]
    rw [TrimSpace_of_all hall, TrimSpace_of_all h2]
  · rw [TrimSpace_eq, TrimSpace_eq, dropWhile_append_of_ne_nil h,
      List.rdropWhile_concat_pos _ _ _ isSpace_newline]

theorem TrimSpace_cons_of_not_space {c : Char} (x : List Char) (h : isSpace c = false) :
    TrimSpace (c :: x) = (c :: x).rdropWhile isSpace := by
  simp [TrimSpace_eq, List.dropWhile_cons, h]

/-- A line `data: <p>` whose payload has a character that is not white space:
trimming keeps the marker and the payload without its trailing white space. -/
theorem TrimSpace_data (p : List Char) (h : p.rdropWhile isSpace ≠ []) :
    TrimSpace (dataMarker ++ p ++ ['\n']) = dataMarker ++ p.rdropWhile isSpace := by
  rw [TrimSpace_append_newline]
  have : dataMarker ++ p = 'd' :: ("ata: ".toList ++ p) := rfl
  rw [this, TrimSpace_cons_of_not_space _ (by decide), ← this, rdropWhile_append_of_ne_nil h]

theorem HasPrefix_append (p s : List Char) : HasPrefix (p ++ s) p = true := by
  simp [HasPrefix]

theorem TrimPrefix_append (p s : List Char) : TrimPrefix (p ++ s) p = s := by
  simp [TrimPrefix, HasPrefix]

theorem decodeLine_data (env : Env) (p : List Char) (h : p.rdropWhile isSpace ≠ []) :
    decodeLine env (dataMarker ++ p ++ ['\n']) =
      if p.rdropWhile isSpace = doneSentinel then some (.error .eof)
      else
        match env.unmarshalStream (p.rdropWhile isSpace) with
        | .error e => some (.error (.wrap "parsing stream chunk" e))
        | .ok chunk => some (.ok chunk) := by
  have hne : dataMarker ++ p.rdropWhile isSpace ≠ [] := by simp [dataMarker]
  simp only [decodeLine, TrimSpace_data p h, HasPrefix_append, TrimPrefix_append, if_neg hne,
    Bool.not_true, Bool.false_eq_true, if_false]

theorem decodeLine_skip (env : Env) (l : List Char)
    (h : TrimSpace l = [] ∨ HasPrefix (TrimSpace l) dataMarker = false) :
    decodeLine env (l ++ ['\n']) = none := by
  simp only [decodeLine, TrimSpace_append_newline]
  rcases h with h | h
  · simp [h]
  · simp [h]

theorem rdropWhile_of_getLast {p : Char → Bool} {s : List Char} {c : Char}
    (h : s.getLast? = some c) (hc : p c = false) : s.rdropWhile p = s := by
  rcases List.eq_nil_or_concat s with e | ⟨s0, c0, e⟩
  · simp [e] at h
  · subst e
    simp at h
    subst h
    rw [List.concat_eq_append]
    exact List.rdropWhile_concat_neg p s0 c0 (by simp [hc])

/-! ## Lines of a stream and their results -/

theorem joinLines_append (a b : List (List Char)) :
    joinLines (a ++ b) = joinLines a ++ joinLines b := by
  simp [joinLines]

theorem joinLines_cons (l : List Char) (ls : List (List Char)) :
    joinLines (l :: ls) = l ++ '\n' :: joinLines ls := by
  simp [joinLines]

/-- Every text is a list of complete lines followed by an unterminated tail. -/
theorem exists_lines (text : List Char) :
    ∃ (ls : List (List Char)) (tail : List Char),
      (∀ l ∈ ls, '\n' ∉ l) ∧ '\n' ∉ tail ∧ text = joinLines ls ++ tail := by
  induction text with
  | nil => exact ⟨[], [], by simp, by simp, by simp [joinLines]⟩
  | cons c cs ih =>
    obtain ⟨ls, tail, h1, h2, h3⟩ := ih
    by_cases hc : c = '\n'
    · refine ⟨[] :: ls, tail, ?_, h2, ?_⟩
      · intro l hl
        rcases List.mem_cons.mp hl with e | e
        · simp [e]
        · exact h1 l e
      · simp [joinLines_cons, hc, h3]
    · cases ls with
      | nil =>
        refine ⟨[], c :: tail, by simp, ?_, by simpa [joinLines] using h3⟩
        simp [h2]; exact fun e => hc e.symm
      | cons l ls =>
        refine ⟨(c :: l) :: ls, tail, ?_, h2, ?_⟩
        · intro x hx
          rcases List.mem_cons.mp hx with e | e
          · have := h1 l (by simp)
            simp [e, this]; exact fun e => hc e.symm
          · exact h1 x (by simp [e])
        · simp [joinLines_cons, h3]

theorem Blank.skipped {l : List Char} (h : Blank l) : Skipped l :=
  Or.inl (TrimSpace_of_all h.1)

theorem nextResult_skip (env : Env) (term : GoError) (bs rest : List (List Char))
    (h : ∀ b ∈ bs, Skipped b) :
    nextResult env term (bs ++ rest) = nextResult env term rest := by
  induction bs with
  | nil => rfl
  | cons b bs ih =>
    have hb := decodeLine_skip env b (h b (by simp))
    simp only [List.cons_append, nextResult, hb]
    exact ih (fun x hx => h x (by simp [hx]))

theorem decodeLine_json (env : Env) (json : List Char) (e : ChatCompletionStream)
    (h1 : json.getLast? = some '}') (h2 : env.unmarshalStream json = .ok e) :
    decodeLine env (dataMarker ++ json ++ ['\n']) = some (.ok e) := by
  have hr : json.rdropWhile isSpace = json := rdropWhile_of_getLast h1 (by decide)
  have hne : json.rdropWhile isSpace ≠ [] := by
    rw [hr]; intro e0; simp [e0] at h1
  have hd : json ≠ doneSentinel := by
    intro e0; rw [e0] at h1; revert h1; decide
  rw [decodeLine_data env json hne, hr, if_neg hd, h2]

theorem decodeLine_done (env : Env) : decodeLine env (doneLine ++ ['\n']) = some (.error .eof) := by
  have hr : doneSentinel.rdropWhile isSpace = doneSentinel := by decide
  have := decodeLine_data env doneSentinel (by rw [hr]; decide)
  rw [hr, if_pos rfl] at this
  exact this

theorem results_sseLines (env : Env) (term : GoError) (items : List DataLine)
    (h : ∀ d ∈ items, d.WellFormed env) (n : Nat) (rest : List (List Char)) :
    results env term (items.length + n) (sseLines items ++ rest) =
      items.map (fun d => .ok d.event) ++ results env term n rest := by
  induction items with
  | nil => simp [sseLines]
  | cons d ds ih =>
    obtain ⟨hb, -, hl, hu⟩ := h d (by simp)
    have e1 : nextResult env term (sseLines (d :: ds) ++ rest) =
        (.ok d.event, sseLines ds ++ rest) := by
      simp only [sseLines, List.append_assoc]
      rw [nextResult_skip env term _ _ (fun b hb1 => (hb b hb1).skipped)]
      simp only [List.cons_append, nextResult, decodeLine_json env d.json d.event hl hu]
      rfl
    have e2 : (d :: ds).length + n = (ds.length + n) + 1 := by simp; omega
    rw [e2, results, e1]
    simp [ih (fun x hx => h x (by simp [hx]))]

theorem sseLines_no_newline (env : Env) (items : List DataLine)
    (h : ∀ d ∈ items, d.WellFormed env) : ∀ l ∈ sseLines items, '\n' ∉ l := by
  induction items with
  | nil => simp [sseLines]
  | cons d ds ih =>
    obtain ⟨hb, hn, -, -⟩ := h d (by simp)
    intro l hl
    simp only [sseLines, List.mem_append, List.mem_cons] at hl
    rcases hl with e | e | e
    · exact (hb l e).2
    · subst e
      simp [hn, dataMarker]
    · exact ih (fun x hx => h x (by simp [hx])) l e

/-! ## C1: data lines, then the sentinel -/

theorem results_nil (env : Env) (term : GoError) (n : Nat) :
    results env term n [] = List.replicate n (endResult term) := by
  induction n with
  | zero => rfl
  | succ n ih => simp [results, nextResult, ih, List.replicate_succ]

/-- The data lines, then a sentinel line that ends with a newline. -/
theorem reads_then_done_line (env : Env) (term : GoError) (items : List DataLine)
    (blanks : List (List Char)) (after : List Char) (sr : StreamReader)
    (hitems : ∀ d ∈ items, d.WellFormed env) (hblanks : ∀ b ∈ blanks, Blank b)
    (h : Feeds sr term (joinLines (sseLines items ++ blanks ++ [doneLine]) ++ after)) :
    (StreamReader.reads env (items.length + 1) sr).map Prod.fst =
      some (items.map (fun d => .ok d.event) ++ [.error .eof]) := by
  obtain ⟨la, tail, h1, h2, h3⟩ := exists_lines after
  have hf : Feeds sr term (joinLines (sseLines items ++ (blanks ++ doneLine :: la)) ++ tail) := by
    have e : joinLines (sseLines items ++ blanks ++ [doneLine]) ++ after =
        joinLines (sseLines items ++ (blanks ++ doneLine :: la)) ++ tail := by
      rw [h3]
      simp [joinLines_append, joinLines_cons, joinLines]
    rw [← e]; exact h
  have hls : ∀ l ∈ sseLines items ++ (blanks ++ doneLine :: la), '\n' ∉ l := by
    intro l hl
    simp only [List.mem_append, List.mem_cons] at hl
    rcases hl with e | e | e | e
    · exact sseLines_no_newline env items hitems l e
    · exact (hblanks l e).2
    · subst e; decide
    · exact h1 l e
  rw [reads_lines env term _ _ tail sr hls h2 hf, results_sseLines env term items hitems]
  have e1 : nextResult env term (blanks ++ doneLine :: la) = (.error .eof, la) := by
    rw [nextResult_skip env term _ _ (fun b hb => (hblanks b hb).skipped)]
    simp only [nextResult, decodeLine_done]
  simp [results, e1]

/-- The data lines, then a sentinel line that the clean end of the stream cuts
before its newline. -/
theorem reads_then_done_at_end (env : Env) (items : List DataLine)
    (blanks : List (List Char)) (sr : StreamReader)
    (hitems : ∀ d ∈ items, d.WellFormed env) (hblanks : ∀ b ∈ blanks, Blank b)
    (h : Feeds sr .eof (joinLines (sseLines items ++ blanks) ++ doneLine)) :
    (StreamReader.reads env (items.length + 1) sr).map Prod.fst =
      some (items.map (fun d => .ok d.event) ++ [.error .eof]) := by
  have hls : ∀ l ∈ sseLines items ++ blanks, '\n' ∉ l := by
    intro l hl
    rcases List.mem_append.mp hl with e | e
    · exact sseLines_no_newline env items hitems l e
    · exact (hblanks l e).2
  rw [reads_lines env .eof _ _ doneLine sr hls (by decide) h,
    results_sseLines env .eof items hitems]
  have e1 : nextResult env .eof blanks = (.error .eof, []) := by
    have := nextResult_skip env .eof blanks [] (fun b hb => (hblanks b hb).skipped)
    rw [List.append_nil] at this
    rw [this]
    rfl
  simp [results, e1]

/-- C1. For a stream made of `n` data lines `data: <json_i>`, each payload a JSON
object that decodes to the event `e_i`, possibly separated by blank lines, and
followed by the line `data: [DONE]` (ended by a newline, or cut by the clean end
of the stream), `n + 1` successive `Read` calls return `e_1, ..., e_n` in this
order and then `io.EOF` with no event, whatever the stream holds after the
sentinel line and however the body delivers it. -/
theorem reads_data_lines_then_done (env : Env) (term : GoError) (items : List DataLine)
    (blanks : List (List Char)) (after : List Char) (sr : StreamReader)
    (hitems : ∀ d ∈ items, d.WellFormed env) (hblanks : ∀ b ∈ blanks, Blank b)
    (hafter : after.head? = some '\n' ∨ (after = [] ∧ term = .eof))
    (h : Feeds sr term (joinLines (sseLines items ++ blanks) ++ doneLine ++ after)) :
    (StreamReader.reads env (items.length + 1) sr).map Prod.fst =
      some (items.map (fun d => .ok d.event) ++ [.error .eof]) := by
  rcases hafter with ha | ⟨ha, ht⟩
  · cases after with
    | nil => simp at ha
    | cons c rest =>
      simp only [List.head?_cons, Option.some.injEq] at ha
      subst ha
      apply reads_then_done_line env term items blanks rest sr hitems hblanks
      have e : joinLines (sseLines items ++ blanks ++ [doneLine]) ++ rest =
          joinLines (sseLines items ++ blanks) ++ doneLine ++ '\n' :: rest := by
        simp [joinLines_append, joinLines_cons, joinLines]
      rw [e]; exact h
  · subst ha ht
    apply reads_then_done_at_end env items blanks sr hitems hblanks
    simpa using h

theorem reads_data_lines_then_done_witness :
    (StreamReader.reads exampleEnv 3
        (exampleReader ["data: \x7b\"id\":\"1\"\x7d\n\ndata: \x7b\"i", "d\":\"2\"\x7d\n",
          "\ndata: [DONE]\n\n"])).map Prod.fst =
      some [.ok (exampleEvent "\x7b\"id\":\"1\"\x7d"), .ok (exampleEvent "\x7b\"id\":\"2\"\x7d"),
            .error .eof] :=
  reads_data_lines_then_done exampleEnv .eof exampleItems [[]] ['\n', '\n'] _
    (by decide) (by decide) (Or.inl rfl) ⟨rfl, rfl, by decide⟩

theorem results_cons_skip (env : Env) (term : GoError) (n : Nat) (l : List Char)
    (ls : List (List Char)) (h : decodeLine env (l ++ ['\n']) = none) :
    results env term n (l :: ls) = results env term n ls := by
  cases n with
  | zero => rfl
  | succ n => simp only [results, nextResult, h]

theorem results_cons_some (env : Env) (term : GoError) (n : Nat) (l : List Char)
    (ls : List (List Char)) (r : Except GoError ChatCompletionStream)
    (h : decodeLine env (l ++ ['\n']) = some r) :
    results env term (n + 1) (l :: ls) = r :: results env term n ls := by
  simp only [results, nextResult, h]

theorem HasPrefix_nil_dataMarker : HasPrefix [] dataMarker = false := by decide

/-- On a line that is not the sentinel line, `Read` decides as the wire format says. -/
theorem decodeLine_eq_lineEvent (env : Env) (l : List Char) (h : TrimSpace l ≠ doneLine) :
    decodeLine env (l ++ ['\n']) = lineEvent env l := by
  simp only [decodeLine, lineEvent, TrimSpace_append_newline]
  by_cases h0 : TrimSpace l = []
  · simp [h0, HasPrefix_nil_dataMarker]
  · by_cases h1 : HasPrefix (TrimSpace l) dataMarker = true
    · have h2 : TrimPrefix (TrimSpace l) dataMarker ≠ doneSentinel := by
        intro e
        apply h
        have hp : dataMarker <+: TrimSpace l := by simpa [HasPrefix] using h1
        obtain ⟨t, ht⟩ := hp
        rw [← ht, TrimPrefix_append] at e
        rw [← ht, e, doneLine]
      simp only [h0, h1, h2, if_false, if_true, Bool.not_true, Bool.false_eq_true]
      cases env.unmarshalStream (TrimPrefix (TrimSpace l) dataMarker) <;> rfl
    · simp [h0, h1]

theorem results_no_sentinel (env : Env) (ls : List (List Char))
    (h : ∀ l ∈ ls, TrimSpace l ≠ doneLine) (m : Nat) :
    results env .eof ((ls.filterMap (lineEvent env)).length + m) ls =
      ls.filterMap (lineEvent env) ++ List.replicate m (.error .eof) := by
  induction ls with
  | nil => simp [results_nil, endResult]
  | cons l ls ih =>
    have hd := decodeLine_eq_lineEvent env l (h l (by simp))
    have ih1 := ih (fun x hx => h x (by simp [hx]))
    cases hl : lineEvent env l with
    | none =>
      rw [hl] at hd
      simp only [List.filterMap_cons, hl]
      rw [results_cons_skip env .eof _ l ls hd, ih1]
    | some r =>
      rw [hl] at hd
      simp only [List.filterMap_cons, hl, List.length_cons]
      have e : (ls.filterMap (lineEvent env)).length + 1 + m
          = ((ls.filterMap (lineEvent env)).length + m) + 1 := by omega
      rw [e, results_cons_some env .eof _ l ls r hd, ih1]
      rfl

/-! ## C2: a stream that closes without sentinel -/

/-- C2 fails as stated. A stream that closes without sentinel after the
unterminated line `data: {"id":"1"}`: the payload is well formed, yet the first
`Read` already returns `io.EOF` and the event is never returned. And on the
stream `data: oops\n` the first `Read` returns an error that is not `io.EOF`. -/
theorem reads_without_sentinel_counterexample :
    exampleEnv.unmarshalStream "\x7b\"id\":\"1\"\x7d".toList = .ok (exampleEvent "\x7b\"id\":\"1\"\x7d") ∧
    (StreamReader.reads exampleEnv 2 (exampleReader ["data: \x7b\"id\":\"1\"\x7d"])).map Prod.fst =
      some [.error .eof, .error .eof] ∧
    (StreamReader.reads exampleEnv 2 (exampleReader ["data: oops\n"])).map Prod.fst =
      some [.error (.wrap "parsing stream chunk" (.other "invalid character")), .error .eof] := by
  decide

/-- C2, amended. On a stream that closes cleanly and has no sentinel line, the
successive `Read` calls return one result for each newline-terminated line that,
trimmed, starts with `data: `, in order (the event of a well-formed payload,
the decode error of a malformed one), and `io.EOF` on every call after them.
What follows the last newline is not decoded. -/
theorem reads_without_sentinel (env : Env) (ls : List (List Char)) (tail : List Char)
    (sr : StreamReader) (m : Nat) (hls : ∀ l ∈ ls, '\n' ∉ l)
    (hdone : ∀ l ∈ ls, TrimSpace l ≠ doneLine) (htail : '\n' ∉ tail)
    (h : Feeds sr .eof (joinLines ls ++ tail)) :
    (StreamReader.reads env ((ls.filterMap (lineEvent env)).length + m) sr).map Prod.fst =
      some (ls.filterMap (lineEvent env) ++ List.replicate m (.error .eof)) := by
  rw [reads_lines env .eof _ ls tail sr hls htail h, results_no_sentinel env ls hdone m]

theorem reads_without_sentinel_witness :
    (StreamReader.reads exampleEnv 4
        (exampleReader ["data: \x7b\"id\":\"1\"\x7d\nevent: x\nda", "ta: oops\n\ndata: \x7b\"id\":\"2\"\x7d"])).map
      Prod.fst =
      some [.ok (exampleEvent "\x7b\"id\":\"1\"\x7d"),
            .error (.wrap "parsing stream chunk" (.other "invalid character")),
            .error .eof, .error .eof] :=
  reads_without_sentinel exampleEnv
    ["data: \x7b\"id\":\"1\"\x7d".toList, "event: x".toList, "data: oops".toList, []]
    "data: \x7b\"id\":\"2\"\x7d".toList _ 2 (by decide) (by decide) (by decide) ⟨rfl, rfl, by decide⟩

/-! ## C3: a malformed payload -/

/-- A `Read` passes over the skipped lines at the head of the stream. -/
theorem Read_skip_lines (env : Env) (term : GoError) (text : List Char) :
    ∀ (skipped : List (List Char)) (sr : StreamReader),
      (∀ l ∈ skipped, '\n' ∉ l ∧ Skipped l) → Feeds sr term (joinLines skipped ++ text) →
      ∃ sr1, Feeds sr1 term text ∧ StreamReader.Read env sr = StreamReader.Read env sr1 := by
  intro skipped
  induction skipped with
  | nil => intro sr _ h; exact ⟨sr, by simpa [joinLines] using h, rfl⟩
  | cons l ls ih =>
    intro sr hs h
    obtain ⟨hl, hk⟩ := hs l (by simp)
    have h0 : Feeds sr term (l ++ '\n' :: (joinLines ls ++ text)) := by
      simpa [joinLines_cons] using h
    obtain ⟨e1, e2, -, -⟩ := h0.line hl
    obtain ⟨sr1, a1, a2⟩ := ih sr.advance (fun x hx => hs x (by simp [hx])) e2
    refine ⟨sr1, a1, ?_⟩
    rw [Read_step, e1]
    simp only [decodeLine_skip env l hk]
    exact a2

/-- C3 fails as stated. The payload of the line `data: ` is empty: it is neither
`[DONE]` nor valid JSON, yet the `Read` that reaches the line returns no error;
it skips the line and returns the event of the next one. -/
theorem malformed_payload_counterexample :
    exampleEnv.unmarshalStream [] = .error (.other "invalid character") ∧
    (StreamReader.reads exampleEnv 1 (exampleReader ["data: \ndata: \x7b\"id\":\"2\"\x7d\n"])).map
      Prod.fst = some [.ok (exampleEvent "\x7b\"id\":\"2\"\x7d")] := by
  decide

/-- C3, amended. For a newline-terminated line `data: <p>` whose payload has a
character that is not white space and, without its trailing white space, is
neither `[DONE]` nor decodable, the `Read` that reaches the line (after the
skipped lines before it) returns no event and the decode error wrapped as
`parsing stream chunk`, which is not `io.EOF`; the line is consumed. -/
theorem malformed_payload_is_decode_error (env : Env) (term : GoError)
    (skipped : List (List Char)) (p rest : List Char) (e : GoError) (sr : StreamReader)
    (hskip : ∀ l ∈ skipped, '\n' ∉ l ∧ Skipped l) (hp : '\n' ∉ p)
    (hne : p.rdropWhile isSpace ≠ []) (hdone : p.rdropWhile isSpace ≠ doneSentinel)
    (hbad : env.unmarshalStream (p.rdropWhile isSpace) = .error e)
    (h : Feeds sr term (joinLines skipped ++ (dataMarker ++ p ++ '\n' :: rest))) :
    ∃ sr1, StreamReader.Read env sr = some (.error (.wrap "parsing stream chunk" e), sr1) ∧
      GoError.wrap "parsing stream chunk" e ≠ .eof ∧ Feeds sr1 term rest := by
  obtain ⟨sr0, h0, e0⟩ := Read_skip_lines env term _ skipped sr hskip h
  have hl : '\n' ∉ dataMarker ++ p := by simp [hp, dataMarker]
  obtain ⟨e1, e2, -, -⟩ := h0.line hl
  refine ⟨sr0.advance, ?_, by simp, e2⟩
  rw [e0, Read_step, e1]
  simp only [decodeLine_data env p hne, if_neg hdone, hbad]

theorem malformed_payload_is_decode_error_witness :
    ∃ sr1, StreamReader.Read exampleEnv
        (exampleReader ["\nevent: message\ndata: \x7b\"id\" \t\ndata: [DONE]\n"]) =
          some (.error (.wrap "parsing stream chunk" (.other "invalid character")), sr1) ∧
      GoError.wrap "parsing stream chunk" (.other "invalid character") ≠ .eof ∧
      Feeds sr1 .eof "data: [DONE]\n".toList :=
  malformed_payload_is_decode_error exampleEnv .eof [[], "event: message".toList]
    "\x7b\"id\" \t".toList "data: [DONE]\n".toList (.other "invalid character") _
    (by decide) (by decide) (by decide) (by decide) (by decide) ⟨rfl, rfl, by decide⟩

/-! ## C4: inserting lines that are skipped -/

theorem results_insert_skipped (env : Env) (term : GoError) (l : List Char)
    (post : List (List Char)) (hk : Skipped l) :
    ∀ (n : Nat) (pre : List (List Char)),
      results env term n (pre ++ l :: post) = results env term n (pre ++ post) := by
  intro n
  induction n with
  | zero => intro pre; rfl
  | succ n ih =>
    intro pre
    induction pre with
    | nil => exact results_cons_skip env term _ l post (decodeLine_skip env l hk)
    | cons x xs ihx =>
      cases hx : decodeLine env (x ++ ['\n']) with
      | none =>
        rw [List.cons_append, List.cons_append, results_cons_skip env term _ x _ hx,
          results_cons_skip env term _ x _ hx]
        exact ihx
      | some r =>
        rw [List.cons_append, List.cons_append, results_cons_some env term _ x _ r hx,
          results_cons_some env term _ x _ r hx, ih xs]

/-- C4 fails as stated. The line ` data: {"id":"1"}` does not start with `data: `
(it starts with a blank), yet inserting it into the empty stream changes the
result of the first `Read` from `io.EOF` to an event. -/
theorem insert_line_counterexample :
    HasPrefix " data: \x7b\"id\":\"1\"\x7d".toList dataMarker = false ∧
    (StreamReader.reads exampleEnv 1 (exampleReader [])).map Prod.fst = some [.error .eof] ∧
    (StreamReader.reads exampleEnv 1 (exampleReader [" data: \x7b\"id\":\"1\"\x7d\n"])).map Prod.fst =
      some [.ok (exampleEvent "\x7b\"id\":\"1\"\x7d")] := by
  decide

/-- C4, amended. Inserting, at the start of any line of a stream, a
newline-terminated line that after `TrimSpace` is empty or does not start with
`data: ` leaves the results of the successive `Read` calls unchanged. -/
theorem insert_skipped_line (env : Env) (term : GoError) (pre post : List (List Char))
    (l tail : List Char) (sr sr1 : StreamReader) (n : Nat)
    (hpre : ∀ x ∈ pre, '\n' ∉ x) (hpost : ∀ x ∈ post, '\n' ∉ x) (htail : '\n' ∉ tail)
    (hl : '\n' ∉ l) (hk : Skipped l)
    (h : Feeds sr term (joinLines (pre ++ post) ++ tail))
    (h1 : Feeds sr1 term (joinLines (pre ++ l :: post) ++ tail)) :
    (StreamReader.reads env n sr1).map Prod.fst = (StreamReader.reads env n sr).map Prod.fst := by
  have a : ∀ x ∈ pre ++ post, '\n' ∉ x := by
    intro x hx
    rcases List.mem_append.mp hx with e | e
    · exact hpre x e
    · exact hpost x e
  have b : ∀ x ∈ pre ++ l :: post, '\n' ∉ x := by
    intro x hx
    simp only [List.mem_append, List.mem_cons] at hx
    rcases hx with e | e | e
    · exact hpre x e
    · exact e ▸ hl
    · exact hpost x e
  rw [reads_lines env term n _ tail sr a htail h, reads_lines env term n _ tail sr1 b htail h1,
    results_insert_skipped env term l post hk n pre]

theorem insert_skipped_line_witness :
    (StreamReader.reads exampleEnv 3
        (exampleReader ["data: \x7b\"id\":\"1\"\x7d\nevent: message\ndata: [DONE]\n"])).map Prod.fst =
    (StreamReader.reads exampleEnv 3
        (exampleReader ["data: \x7b\"id\":\"1\"\x7d\ndata: [DONE]\n"])).map Prod.fst :=
  insert_skipped_line exampleEnv .eof ["data: \x7b\"id\":\"1\"\x7d".toList] ["data: [DONE]".toList]
    "event: message".toList [] _ _ 3 (by decide) (by decide) (by decide) (by decide)
    (by decide) ⟨rfl, rfl, by decide⟩ ⟨rfl, rfl, by decide⟩

/-! ## C5: reading after termination or `Close` -/

/-- A complete line in the buffer is returned without a read of the body. -/
theorem ReadString_buffered (refusal : Option GoError) (term : GoError) (buf l r : List Char)
    (chunks : List (List Char)) (h : splitLine buf = some (l, r)) :
    ReadString refusal term buf chunks = ((l, none), r, chunks) := by
  cases chunks <;> simp [ReadString, h]

/-- Without a complete line in the buffer, a body that refuses reads makes
`ReadString` fail with the body's error. -/
theorem ReadString_refused (e term : GoError) (buf : List Char) (chunks : List (List Char))
    (h : splitLine buf = none) :
    ReadString (some e) term buf chunks = ((buf, some e), [], chunks) := by
  cases chunks <;> simp [ReadString, h]

theorem Close_closes (sr : StreamReader) (h : sr.hasResponse = true) :
    0 < sr.Close.2.body.closes ∧ sr.Close.2.buffered = sr.buffered ∧
      sr.Close.2.body.closedRead = sr.body.closedRead := by
  simp [StreamReader.Close, h, Body.Close]

theorem Close_sameInput (sr : StreamReader) (h : sr.body.closedRead = none) :
    sr.Close.2.SameInput sr := by
  unfold StreamReader.Close
  split_ifs <;> simp [StreamReader.SameInput, Body.Close, Body.refusal, h]

theorem StreamReader.SameInput.nextLine {a b : StreamReader} (h : a.SameInput b) : a.nextLine = b.nextLine := by
  obtain ⟨h1, h2, h3, h4⟩ := h
  simp only [StreamReader.nextLine, h1, h2, h3, h4]

theorem StreamReader.SameInput.advance {a b : StreamReader} (h : a.SameInput b) :
    a.advance.SameInput b.advance := by
  obtain ⟨h1, h2, h3, h4⟩ := h
  refine ⟨?_, ?_, ?_, ?_⟩
  · simp only [StreamReader.advance, h1, h2, h3, h4]
  · simp only [StreamReader.advance, h1, h2, h3, h4]
  · simpa [StreamReader.advance] using h3
  · simpa [StreamReader.advance, Body.refusal] using h4

/-- Two readers with the same input return the same result and stay so. -/
theorem Read_sameInput (env : Env) (a b : StreamReader) (h : a.SameInput b) :
    ∃ r a1 b1, StreamReader.Read env a = some (r, a1) ∧ StreamReader.Read env b = some (r, b1) ∧
      a1.SameInput b1 := by
  generalize hn : a.size = n
  induction n using Nat.strong_induction_on generalizing a b with
  | _ n ih =>
    rw [Read_step env a, Read_step env b, ← h.nextLine]
    cases he : a.nextLine.2 with
    | some e =>
      simp only
      split_ifs
      · exact ⟨_, _, _, rfl, rfl, h.advance⟩
      · exact ⟨_, _, _, rfl, rfl, h.advance⟩
    | none =>
      simp only
      cases hd : decodeLine env a.nextLine.1 with
      | some res => exact ⟨_, _, _, rfl, rfl, h.advance⟩
      | none => exact ih _ (hn ▸ advance_size a he) a.advance b.advance h.advance rfl

theorem reads_sameInput (env : Env) (n : Nat) :
    ∀ a b : StreamReader, a.SameInput b →
      (StreamReader.reads env n a).map Prod.fst = (StreamReader.reads env n b).map Prod.fst := by
  induction n with
  | zero => intro a b _; rfl
  | succ n ih =>
    intro a b h
    obtain ⟨r, a1, b1, ea, eb, h1⟩ := Read_sameInput env a b h
    have := ih a1 b1 h1
    simp only [StreamReader.reads, ea, eb]
    cases hx : StreamReader.reads env n a1 <;> cases hy : StreamReader.reads env n b1 <;>
      simp_all

/-- Every `Read` on a reader whose buffer holds no complete line and whose body
refuses reads returns the body's error. -/
theorem reads_refused (env : Env) (e : GoError) (n : Nat) :
    ∀ sr : StreamReader, sr.body.refusal = some e → splitLine sr.buffered = none →
      (StreamReader.reads env n sr).map Prod.fst = some (List.replicate n (endResult e)) := by
  induction n with
  | zero => intro sr _ _; rfl
  | succ n ih =>
    intro sr hr hs
    have e1 : sr.nextLine = (sr.buffered, some e) := by
      simp only [StreamReader.nextLine, hr, ReadString_refused e _ _ _ hs]
    have e2 : sr.advance.buffered = [] := by
      simp only [StreamReader.advance, hr, ReadString_refused e _ _ _ hs]
    have e3 : sr.advance.body.refusal = some e := by
      simpa [StreamReader.advance, Body.refusal] using hr
    have e4 : StreamReader.Read env sr = some (endResult e, sr.advance) := by
      rw [Read_step, e1]
      simp only [endResult]
      split_ifs <;> rfl
    have := ih sr.advance e3 (by rw [e2]; rfl)
    simp only [StreamReader.reads, e4]
    cases hx : StreamReader.reads env n sr.advance with
    | none => simp [hx] at this
    | some p =>
      obtain ⟨rs, sr2⟩ := p
      simp [hx] at this
      simp [this, List.replicate_succ]

/-- On a body that goes on delivering after `Close`, the `Read` calls after
`Close` return the events of the stream and then `io.EOF`. -/
theorem reads_after_lenient_close :
    (StreamReader.reads exampleEnv 3 (StreamReader.Close lenientCloseReader).2).map Prod.fst =
      some [.ok (exampleEvent "\x7b\"id\":\"1\"\x7d"), .ok (exampleEvent "\x7b\"id\":\"2\"\x7d"),
            .error .eof] := by
  decide

/-- C5 fails as stated. After the sentinel line the first `Read` returns `io.EOF`
(clean termination); the next `Read` does not fail: it returns the event of the
line that follows the sentinel. -/
theorem read_after_sentinel_counterexample :
    (StreamReader.reads exampleEnv 2
        (exampleReader ["data: [DONE]\ndata: \x7b\"id\":\"2\"\x7d\n"])).map Prod.fst =
      some [.error .eof, .ok (exampleEvent "\x7b\"id\":\"2\"\x7d")] := by
  decide

/-- C5, amended. The reader keeps no closed or exhausted state. (1) Once a stream
that closes cleanly has no complete line left, every `Read` returns `io.EOF`
and none returns an event. (2) The `Read` that meets the sentinel line returns
`io.EOF` and leaves a reader that goes on with the text after that line.
(3) After `Close`, a `Read` still decides on the first line in the buffer as
before, whatever the body. (4) After `Close` with no complete line in the
buffer, `Read` asks the body, and the body decides: when it refuses reads once
closed with an error `e`, every later `Read` returns `e` wrapped as
`reading stream` (`io.EOF` itself when `e` is `io.EOF`); (5) when it goes on
delivering, the later `Read` calls return what they would have returned without
the `Close`. -/
theorem reader_keeps_no_closed_state (env : Env) :
    (∀ (sr : StreamReader) (tail : List Char) (n : Nat), '\n' ∉ tail → Feeds sr .eof tail →
      (StreamReader.reads env n sr).map Prod.fst = some (List.replicate n (.error .eof))) ∧
    (∀ (sr : StreamReader) (term : GoError) (rest : List Char),
      Feeds sr term (doneLine ++ '\n' :: rest) →
      ∃ sr1, StreamReader.Read env sr = some (.error .eof, sr1) ∧ Feeds sr1 term rest) ∧
    (∀ (sr : StreamReader) (l r : List Char) (res : Except GoError ChatCompletionStream),
      sr.hasResponse = true → splitLine sr.buffered = some (l, r) →
      decodeLine env l = some res →
      ∃ sr1, StreamReader.Read env sr.Close.2 = some (res, sr1) ∧ sr1.buffered = r) ∧
    (∀ (sr : StreamReader) (e : GoError) (n : Nat), sr.hasResponse = true →
      sr.body.closedRead = some e → splitLine sr.buffered = none →
      (StreamReader.reads env n sr.Close.2).map Prod.fst =
        some (List.replicate n
          (if e = .eof then .error .eof else .error (.wrap "reading stream" e)))) ∧
    (∀ (sr : StreamReader) (n : Nat), sr.body.closedRead = none →
      (StreamReader.reads env n sr.Close.2).map Prod.fst =
        (StreamReader.reads env n sr).map Prod.fst) := by
  refine ⟨?_, ?_, ?_, ?_, ?_⟩
  · intro sr tail n htail h
    have h0 : Feeds sr .eof (joinLines [] ++ tail) := by simpa [joinLines] using h
    rw [reads_lines env .eof n [] tail sr (by simp) htail h0, results_nil]
    rfl
  · intro sr term rest h
    obtain ⟨e1, e2, -, -⟩ := h.line (by decide)
    refine ⟨sr.advance, ?_, e2⟩
    rw [Read_step, e1]
    simp only [decodeLine_done]
  · intro sr l r res hr hs hd
    obtain ⟨-, hb, -⟩ := Close_closes sr hr
    refine ⟨sr.Close.2.advance, ?_, ?_⟩
    · rw [Read_step]
      simp only [StreamReader.nextLine, hb, ReadString_buffered _ _ _ _ _ _ hs, hd]
    · simp only [StreamReader.advance, hb, ReadString_buffered _ _ _ _ _ _ hs]
  · intro sr e n hr he hs
    obtain ⟨hc, hb, hcr⟩ := Close_closes sr hr
    have h1 : sr.Close.2.body.refusal = some e := by simp [Body.refusal, hc, hcr, he]
    exact reads_refused env e n sr.Close.2 h1 (by rw [hb]; exact hs)
  · intro sr n h
    exact reads_sameInput env n _ _ (Close_sameInput sr h)

/-- The parts of the amended C5 at concrete streams: `io.EOF` again and again on
an exhausted stream; an event returned after `Close` from a buffered line; the
error of a closed net/http body, again and again, once the buffer holds no
complete line; and the events of a body that goes on delivering after `Close`. -/
theorem reader_keeps_no_closed_state_witness :
    (StreamReader.reads exampleEnv 3 (exampleReader ["data: \x7b\"id\""])).map Prod.fst =
      some [.error .eof, .error .eof, .error .eof] ∧
    (∃ sr1, StreamReader.Read exampleEnv
        (StreamReader.Close { buffered := "data: \x7b\"id\":\"2\"\x7d\nda".toList,
                              body := exampleBody ["ta: \x7b\x7d\n"], hasResponse := true }).2 =
          some (.ok (exampleEvent "\x7b\"id\":\"2\"\x7d"), sr1) ∧ sr1.buffered = "da".toList) ∧
    (StreamReader.reads exampleEnv 2
        (StreamReader.Close { buffered := "da".toList,
                              body := exampleBody ["ta: \x7b\x7d\n"], hasResponse := true }).2).map
        Prod.fst =
      some [.error (.wrap "reading stream" errReadOnClosedBody),
            .error (.wrap "reading stream" errReadOnClosedBody)] ∧
    (StreamReader.reads exampleEnv 2 (StreamReader.Close lenientCloseReader).2).map Prod.fst =
      (StreamReader.reads exampleEnv 2 lenientCloseReader).map Prod.fst :=
  ⟨(reader_keeps_no_closed_state exampleEnv).1 _ "data: \x7b\"id\"".toList 3 (by decide)
      ⟨rfl, rfl, by decide⟩,
   (reader_keeps_no_closed_state exampleEnv).2.2.1 _ "data: \x7b\"id\":\"2\"\x7d\n".toList "da".toList
      (.ok (exampleEvent "\x7b\"id\":\"2\"\x7d")) rfl (by decide) (by decide),
   (reader_keeps_no_closed_state exampleEnv).2.2.2.1 _ errReadOnClosedBody 2 rfl rfl (by decide),
   (reader_keeps_no_closed_state exampleEnv).2.2.2.2 lenientCloseReader 2 rfl⟩

/-! ## C6: closing twice -/

/-- C6 fails as stated. On a body whose `Close` reports an error when it is
already closed, the first `Close` of the reader returns nil and the second
returns that error: the reader calls `Body.Close` again. -/
theorem second_close_counterexample :
    strictCloseReader.Close.1 = none ∧
    strictCloseReader.Close.2.Close.1 = some (.other "already closed") ∧
    strictCloseReader.Close.2.Close.2.body.closes = 2 := by
  decide

/-- C6, amended. A second `Close` calls `Body.Close` once more and returns
what that call returns: it returns no error when the body answers nil to a
`Close` after the first, and for a reader without response both calls return nil
and leave the reader as it is. -/
theorem second_close_forwards (sr : StreamReader) :
    sr.Close.2.Close.1 =
        (if sr.hasResponse then sr.body.closeResult (sr.body.closes + 1) else none) ∧
    sr.Close.2.Close.2.body.closes =
        (if sr.hasResponse then sr.body.closes + 2 else sr.body.closes) ∧
    (sr.body.closeResult (sr.body.closes + 1) = none → sr.Close.2.Close.1 = none) := by
  cases h : sr.hasResponse <;> simp [StreamReader.Close, Body.Close, h]

theorem second_close_forwards_witness :
    (exampleReader ["data: [DONE]\n"]).Close.2.Close.1 = none :=
  (second_close_forwards (exampleReader ["data: [DONE]\n"])).2.2 rfl

/-! ## The request handed to the transport -/

theorem Request_sent_body (env : Env) (c : Client) (method path : String) (b : RequestBody)
    (r : HTTPRequest) (h : r ∈ (c.Request env method path b).2) : r.body = b := by
  unfold Client.Request at h
  cases hm : env.marshalError b with
  | some e => simp [hm] at h
  | none =>
    cases hn : env.newRequestError method (c.baseURL ++ path) with
    | some e => simp [hm, hn] at h
    | none =>
      simp only [hm, hn] at h
      split at h <;> simp at h <;> simp [h]

theorem CreateCompletion_sent (env : Env) (s : Service) (h : Heap) (req : ChatCompletionRequest) :
    (s.CreateCompletion env h req).sent =
      (s.client.Request env "POST" completionsEndpoint
        ((adjustRequest env false h req).1.body (adjustRequest env false h req).2)).2 := by
  unfold Service.CreateCompletion
  generalize adjustRequest env false h req = adj
  obtain ⟨req1, h1⟩ := adj
  simp only
  generalize s.client.Request env "POST" completionsEndpoint (req1.body h1) = res
  obtain ⟨res1, sent⟩ := res
  cases res1 with
  | error e => rfl
  | ok resp =>
    simp only
    split_ifs
    · rfl
    · cases env.decodeResponse resp.Body.pending.flatten resp.Body.term <;> rfl

theorem CreateCompletion_heap (env : Env) (s : Service) (h : Heap) (req : ChatCompletionRequest) :
    (s.CreateCompletion env h req).heap = (adjustRequest env false h req).2 := by
  unfold Service.CreateCompletion
  generalize adjustRequest env false h req = adj
  obtain ⟨req1, h1⟩ := adj
  simp only
  generalize s.client.Request env "POST" completionsEndpoint (req1.body h1) = res
  obtain ⟨res1, sent⟩ := res
  cases res1 with
  | error e => rfl
  | ok resp =>
    simp only
    split_ifs
    · rfl
    · cases env.decodeResponse resp.Body.pending.flatten resp.Body.term <;> rfl

theorem CreateCompletionStream_sent (env : Env) (s : Service) (h : Heap)
    (req : ChatCompletionRequest) :
    (s.CreateCompletionStream env h req).sent =
      (s.client.Request env "POST" completionsEndpoint
        ((adjustRequest env true h req).1.body (adjustRequest env true h req).2)).2 := by
  unfold Service.CreateCompletionStream Client.StreamRequest
  generalize adjustRequest env true h req = adj
  obtain ⟨req1, h1⟩ := adj
  simp only
  generalize s.client.Request env "POST" completionsEndpoint (req1.body h1) = res
  obtain ⟨res1, sent⟩ := res
  cases res1 with
  | error e => rfl
  | ok resp =>
    simp only
    split_ifs <;> rfl

theorem CreateCompletionStream_heap (env : Env) (s : Service) (h : Heap)
    (req : ChatCompletionRequest) :
    (s.CreateCompletionStream env h req).heap = (adjustRequest env true h req).2 := by
  unfold Service.CreateCompletionStream Client.StreamRequest
  generalize adjustRequest env true h req = adj
  obtain ⟨req1, h1⟩ := adj
  simp only
  generalize s.client.Request env "POST" completionsEndpoint (req1.body h1) = res
  obtain ⟨res1, sent⟩ := res
  cases res1 with
  | error e => rfl
  | ok resp =>
    simp only
    split_ifs <;> rfl

theorem adjustRequest_temperature (env : Env) (stream : Bool) (h : Heap)
    (req : ChatCompletionRequest) (p : Ptr) (ht : req.Temperature = some p) :
    ((adjustRequest env stream h req).1.body (adjustRequest env stream h req).2).Temperature =
      some (env.fmul (h.floats p) Float64.c06) := by
  simp [adjustRequest, ht, Heap.newBool, Heap.newFloat, ChatCompletionRequest.body]

theorem adjustRequest_stream (env : Env) (stream : Bool) (h : Heap)
    (req : ChatCompletionRequest) :
    ((adjustRequest env stream h req).1.body (adjustRequest env stream h req).2).Stream =
      some stream := by
  cases ht : req.Temperature <;>
    simp [adjustRequest, ht, Heap.newBool, Heap.newFloat, ChatCompletionRequest.body]

/-- The cells that were allocated before the call keep their content. -/
theorem adjustRequest_frame (env : Env) (stream : Bool) (h : Heap) (req : ChatCompletionRequest) :
    (∀ a, a < h.nextFloat → (adjustRequest env stream h req).2.floats a = h.floats a) ∧
    (∀ a, a < h.nextBool → (adjustRequest env stream h req).2.bools a = h.bools a) := by
  cases ht : req.Temperature with
  | none =>
    refine ⟨fun a _ => ?_, fun a ha => ?_⟩
    · simp [adjustRequest, ht, Heap.newBool]
    · have : a ≠ h.nextBool := Nat.ne_of_lt ha
      simp [adjustRequest, ht, Heap.newBool, this]
  | some p =>
    refine ⟨fun a ha => ?_, fun a ha => ?_⟩
    · have : a ≠ h.nextFloat := Nat.ne_of_lt ha
      simp [adjustRequest, ht, Heap.newBool, Heap.newFloat, this]
    · have : a ≠ h.nextBool := Nat.ne_of_lt ha
      simp [adjustRequest, ht, Heap.newBool, Heap.newFloat, this]

theorem body_congr (h h1 : Heap) (req : ChatCompletionRequest) (hv : req.ValidIn h)
    (hf : ∀ a, a < h.nextFloat → h1.floats a = h.floats a)
    (hb : ∀ a, a < h.nextBool → h1.bools a = h.bools a) : req.body h1 = req.body h := by
  obtain ⟨v1, v2, v3, v4, v5, v6⟩ := hv
  have e1 : req.Temperature.map h1.floats = req.Temperature.map h.floats := by
    cases e : req.Temperature with
    | none => rfl
    | some p => simp [hf p (v1 p e)]
  have e2 : req.TopP.map h1.floats = req.TopP.map h.floats := by
    cases e : req.TopP with
    | none => rfl
    | some p => simp [hf p (v2 p e)]
  have e3 : req.PresencePenalty.map h1.floats = req.PresencePenalty.map h.floats := by
    cases e : req.PresencePenalty with
    | none => rfl
    | some p => simp [hf p (v3 p e)]
  have e4 : req.FrequencyPenalty.map h1.floats = req.FrequencyPenalty.map h.floats := by
    cases e : req.FrequencyPenalty with
    | none => rfl
    | some p => simp [hf p (v4 p e)]
  have e5 : req.Stream.map h1.bools = req.Stream.map h.bools := by
    cases e : req.Stream with
    | none => rfl
    | some p => simp [hb p (v5 p e)]
  have e6 : req.ParallelToolCalls.map h1.bools = req.ParallelToolCalls.map h.bools := by
    cases e : req.ParallelToolCalls with
    | none => rfl
    | some p => simp [hb p (v6 p e)]
  simp only [ChatCompletionRequest.body, e1, e2, e3, e4, e5, e6]

/-! ## C7: the temperature on the wire -/

/-- C7. For a request whose `Temperature` points to a cell holding `t`, every
request body that `CreateCompletion` or `CreateCompletionStream` hands to the
transport carries as temperature the float64 product of `t` and `0.6`. -/
theorem sent_temperature_scaled (env : Env) (s : Service) (h : Heap)
    (req : ChatCompletionRequest) (p : Ptr) (r : HTTPRequest) (ht : req.Temperature = some p)
    (hr : r ∈ (s.CreateCompletion env h req).sent ∨
      r ∈ (s.CreateCompletionStream env h req).sent) :
    r.body.Temperature = some (env.fmul (h.floats p) Float64.c06) := by
  rcases hr with hr | hr
  · rw [CreateCompletion_sent] at hr
    rw [Request_sent_body env _ _ _ _ r hr, adjustRequest_temperature env false h req p ht]
  · rw [CreateCompletionStream_sent] at hr
    rw [Request_sent_body env _ _ _ _ r hr, adjustRequest_temperature env true h req p ht]

theorem sent_temperature_scaled_witness :
    (Service.CreateCompletion exampleEnv ⟨exampleClient 200 ["\x7b\x7d"]⟩ exampleHeap
        exampleRequest).sent = [exampleSent false] ∧
    (Service.CreateCompletionStream exampleEnv ⟨exampleClient 200 ["\x7b\x7d"]⟩ exampleHeap
        exampleRequest).sent = [exampleSent true] ∧
    (exampleSent false).body.Temperature = some (exampleEnv.fmul Float64.one Float64.c06) ∧
    exampleEnv.fmul Float64.one Float64.c06 = Float64.c06 :=
  ⟨by decide, by decide,
   sent_temperature_scaled exampleEnv ⟨exampleClient 200 ["\x7b\x7d"]⟩ exampleHeap exampleRequest 0
     (exampleSent false) rfl (Or.inl (by decide)), by decide⟩

/-! ## C8: the caller's request -/

/-- C8. After `CreateCompletion` or `CreateCompletionStream` returns, with any
result, the caller's request reads as before the call: the cell its
`Temperature` points to still holds `t`, and the request with every pointer
followed (`Stream` included) is the one the caller built. -/
theorem caller_request_unchanged (env : Env) (s : Service) (h : Heap)
    (req : ChatCompletionRequest) (hv : req.ValidIn h) :
    (∀ p, req.Temperature = some p →
      (s.CreateCompletion env h req).heap.floats p = h.floats p ∧
      (s.CreateCompletionStream env h req).heap.floats p = h.floats p) ∧
    req.body (s.CreateCompletion env h req).heap = req.body h ∧
    req.body (s.CreateCompletionStream env h req).heap = req.body h := by
  rw [CreateCompletion_heap, CreateCompletionStream_heap]
  obtain ⟨f1, b1⟩ := adjustRequest_frame env false h req
  obtain ⟨f2, b2⟩ := adjustRequest_frame env true h req
  exact ⟨fun p hp => ⟨f1 p (hv.1 p hp), f2 p (hv.1 p hp)⟩, body_congr h _ req hv f1 b1,
    body_congr h _ req hv f2 b2⟩

theorem caller_request_unchanged_witness :
    (∀ p, exampleRequest.Temperature = some p →
      (Service.CreateCompletion exampleEnv ⟨exampleClient 500 ["oops"]⟩ exampleHeap
        exampleRequest).heap.floats p = exampleHeap.floats p ∧
      (Service.CreateCompletionStream exampleEnv ⟨exampleClient 500 ["oops"]⟩ exampleHeap
        exampleRequest).heap.floats p = exampleHeap.floats p) ∧
    exampleRequest.body (Service.CreateCompletion exampleEnv ⟨exampleClient 500 ["oops"]⟩
      exampleHeap exampleRequest).heap = exampleRequest.body exampleHeap ∧
    exampleRequest.body (Service.CreateCompletionStream exampleEnv ⟨exampleClient 500 ["oops"]⟩
      exampleHeap exampleRequest).heap = exampleRequest.body exampleHeap :=
  caller_request_unchanged exampleEnv ⟨exampleClient 500 ["oops"]⟩ exampleHeap exampleRequest
    (by decide)

/-! ## Termination of the callback loop -/

/-- A `Read` that returns an event leaves a smaller reader. -/
theorem Read_ok_size (env : Env) :
    ∀ (n : Nat) (sr sr1 : StreamReader) (chunk : ChatCompletionStream), sr.size = n →
      StreamReader.Read env sr = some (.ok chunk, sr1) → sr1.size < sr.size := by
  intro n
  induction n using Nat.strong_induction_on with
  | _ n ih =>
    intro sr sr1 chunk hn h
    rw [Read_step] at h
    cases he : sr.nextLine.2 with
    | some e =>
      rw [he] at h
      simp only at h
      split_ifs at h <;> simp at h
    | none =>
      rw [he] at h
      simp only at h
      have hs := advance_size sr he
      cases hd : decodeLine env sr.nextLine.1 with
      | some res =>
        rw [hd] at h
        simp only [Option.some.injEq, Prod.mk.injEq] at h
        rw [← h.2]; exact hs
      | none =>
        rw [hd] at h
        simp only at h
        have := ih sr.advance.size (hn ▸ hs) sr.advance sr1 chunk rfl h
        omega

/-- The loop of `CreateCompletionWithCallback` ends within the fuel it is given. -/
theorem callbackLoop_isSome {σ : Type} (env : Env)
    (callback : σ → ChatCompletionStream → Option GoError × σ) :
    ∀ (fuel : Nat) (sr : StreamReader) (st : σ), sr.size < fuel →
      (callbackLoop env callback fuel sr st).isSome := by
  intro fuel
  induction fuel with
  | zero => intro sr st h; omega
  | succ f ih =>
    intro sr st h
    have hr := Read_isSome env sr
    cases hread : StreamReader.Read env sr with
    | none => simp [hread] at hr
    | some p =>
      obtain ⟨res, sr1⟩ := p
      cases res with
      | error e =>
        simp only [callbackLoop, hread]
        split_ifs <;> rfl
      | ok chunk =>
        simp only [callbackLoop, hread]
        cases hc : callback st chunk with
        | mk err st1 =>
          cases err with
          | some e => rfl
          | none =>
            simp only
            have := Read_ok_size env sr.size sr sr1 chunk rfl hread
            exact ih sr1 st1 (by omega)

theorem CreateCompletionWithCallback_sent {σ : Type} (env : Env) (s : Service) (h : Heap)
    (req : ChatCompletionRequest) (callback : σ → ChatCompletionStream → Option GoError × σ)
    (st : σ) :
    ∃ c, s.CreateCompletionWithCallback env h req callback st = some c ∧
      c.sent = (s.CreateCompletionStream env h req).sent := by
  unfold Service.CreateCompletionWithCallback
  simp only
  cases hres : (s.CreateCompletionStream env h req).result with
  | error e => exact ⟨_, rfl, rfl⟩
  | ok stream =>
    simp only
    have := callbackLoop_isSome env callback (stream.size + 1) stream st (by omega)
    cases hl : callbackLoop env callback (stream.size + 1) stream st with
    | none => simp [hl] at this
    | some p =>
      obtain ⟨err, stream1, st1⟩ := p
      exact ⟨_, rfl, rfl⟩

/-! ## C9: the stream flag on the wire -/

/-- C9. Whatever the caller put in `Stream`, every request body that
`CreateCompletion` hands to the transport has `stream` false, every body that
`CreateCompletionStream` hands to it has `stream` true, and
`CreateCompletionWithCallback` returns, having handed over bodies with `stream`
true only. -/
theorem sent_stream_flag {σ : Type} (env : Env) (s : Service) (h : Heap)
    (req : ChatCompletionRequest) (callback : σ → ChatCompletionStream → Option GoError × σ)
    (st : σ) :
    (∀ r ∈ (s.CreateCompletion env h req).sent, r.body.Stream = some false) ∧
    (∀ r ∈ (s.CreateCompletionStream env h req).sent, r.body.Stream = some true) ∧
    (∃ c, s.CreateCompletionWithCallback env h req callback st = some c ∧
      ∀ r ∈ c.sent, r.body.Stream = some true) := by
  have h1 : ∀ r ∈ (s.CreateCompletion env h req).sent, r.body.Stream = some false := by
    intro r hr
    rw [CreateCompletion_sent] at hr
    rw [Request_sent_body env _ _ _ _ r hr, adjustRequest_stream]
  have h2 : ∀ r ∈ (s.CreateCompletionStream env h req).sent, r.body.Stream = some true := by
    intro r hr
    rw [CreateCompletionStream_sent] at hr
    rw [Request_sent_body env _ _ _ _ r hr, adjustRequest_stream]
  obtain ⟨c, hc, hs⟩ := CreateCompletionWithCallback_sent env s h req callback st
  exact ⟨h1, h2, c, hc, fun r hr => h2 r (hs ▸ hr)⟩

/-- The caller asks for `stream` true (the cell `exampleRequest.Stream` points to
holds true): `CreateCompletion` still sends false, and the streaming calls send
true. -/
theorem sent_stream_flag_witness :
    exampleRequest.Stream.map exampleHeap.bools = some true ∧
    (exampleSent false).body.Stream = some false ∧
    (exampleSent true).body.Stream = some true ∧
    (Service.CreateCompletionWithCallback exampleEnv
        ⟨exampleClient 200 ["data: \x7b\"id\":\"1\"\x7d\n\ndata: [DONE]\n\n"]⟩ exampleHeap
        exampleRequest recordChunk []).map (fun c => (c.sent, c.state, c.err)) =
      some ([exampleSent true], [exampleEvent "\x7b\"id\":\"1\"\x7d"], none) :=
  ⟨by decide,
   (sent_stream_flag exampleEnv ⟨exampleClient 200 ["\x7b\x7d"]⟩ exampleHeap exampleRequest
      recordChunk []).1 (exampleSent false) (by decide),
   (sent_stream_flag exampleEnv ⟨exampleClient 200 ["\x7b\x7d"]⟩ exampleHeap exampleRequest
      recordChunk []).2.1 (exampleSent true) (by decide),
   by decide⟩

/-! ## C10: the result of `CreateCompletion` -/

/-- C10 fails as stated. The transport answers 201, a 2xx status, with the body
`{}` that decodes: `CreateCompletion` returns no response but the error of
`HandleErrorResponse`, an `APIError` with status 201. -/
theorem created_status_counterexample :
    exampleEnv.decodeResponse "\x7b\x7d".toList .eof = .ok (exampleResponse "\x7b\x7d") ∧
    (Service.CreateCompletion exampleEnv ⟨exampleClient 201 ["\x7b\x7d"]⟩ exampleHeap
        exampleRequest).result =
      .error (.api { Code := "", Message := "", Type_ := "", StatusCode := 201 }) := by
  decide

/-- C10, amended. When the transport returns a response to `CreateCompletion`:
with status 200 the result is the `ChatCompletionResponse` decoded from the
body, or the decode error wrapped as `decoding response`; with any other
status, 2xx or not, the result is exactly the error that `HandleErrorResponse`
produces for the response, and no response value. -/
theorem CreateCompletion_result (env : Env) (s : Service) (h : Heap)
    (req : ChatCompletionRequest) (resp : Response)
    (hresp : (s.client.Request env "POST" completionsEndpoint
      ((adjustRequest env false h req).1.body (adjustRequest env false h req).2)).1 = .ok resp) :
    (s.CreateCompletion env h req).result =
      if resp.StatusCode = 200 then
        match env.decodeResponse resp.Body.pending.flatten resp.Body.term with
        | .ok completionResp => .ok completionResp
        | .error err => .error (.wrap "decoding response" err)
      else .error (HandleErrorResponse env resp).1 := by
  unfold Service.CreateCompletion
  revert hresp
  generalize adjustRequest env false h req = adj
  obtain ⟨req1, h1⟩ := adj
  simp only
  generalize s.client.Request env "POST" completionsEndpoint (req1.body h1) = res
  obtain ⟨res1, sent⟩ := res
  intro hresp
  simp only at hresp
  subst hresp
  simp only
  by_cases hs : resp.StatusCode = 200
  · simp only [hs, ne_eq, not_true_eq_false, if_false, if_true]
    cases env.decodeResponse resp.Body.pending.flatten resp.Body.term <;> rfl
  · simp only [hs, ne_eq, not_false_eq_true, if_true, if_false]

theorem CreateCompletion_result_witness :
    (Service.CreateCompletion exampleEnv ⟨exampleClient 200 ["\x7b\"id\":", "\"c1\"\x7d"]⟩ exampleHeap
        exampleRequest).result = .ok (exampleResponse "\x7b\"id\":\"c1\"\x7d") ∧
    (Service.CreateCompletion exampleEnv ⟨exampleClient 429 ["not json"]⟩ exampleHeap
        exampleRequest).result =
      .error (.api { Code := "parse_error", Message := "not json", Type_ := "client_error",
                     StatusCode := 429 }) :=
  ⟨CreateCompletion_result exampleEnv ⟨exampleClient 200 ["\x7b\"id\":", "\"c1\"\x7d"]⟩ exampleHeap
      exampleRequest { StatusCode := 200, Body := exampleBody ["\x7b\"id\":", "\"c1\"\x7d"] } rfl,
   CreateCompletion_result exampleEnv ⟨exampleClient 429 ["not json"]⟩ exampleHeap
      exampleRequest { StatusCode := 429, Body := exampleBody ["not json"] } rfl⟩

/-! ## C11: a stream request that is refused -/

theorem ReadAll_closes (b : Body) : b.ReadAll.2.closes = b.closes := by
  unfold Body.ReadAll
  cases b.refusal <;> rfl

theorem HandleErrorResponse_closes (env : Env) (resp : Response) :
    (HandleErrorResponse env resp).2.Body.closes = resp.Body.closes + 1 := by
  simp [HandleErrorResponse, Body.Close, ReadAll_closes]

/-- The error of `HandleErrorResponse`, by the outcome of `io.ReadAll` and of
`json.Unmarshal`. -/
theorem HandleErrorResponse_error (env : Env) (resp : Response) :
    (HandleErrorResponse env resp).1 =
      match resp.Body.ReadAll.1.2 with
      | some e =>
        .api { Code := "read_error", Message := "failed to read error response: " ++ e.Error,
               Type_ := "client_error", StatusCode := resp.StatusCode }
      | none =>
        match env.unmarshalError resp.Body.ReadAll.1.1 with
        | none =>
          .api { Code := "parse_error", Message := String.mk resp.Body.ReadAll.1.1,
                 Type_ := "client_error", StatusCode := resp.StatusCode }
        | some p =>
          .api { Code := p.1, Message := p.2.1, Type_ := p.2.2, StatusCode := resp.StatusCode } := by
  unfold HandleErrorResponse
  generalize resp.Body.ReadAll = r
  obtain ⟨⟨body, err⟩, b1⟩ := r
  cases err with
  | some e => rfl
  | none =>
    simp only
    cases env.unmarshalError body with
    | none => rfl
    | some p => rfl

theorem HandleErrorResponse_isAPIError (env : Env) (resp : Response) :
    ∃ e, (HandleErrorResponse env resp).1 = .api e := by
  rw [HandleErrorResponse_error]
  cases resp.Body.ReadAll.1.2 with
  | some e => exact ⟨_, rfl⟩
  | none =>
    cases env.unmarshalError resp.Body.ReadAll.1.1 with
    | none => exact ⟨_, rfl⟩
    | some p => exact ⟨_, rfl⟩

/-- C11. When the transport answers `CreateCompletionStream` with a status other
than 200 (every non-success status is one), the call returns no `StreamReader`
but the error that `HandleErrorResponse` produces for the response, an
`APIError`, and when the call returns the response body has been closed (by
`HandleErrorResponse` and by the deferred `Close` of the call). -/
theorem stream_error_status (env : Env) (s : Service) (h : Heap) (req : ChatCompletionRequest)
    (resp : Response)
    (hresp : (s.client.StreamRequest env "POST" completionsEndpoint
      ((adjustRequest env true h req).1.body (adjustRequest env true h req).2)).1 = .ok resp)
    (hs : resp.StatusCode ≠ 200) :
    (s.CreateCompletionStream env h req).result = .error (HandleErrorResponse env resp).1 ∧
    (∃ e, (HandleErrorResponse env resp).1 = .api e) ∧
    ∃ r, (s.CreateCompletionStream env h req).response = some r ∧ 0 < r.Body.closes ∧
      r.Body.closes = resp.Body.closes + 2 := by
  unfold Service.CreateCompletionStream
  revert hresp
  generalize adjustRequest env true h req = adj
  obtain ⟨req1, h1⟩ := adj
  simp only
  generalize s.client.StreamRequest env "POST" completionsEndpoint (req1.body h1) = res
  obtain ⟨res1, sent⟩ := res
  intro hresp
  simp only at hresp
  subst hresp
  simp only [hs, ne_eq, not_false_eq_true, if_true]
  refine ⟨trivial, HandleErrorResponse_isAPIError env resp, _, rfl, ?_, ?_⟩
  · simp [Body.Close]
  · simp [Body.Close, HandleErrorResponse_closes]

theorem stream_error_status_witness :
    (Service.CreateCompletionStream exampleEnv ⟨exampleClient 429 ["rate limited"]⟩ exampleHeap
        exampleRequest).result =
      .error (HandleErrorResponse exampleEnv
        { StatusCode := 429, Body := exampleBody ["rate limited"] }).1 ∧
    (∃ e, (HandleErrorResponse exampleEnv
        { StatusCode := 429, Body := exampleBody ["rate limited"] }).1 = .api e) ∧
    ∃ r, (Service.CreateCompletionStream exampleEnv ⟨exampleClient 429 ["rate limited"]⟩
        exampleHeap exampleRequest).response = some r ∧ 0 < r.Body.closes ∧
      r.Body.closes = (exampleBody ["rate limited"]).closes + 2 :=
  stream_error_status exampleEnv ⟨exampleClient 429 ["rate limited"]⟩ exampleHeap exampleRequest
    { StatusCode := 429, Body := exampleBody ["rate limited"] } rfl (by decide)

/-! ## The loop of `CreateCompletionWithCallback` -/

/-- The reader after a `Read` has the body as often closed as before, and the response. -/
theorem Read_preserves (env : Env) :
    ∀ (n : Nat) (sr sr1 : StreamReader) (res : Except GoError ChatCompletionStream),
      sr.size = n → StreamReader.Read env sr = some (res, sr1) →
      sr1.body.closes = sr.body.closes ∧ sr1.hasResponse = sr.hasResponse ∧
        sr1.body.closeResult = sr.body.closeResult := by
  intro n
  induction n using Nat.strong_induction_on with
  | _ n ih =>
    intro sr sr1 res hn h
    rw [Read_step] at h
    have hadv : sr.advance.body.closes = sr.body.closes ∧
        sr.advance.hasResponse = sr.hasResponse ∧
        sr.advance.body.closeResult = sr.body.closeResult := ⟨rfl, rfl, rfl⟩
    cases he : sr.nextLine.2 with
    | some e =>
      rw [he] at h
      simp only at h
      split_ifs at h <;>
        (simp only [Option.some.injEq, Prod.mk.injEq] at h; rw [← h.2]; exact hadv)
    | none =>
      rw [he] at h
      simp only at h
      cases hd : decodeLine env sr.nextLine.1 with
      | some r =>
        rw [hd] at h
        simp only [Option.some.injEq, Prod.mk.injEq] at h
        rw [← h.2]; exact hadv
      | none =>
        rw [hd] at h
        simp only at h
        have := ih sr.advance.size (hn ▸ advance_size sr he) sr.advance sr1 res rfl h
        exact ⟨this.1.trans hadv.1, this.2.1.trans hadv.2.1, this.2.2.trans hadv.2.2⟩

/-- Fuel beyond the size of the reader does not change what the loop computes. -/
theorem callbackLoop_fuel {σ : Type} (env : Env)
    (callback : σ → ChatCompletionStream → Option GoError × σ) (fuel : Nat) :
    ∀ (sr : StreamReader) (st : σ), sr.size < fuel →
      callbackLoop env callback fuel sr st = callbackLoop env callback (sr.size + 1) sr st := by
  induction fuel using Nat.strong_induction_on with
  | _ fuel ih =>
    intro sr st hlt
    cases fuel with
    | zero => omega
    | succ f =>
      cases hread : StreamReader.Read env sr with
      | none => simp only [callbackLoop, hread]
      | some p =>
        obtain ⟨res, sr1⟩ := p
        cases res with
        | error e => simp only [callbackLoop, hread]
        | ok chunk =>
          simp only [callbackLoop, hread]
          cases hc : callback st chunk with
          | mk err st1 =>
            cases err with
            | some e => rfl
            | none =>
              simp only
              have hs := Read_ok_size env sr.size sr sr1 chunk rfl hread
              rw [ih f (by omega) sr1 st1 (by omega), ih sr.size (by omega) sr1 st1 hs]

/-- One turn of the loop: a `Read`, then the handler on the event it returned. -/
theorem callbackLoop_step {σ : Type} (env : Env)
    (callback : σ → ChatCompletionStream → Option GoError × σ) (sr : StreamReader) (st : σ) :
    callbackLoop env callback (sr.size + 1) sr st =
      match StreamReader.Read env sr with
      | none => none
      | some (.error err, sr1) =>
        if err = .eof then some (none, sr1, st) else some (some err, sr1, st)
      | some (.ok chunk, sr1) =>
        match callback st chunk with
        | (some err, st1) => some (some err, sr1, st1)
        | (none, st1) => callbackLoop env callback (sr1.size + 1) sr1 st1 := by
  cases hread : StreamReader.Read env sr with
  | none => simp only [callbackLoop, hread]
  | some p =>
    obtain ⟨res, sr1⟩ := p
    cases res with
    | error e => simp only [callbackLoop, hread]
    | ok chunk =>
      simp only [callbackLoop, hread]
      cases hc : callback st chunk with
      | mk err st1 =>
        cases err with
        | some e => rfl
        | none =>
          simp only
          exact callbackLoop_fuel env callback sr.size sr1 st1
            (Read_ok_size env sr.size sr sr1 chunk rfl hread)

theorem reads_succ (env : Env) (n : Nat) (sr sr2 : StreamReader)
    (r : Except GoError ChatCompletionStream) (rs : List (Except GoError ChatCompletionStream))
    (h : StreamReader.reads env (n + 1) sr = some (r :: rs, sr2)) :
    ∃ sr1, StreamReader.Read env sr = some (r, sr1) ∧
      StreamReader.reads env n sr1 = some (rs, sr2) := by
  simp only [StreamReader.reads] at h
  cases hread : StreamReader.Read env sr with
  | none => simp [hread] at h
  | some p =>
    obtain ⟨r1, sr1⟩ := p
    simp only [hread] at h
    cases hrest : StreamReader.reads env n sr1 with
    | none => simp [hrest] at h
    | some q =>
      obtain ⟨rs1, sr3⟩ := q
      simp only [hrest, Option.some.injEq, Prod.mk.injEq, List.cons.injEq] at h
      obtain ⟨⟨e1, e2⟩, e3⟩ := h
      subst e1 e2 e3
      exact ⟨sr1, rfl, hrest⟩

/-- While the reads return events and the handler returns nil, the loop goes on:
after the events it stands at the reader and the handler state they lead to. -/
theorem callbackLoop_events {σ : Type} (env : Env)
    (callback : σ → ChatCompletionStream → Option GoError × σ) :
    ∀ (events : List ChatCompletionStream) (sr srk : StreamReader) (st st1 : σ),
      StreamReader.reads env events.length sr = some (events.map .ok, srk) →
      feed callback st events = (none, st1) →
      callbackLoop env callback (sr.size + 1) sr st =
        callbackLoop env callback (srk.size + 1) srk st1 := by
  intro events
  induction events with
  | nil =>
    intro sr srk st st1 hr hf
    simp only [List.length_nil, StreamReader.reads, List.map_nil, Option.some.injEq,
      Prod.mk.injEq, true_and] at hr
    simp only [feed, Prod.mk.injEq, true_and] at hf
    subst hr hf
    rfl
  | cons e es ih =>
    intro sr srk st st1 hr hf
    obtain ⟨sr1, h1, h2⟩ := reads_succ env es.length sr srk (.ok e) (es.map .ok) hr
    rw [callbackLoop_step, h1]
    simp only [feed] at hf
    cases hc : callback st e with
    | mk err st2 =>
      rw [hc] at hf
      cases err with
      | some x => simp at hf
      | none =>
        simp only at hf ⊢
        rw [hc]
        exact ih sr1 srk st2 st1 h2 hf

theorem feed_never_fails {σ : Type} (callback : σ → ChatCompletionStream → Option GoError × σ)
    (h : ∀ st e, (callback st e).1 = none) :
    ∀ (events : List ChatCompletionStream) (st : σ),
      feed callback st events = (none, events.foldl (fun s e => (callback s e).2) st) := by
  intro events
  induction events with
  | nil => intro st; rfl
  | cons e es ih =>
    intro st
    have := h st e
    cases hc : callback st e with
    | mk err st1 =>
      rw [hc] at this
      simp only at this
      subst this
      simp only [feed, hc, List.foldl_cons]
      exact ih st1

theorem CreateCompletionStream_ok (env : Env) (s : Service) (h : Heap)
    (req : ChatCompletionRequest) (stream : StreamReader)
    (hs : (s.CreateCompletionStream env h req).result = .ok stream) :
    stream.hasResponse = true ∧ stream.buffered = [] ∧
      ∃ resp, (s.CreateCompletionStream env h req).response = some resp ∧
        resp.Body = stream.body := by
  revert hs
  unfold Service.CreateCompletionStream
  generalize adjustRequest env true h req = adj
  obtain ⟨req1, h1⟩ := adj
  simp only
  generalize s.client.StreamRequest env "POST" completionsEndpoint (req1.body h1) = res
  obtain ⟨res1, sent⟩ := res
  cases res1 with
  | error e => intro hs; simp at hs
  | ok resp =>
    simp only
    split_ifs with hc
    · intro hs; simp at hs
    · intro hs
      simp only [Except.ok.injEq] at hs
      subst hs
      exact ⟨rfl, rfl, resp, rfl, rfl⟩

/-- What `CreateCompletionWithCallback` returns once the stream is open and its
loop has ended. -/
theorem CreateCompletionWithCallback_of_loop {σ : Type} (env : Env) (s : Service) (h : Heap)
    (req : ChatCompletionRequest) (callback : σ → ChatCompletionStream → Option GoError × σ)
    (st : σ) (stream stream1 : StreamReader) (err : Option GoError) (st1 : σ)
    (hs : (s.CreateCompletionStream env h req).result = .ok stream)
    (hl : callbackLoop env callback (stream.size + 1) stream st = some (err, stream1, st1)) :
    ∃ c, s.CreateCompletionWithCallback env h req callback st = some c ∧ c.err = err ∧
      c.state = st1 ∧ c.stream = some stream1.Close.2 ∧
      c.response = (s.CreateCompletionStream env h req).response.map
        (fun r => { r with Body := stream1.Close.2.body }) := by
  unfold Service.CreateCompletionWithCallback
  simp only [hs, hl]
  exact ⟨_, rfl, rfl, rfl, rfl, rfl⟩

theorem reads_succ_fst (env : Env) (n : Nat) (sr : StreamReader)
    (r : Except GoError ChatCompletionStream) (rs : List (Except GoError ChatCompletionStream))
    (h : (StreamReader.reads env (n + 1) sr).map Prod.fst = some (r :: rs)) :
    ∃ sr1, StreamReader.Read env sr = some (r, sr1) ∧
      (StreamReader.reads env n sr1).map Prod.fst = some rs := by
  cases hr : StreamReader.reads env (n + 1) sr with
  | none => simp [hr] at h
  | some p =>
    obtain ⟨rs1, sr2⟩ := p
    simp only [hr, Option.map_some', Option.some.injEq] at h
    subst h
    obtain ⟨sr1, h1, h2⟩ := reads_succ env n sr sr2 r rs hr
    exact ⟨sr1, h1, by simp [h2]⟩

theorem reads_snoc (env : Env) :
    ∀ (rs : List (Except GoError ChatCompletionStream)) (sr sr2 : StreamReader)
      (r : Except GoError ChatCompletionStream),
      StreamReader.reads env (rs.length + 1) sr = some (rs ++ [r], sr2) →
      ∃ srk, StreamReader.reads env rs.length sr = some (rs, srk) ∧
        StreamReader.Read env srk = some (r, sr2) := by
  intro rs
  induction rs with
  | nil =>
    intro sr sr2 r h
    obtain ⟨sr1, h1, h2⟩ := reads_succ env 0 sr sr2 r [] h
    simp only [StreamReader.reads, Option.some.injEq, Prod.mk.injEq, true_and] at h2
    subst h2
    exact ⟨sr, rfl, h1⟩
  | cons x xs ih =>
    intro sr sr2 r h
    obtain ⟨sr1, h1, h2⟩ := reads_succ env (xs.length + 1) sr sr2 x (xs ++ [r]) h
    obtain ⟨srk, h3, h4⟩ := ih sr1 sr2 r h2
    refine ⟨srk, ?_, h4⟩
    simp only [List.length_cons, StreamReader.reads, h1, h3]

/-- The loop on a stream of events that ends cleanly, with a handler that never fails. -/
theorem callbackLoop_all_events {σ : Type} (env : Env)
    (callback : σ → ChatCompletionStream → Option GoError × σ)
    (hcb : ∀ st e, (callback st e).1 = none) :
    ∀ (events : List ChatCompletionStream) (sr : StreamReader) (st : σ),
      (StreamReader.reads env (events.length + 1) sr).map Prod.fst =
        some (events.map .ok ++ [.error .eof]) →
      ∃ sr1, callbackLoop env callback (sr.size + 1) sr st =
        some (none, sr1, events.foldl (fun a e => (callback a e).2) st) := by
  intro events
  induction events with
  | nil =>
    intro sr st hr
    obtain ⟨sr1, h1, -⟩ := reads_succ_fst env 0 sr (.error .eof) [] hr
    exact ⟨sr1, by rw [callbackLoop_step, h1]; rfl⟩
  | cons e es ih =>
    intro sr st hr
    have hr1 : (StreamReader.reads env (es.length + 1 + 1) sr).map Prod.fst =
        some (Except.ok e :: (es.map Except.ok ++ [Except.error GoError.eof])) := hr
    obtain ⟨sr1, h1, h2⟩ := reads_succ_fst env (es.length + 1) sr (.ok e) _ hr1
    obtain ⟨sr2, h3⟩ := ih sr1 (callback st e).2 h2
    refine ⟨sr2, ?_⟩
    rw [callbackLoop_step, h1]
    have := hcb st e
    cases hc : callback st e with
    | mk err st1 =>
      rw [hc] at this h3
      simp only at this h3
      subst this
      simp only [List.foldl_cons, hc]
      exact h3

/-! ## C12: the handler gets every event -/

/-- C12. For a stream whose successive reads yield the events `e_1, ..., e_n` and
then `io.EOF`, `CreateCompletionWithCallback` with a handler that never fails
returns nil, and the handler state it leaves is the one reached by applying
the handler to `e_1, ..., e_n` in this order, once each. -/
theorem callback_gets_every_event {σ : Type} (env : Env) (s : Service) (h : Heap)
    (req : ChatCompletionRequest) (callback : σ → ChatCompletionStream → Option GoError × σ)
    (st : σ) (stream : StreamReader) (events : List ChatCompletionStream)
    (hs : (s.CreateCompletionStream env h req).result = .ok stream)
    (hreads : (StreamReader.reads env (events.length + 1) stream).map Prod.fst =
      some (events.map .ok ++ [.error .eof]))
    (hcb : ∀ st e, (callback st e).1 = none) :
    ∃ c, s.CreateCompletionWithCallback env h req callback st = some c ∧ c.err = none ∧
      c.state = events.foldl (fun a e => (callback a e).2) st := by
  obtain ⟨sr1, hl⟩ := callbackLoop_all_events env callback hcb events stream st hreads
  obtain ⟨c, h1, h2, h3, -, -⟩ :=
    CreateCompletionWithCallback_of_loop env s h req callback st stream sr1 none _ hs hl
  exact ⟨c, h1, h2, h3⟩

/-- The handler records `e_1, e_2` of the stream `data: e_1`, `data: e_2`,
`data: [DONE]`, in this order, and the call returns nil. -/
theorem callback_gets_every_event_witness :
    ∃ c, Service.CreateCompletionWithCallback exampleEnv
        ⟨exampleClient 200 ["data: \x7b\"id\":\"1\"\x7d\n\nda", "ta: \x7b\"id\":\"2\"\x7d\n\ndata: [DONE]\n\n"]⟩
        exampleHeap exampleRequest recordChunk [] = some c ∧ c.err = none ∧
      c.state = [exampleEvent "\x7b\"id\":\"1\"\x7d", exampleEvent "\x7b\"id\":\"2\"\x7d"] :=
  callback_gets_every_event exampleEnv
    ⟨exampleClient 200 ["data: \x7b\"id\":\"1\"\x7d\n\nda", "ta: \x7b\"id\":\"2\"\x7d\n\ndata: [DONE]\n\n"]⟩
    exampleHeap exampleRequest recordChunk []
    (exampleReader ["data: \x7b\"id\":\"1\"\x7d\n\nda", "ta: \x7b\"id\":\"2\"\x7d\n\ndata: [DONE]\n\n"])
    [exampleEvent "\x7b\"id\":\"1\"\x7d", exampleEvent "\x7b\"id\":\"2\"\x7d"] rfl (by decide)
    (fun _ _ => rfl)

/-! ## C13: a handler that fails -/

/-- C13. If the handler returns nil on the first `k - 1` events and an error on
the `k`-th, `CreateCompletionWithCallback` returns exactly that error, the
handler state is the one after these `k` invocations, and the reader is the one
the `k`-th `Read` left (then closed): nothing more is read or handled. -/
theorem callback_error_stops {σ : Type} (env : Env) (s : Service) (h : Heap)
    (req : ChatCompletionRequest) (callback : σ → ChatCompletionStream → Option GoError × σ)
    (st st1 st2 : σ) (stream srk : StreamReader) (pre : List ChatCompletionStream)
    (ek : ChatCompletionStream) (err : GoError)
    (hs : (s.CreateCompletionStream env h req).result = .ok stream)
    (hreads : StreamReader.reads env (pre.length + 1) stream =
      some ((pre ++ [ek]).map .ok, srk))
    (hpre : feed callback st pre = (none, st1))
    (hk : callback st1 ek = (some err, st2)) :
    ∃ c, s.CreateCompletionWithCallback env h req callback st = some c ∧ c.err = some err ∧
      c.state = st2 ∧ c.stream = some srk.Close.2 := by
  have hreads1 : StreamReader.reads env
      ((pre.map (Except.ok : ChatCompletionStream → Except GoError ChatCompletionStream)).length
        + 1) stream = some (pre.map Except.ok ++ [Except.ok ek], srk) := by
    simpa using hreads
  obtain ⟨srj, h1, h2⟩ := reads_snoc env (pre.map Except.ok) stream srk (Except.ok ek) hreads1
  rw [List.length_map] at h1
  have hl : callbackLoop env callback (stream.size + 1) stream st = some (some err, srk, st2) := by
    rw [callbackLoop_events env callback pre stream srj st st1 h1 hpre, callbackLoop_step, h2]
    simp only [hk]
  obtain ⟨c, a1, a2, a3, a4, -⟩ :=
    CreateCompletionWithCallback_of_loop env s h req callback st stream srk (some err) st2 hs hl
  exact ⟨c, a1, a2, a3, a4⟩

/-- The stream of three events and a handler that fails on the second: the call
returns the handler's error, the handler has seen two events, and the third
data line is still unread in the reader. -/
theorem callback_error_stops_witness :
    ∃ c, Service.CreateCompletionWithCallback exampleEnv
        ⟨exampleClient 200 ["data: \x7b\"id\":\"1\"\x7d\ndata: \x7b\"id\":\"2\"\x7d\ndata: \x7b\"id\":\"3\"\x7d\ndata: [DONE]\n"]⟩
        exampleHeap exampleRequest (recordUntil "\x7b\"id\":\"2\"\x7d") [] = some c ∧
      c.err = some (.general "handler failed") ∧
      c.state = [exampleEvent "\x7b\"id\":\"1\"\x7d", exampleEvent "\x7b\"id\":\"2\"\x7d"] ∧
      c.stream = some (StreamReader.Close
        { buffered := "data: \x7b\"id\":\"3\"\x7d\ndata: [DONE]\n".toList, body := exampleBody [],
          hasResponse := true }).2 :=
  callback_error_stops exampleEnv
    ⟨exampleClient 200 ["data: \x7b\"id\":\"1\"\x7d\ndata: \x7b\"id\":\"2\"\x7d\ndata: \x7b\"id\":\"3\"\x7d\ndata: [DONE]\n"]⟩
    exampleHeap exampleRequest (recordUntil "\x7b\"id\":\"2\"\x7d") []
    [exampleEvent "\x7b\"id\":\"1\"\x7d"]
    [exampleEvent "\x7b\"id\":\"1\"\x7d", exampleEvent "\x7b\"id\":\"2\"\x7d"]
    (exampleReader ["data: \x7b\"id\":\"1\"\x7d\ndata: \x7b\"id\":\"2\"\x7d\ndata: \x7b\"id\":\"3\"\x7d\ndata: [DONE]\n"])
    _ [exampleEvent "\x7b\"id\":\"1\"\x7d"] (exampleEvent "\x7b\"id\":\"2\"\x7d")
    (.general "handler failed") rfl rfl rfl rfl

/-! ## C14: the stream is closed on every path -/

theorem callbackLoop_preserves {σ : Type} (env : Env)
    (callback : σ → ChatCompletionStream → Option GoError × σ) :
    ∀ (fuel : Nat) (sr sr1 : StreamReader) (st st1 : σ) (err : Option GoError),
      callbackLoop env callback fuel sr st = some (err, sr1, st1) →
      sr1.body.closes = sr.body.closes ∧ sr1.hasResponse = sr.hasResponse := by
  intro fuel
  induction fuel with
  | zero => intro sr sr1 st st1 err h; simp [callbackLoop] at h
  | succ f ih =>
    intro sr sr1 st st1 err h
    cases hread : StreamReader.Read env sr with
    | none => simp [callbackLoop, hread] at h
    | some p =>
      obtain ⟨res, sr2⟩ := p
      obtain ⟨p1, p2, -⟩ := Read_preserves env sr.size sr sr2 res rfl hread
      cases res with
      | error e =>
        simp only [callbackLoop, hread] at h
        split_ifs at h <;>
          (simp only [Option.some.injEq, Prod.mk.injEq] at h; rw [← h.2.1]; exact ⟨p1, p2⟩)
      | ok chunk =>
        simp only [callbackLoop, hread] at h
        cases hc : callback st chunk with
        | mk e2 st2 =>
          rw [hc] at h
          cases e2 with
          | some x =>
            simp only [Option.some.injEq, Prod.mk.injEq] at h
            rw [← h.2.1]; exact ⟨p1, p2⟩
          | none =>
            simp only at h
            obtain ⟨q1, q2⟩ := ih sr2 sr1 st2 st1 err h
            exact ⟨q1.trans p1, q2.trans p2⟩

/-- C14. Once `CreateCompletionStream` has opened the stream,
`CreateCompletionWithCallback` returns, by whatever path (clean termination,
handler error, decode or read error), and when it returns the response body of
the stream has been closed: the deferred `Close` has called `Body.Close` once. -/
theorem callback_closes_stream {σ : Type} (env : Env) (s : Service) (h : Heap)
    (req : ChatCompletionRequest) (callback : σ → ChatCompletionStream → Option GoError × σ)
    (st : σ) (stream : StreamReader)
    (hs : (s.CreateCompletionStream env h req).result = .ok stream) :
    ∃ c sr r, s.CreateCompletionWithCallback env h req callback st = some c ∧
      c.stream = some sr ∧ sr.body.closes = stream.body.closes + 1 ∧ 0 < sr.body.closes ∧
      c.response = some r ∧ r.Body.closes = stream.body.closes + 1 := by
  have hsome := callbackLoop_isSome env callback (stream.size + 1) stream st (by omega)
  cases hl : callbackLoop env callback (stream.size + 1) stream st with
  | none => simp [hl] at hsome
  | some p =>
    obtain ⟨err, stream1, st1⟩ := p
    obtain ⟨c, a1, -, -, a4, a5⟩ :=
      CreateCompletionWithCallback_of_loop env s h req callback st stream stream1 err st1 hs hl
    obtain ⟨q1, q2⟩ := callbackLoop_preserves env callback _ stream stream1 st st1 err hl
    obtain ⟨b1, -, resp, b3, -⟩ := CreateCompletionStream_ok env s h req stream hs
    have hc : stream1.Close.2.body.closes = stream.body.closes + 1 := by
      simp [StreamReader.Close, Body.Close, q2, b1, q1]
    refine ⟨c, stream1.Close.2, { resp with Body := stream1.Close.2.body }, a1, a4, hc,
      by omega, ?_, hc⟩
    rw [a5, b3]; rfl

/-- A stream that fails to decode: the call returns, and the body is closed. -/
theorem callback_closes_stream_witness :
    ∃ c sr r, Service.CreateCompletionWithCallback exampleEnv
        ⟨exampleClient 200 ["data: oops\n"]⟩ exampleHeap exampleRequest recordChunk [] = some c ∧
      c.stream = some sr ∧ sr.body.closes = (exampleReader ["data: oops\n"]).body.closes + 1 ∧
      0 < sr.body.closes ∧ c.response = some r ∧
      r.Body.closes = (exampleReader ["data: oops\n"]).body.closes + 1 :=
  callback_closes_stream exampleEnv ⟨exampleClient 200 ["data: oops\n"]⟩ exampleHeap
    exampleRequest recordChunk [] (exampleReader ["data: oops\n"]) rfl

/-! ## Reading the body of an error response -/

/-- A body that is open and ends with `io.EOF` is read whole and without error. -/
theorem ReadAll_readable (b : Body) (hopen : b.closes = 0) (hterm : b.term = .eof) :
    b.ReadAll.1 = (b.pending.flatten, none) := by
  simp [Body.ReadAll, Body.refusal, hopen, hterm]

/-- A body that is open and ends with an error other than `io.EOF` fails to be read. -/
theorem ReadAll_broken (b : Body) (hopen : b.closes = 0) (hterm : b.term ≠ .eof) :
    b.ReadAll.1 = (b.pending.flatten, some b.term) := by
  simp [Body.ReadAll, Body.refusal, hopen, hterm]

/-! ## C15: a standard error body -/

/-- C15. For every status `s` and every readable body that `json.Unmarshal`
decodes as `{"error": {"code": c, "message": m, "type": t}}`,
`HandleErrorResponse` returns the `APIError` with `Code = c`, `Message = m`,
`Type = t` and `StatusCode = s`. -/
theorem error_body_is_decoded (env : Env) (resp : Response) (c m t : String)
    (hopen : resp.Body.closes = 0) (hterm : resp.Body.term = .eof)
    (hjson : env.unmarshalError resp.Body.pending.flatten = some (c, m, t)) :
    (HandleErrorResponse env resp).1 =
      .api { Code := c, Message := m, Type_ := t, StatusCode := resp.StatusCode } := by
  rw [HandleErrorResponse_error, ReadAll_readable resp.Body hopen hterm]
  simp only [hjson]

theorem error_body_is_decoded_witness :
    (HandleErrorResponse errorEnv (exampleHTTPResponse 429
      ["\x7b\"error\":\x7b\"code\":\"rate_limit_exceeded\",", "\"message\":\"x\",\"type\":\"client_error\"\x7d\x7d"])).1 =
      .api { Code := "rate_limit_exceeded", Message := "x", Type_ := "client_error",
             StatusCode := 429 } :=
  error_body_is_decoded errorEnv (exampleHTTPResponse 429
      ["\x7b\"error\":\x7b\"code\":\"rate_limit_exceeded\",", "\"message\":\"x\",\"type\":\"client_error\"\x7d\x7d"])
    "rate_limit_exceeded" "x" "client_error" rfl rfl (by decide)

/-! ## C16: a body that is not JSON -/

/-- C16. For every status `s` and every readable body `b` that `json.Unmarshal`
rejects (the empty body and plain text among them), `HandleErrorResponse`
returns the `APIError` with `Code = "parse_error"`, `Type = "client_error"`,
`Message = b` verbatim and `StatusCode = s`. -/
theorem invalid_body_is_parse_error (env : Env) (resp : Response)
    (hopen : resp.Body.closes = 0) (hterm : resp.Body.term = .eof)
    (hjson : env.unmarshalError resp.Body.pending.flatten = none) :
    (HandleErrorResponse env resp).1 =
      .api { Code := "parse_error", Message := String.mk resp.Body.pending.flatten,
             Type_ := "client_error", StatusCode := resp.StatusCode } := by
  rw [HandleErrorResponse_error, ReadAll_readable resp.Body hopen hterm]
  simp only [hjson]

theorem invalid_body_is_parse_error_witness :
    (HandleErrorResponse errorEnv (exampleHTTPResponse 500 ["not ", "json"])).1 =
        .api { Code := "parse_error", Message := "not json", Type_ := "client_error",
               StatusCode := 500 } ∧
    (HandleErrorResponse errorEnv (exampleHTTPResponse 503 [])).1 =
        .api { Code := "parse_error", Message := "", Type_ := "client_error",
               StatusCode := 503 } :=
  ⟨invalid_body_is_parse_error errorEnv (exampleHTTPResponse 500 ["not ", "json"]) rfl rfl
      (by decide),
   invalid_body_is_parse_error errorEnv (exampleHTTPResponse 503 []) rfl rfl (by decide)⟩

/-! ## C17: what is kept of the body -/

/-- C17 fails as stated. The bodies `{}` and `{"message":"oops"}` differ, both
decode, and `HandleErrorResponse` returns for both the same `APIError` with
empty code, message and type: neither text can be recovered from it. The same
holds of an error body and that body with one more member. -/
theorem raw_body_lost_counterexample :
    "\x7b\x7d".toList ≠ "\x7b\"message\":\"oops\"\x7d".toList ∧
    (HandleErrorResponse errorEnv (exampleHTTPResponse 500 ["\x7b\x7d"])).1 =
      .api { Code := "", Message := "", Type_ := "", StatusCode := 500 } ∧
    (HandleErrorResponse errorEnv (exampleHTTPResponse 500 ["\x7b\"message\":\"oops\"\x7d"])).1 =
      .api { Code := "", Message := "", Type_ := "", StatusCode := 500 } ∧
    (HandleErrorResponse errorEnv (exampleHTTPResponse 429
      ["\x7b\"error\":\x7b\"code\":\"rate_limit_exceeded\",\"message\":\"x\",\"type\":\"client_error\"\x7d\x7d"])).1 =
    (HandleErrorResponse errorEnv (exampleHTTPResponse 429
      ["\x7b\"error\":\x7b\"code\":\"rate_limit_exceeded\",\"message\":\"x\",\"type\":\"client_error\",\"param\":\"n\"\x7d\x7d"])).1 := by
  decide

/-- C17, amended. For every readable body `b` that `json.Unmarshal` rejects, the
raw text of `b` can be recovered from the `APIError` that `HandleErrorResponse`
returns: it is its `Message`. For a body that decodes as an error response the
`APIError` holds the decoded code, message and type, not the raw text. -/
theorem raw_body_kept_on_parse_failure (env : Env) (resp : Response)
    (hopen : resp.Body.closes = 0) (hterm : resp.Body.term = .eof) :
    ∃ e, (HandleErrorResponse env resp).1 = .api e ∧
      (env.unmarshalError resp.Body.pending.flatten = none →
        e.Message.toList = resp.Body.pending.flatten) ∧
      (∀ c m t, env.unmarshalError resp.Body.pending.flatten = some (c, m, t) →
        e.Code = c ∧ e.Message = m ∧ e.Type_ = t) := by
  rw [HandleErrorResponse_error, ReadAll_readable resp.Body hopen hterm]
  cases hj : env.unmarshalError resp.Body.pending.flatten with
  | none => exact ⟨_, rfl, fun _ => rfl, fun c m t hc => by simp at hc⟩
  | some p =>
    refine ⟨_, rfl, fun hc => by simp at hc, fun c m t hc => ?_⟩
    simp only [Option.some.injEq] at hc
    subst hc
    exact ⟨rfl, rfl, rfl⟩

theorem raw_body_kept_on_parse_failure_witness :
    ∃ e, (HandleErrorResponse errorEnv (exampleHTTPResponse 404 ["Not Found"])).1 = .api e ∧
      (errorEnv.unmarshalError (exampleHTTPResponse 404 ["Not Found"]).Body.pending.flatten = none →
        e.Message.toList = (exampleHTTPResponse 404 ["Not Found"]).Body.pending.flatten) ∧
      (∀ c m t, errorEnv.unmarshalError
          (exampleHTTPResponse 404 ["Not Found"]).Body.pending.flatten = some (c, m, t) →
        e.Code = c ∧ e.Message = m ∧ e.Type_ = t) :=
  raw_body_kept_on_parse_failure errorEnv (exampleHTTPResponse 404 ["Not Found"]) rfl rfl

/-! ## C18: a body that cannot be read -/

/-- C18. If reading the response body fails with an I/O error `e`,
`HandleErrorResponse` returns the `APIError` with `Code = "read_error"`,
`Type = "client_error"`, the status of the response, and the message
`failed to read error response: ` followed by the text of `e`. -/
theorem read_failure_is_read_error (env : Env) (resp : Response) (e : GoError)
    (hopen : resp.Body.closes = 0) (hterm : resp.Body.term = e) (he : e ≠ .eof) :
    (HandleErrorResponse env resp).1 =
        .api { Code := "read_error", Message := "failed to read error response: " ++ e.Error,
               Type_ := "client_error", StatusCode := resp.StatusCode } ∧
    e.Error.toList <:+: ("failed to read error response: " ++ e.Error).toList := by
  subst hterm
  rw [HandleErrorResponse_error, ReadAll_broken resp.Body hopen he]
  refine ⟨rfl, ?_⟩
  rw [String.toList, String.toList, String.data_append]
  exact (List.suffix_append _ _).isInfix

theorem read_failure_is_read_error_witness :
    (HandleErrorResponse errorEnv (brokenResponse 502 ["\x7b\"err"])).1 =
        .api { Code := "read_error",
               Message := "failed to read error response: " ++ (GoError.other "connection reset").Error,
               Type_ := "client_error", StatusCode := (brokenResponse 502 ["\x7b\"err"]).StatusCode } ∧
    (GoError.other "connection reset").Error.toList <:+:
      ("failed to read error response: " ++ (GoError.other "connection reset").Error).toList :=
  read_failure_is_read_error errorEnv (brokenResponse 502 ["\x7b\"err"])
    (.other "connection reset") rfl rfl (by decide)

/-! ## C19: `IsAPIError` -/

/-- C19. `IsAPIError(err)` returns the `APIError` and true exactly when `err` is an
`APIError` value, and `(nil, false)` for nil and for every error of another
type, `errors.Error` among them. -/
theorem IsAPIError_spec (err : Option GoError) :
    (∀ e, IsAPIError err = (some e, true) ↔ err = some (.api e)) ∧
    ((∀ e, err ≠ some (.api e)) → IsAPIError err = (none, false)) ∧
    IsAPIError none = (none, false) ∧
    (∀ msg, IsAPIError (some (.general msg)) = (none, false)) := by
  refine ⟨fun e => ⟨fun h => ?_, fun h => by subst h; rfl⟩, fun h => ?_, rfl, fun _ => rfl⟩
  · cases err with
    | none => simp [IsAPIError] at h
    | some g => cases g <;> simp_all [IsAPIError]
  · cases err with
    | none => rfl
    | some g =>
      cases g with
      | api e => exact absurd rfl (h e)
      | _ => rfl

/-! ## C20: the text of an error -/

theorem toString_eq_decimal (z : Int) : toString z = decimal z := by
  cases z with
  | ofNat n =>
    have : ¬ (Int.ofNat n < 0) := by simp
    simp only [decimal, this, if_false]
    rfl
  | negSucc n =>
    have : Int.negSucc n < 0 := Int.negSucc_lt_zero n
    simp only [decimal, this, if_true]
    rfl

/-- C20. For every `APIError` `e`, `e.Error()` is the text
`moonshot api error (status ` + decimal(`e.StatusCode`) + `): ` + `e.Code` +
` - ` + `e.Message`, in which `Type` does not appear (status 0 when unset); and
the `Error()` of an `errors.Error` is its `Message`. -/
theorem Error_text (e : APIError) (msg t : String) :
    e.Error = "moonshot api error (status " ++ decimal e.StatusCode ++ "): " ++ e.Code ++ " - "
      ++ e.Message ∧
    ({ e with Type_ := t } : APIError).Error = e.Error ∧
    (GoError.api e).Error = e.Error ∧
    (GoError.general msg).Error = msg ∧
    ({ Code := "invalid_request", Message := "The request is invalid", Type_ := "client_error",
       StatusCode := 400 } : APIError).Error =
      "moonshot api error (status 400): invalid_request - The request is invalid" ∧
    ({ Code := "server_error", Message := "Internal server error", Type_ := "server_error",
       StatusCode := 0 } : APIError).Error =
      "moonshot api error (status 0): server_error - Internal server error" := by
  refine ⟨?_, rfl, rfl, rfl, by decide, by decide⟩
  rw [APIError.Error, toString_eq_decimal]

/-! ## C21: valid models -/

/-- C21. `IsValid` is true exactly for the six model names; the empty model is
invalid and the legacy aliases are valid. -/
theorem IsValid_iff (m : Model) :
    (Model.IsValid m = true ↔
      m ∈ ["moonshot-v1-8k", "moonshot-v1-32k", "moonshot-v1-128k", "kimi-k2", "kimi-k2-base",
            "kimi-k2-instruct"]) ∧
    Model.IsValid "" = false ∧
    Model.IsValid Moonshot8K = true ∧ Model.IsValid Moonshot32K = true ∧
    Model.IsValid Moonshot128K = true := by
  refine ⟨?_, by decide, by decide, by decide, by decide⟩
  simp [Model.IsValid, MoonshotV18K, MoonshotV132K, MoonshotV1128K, KimiK2, KimiK2Base,
    KimiK2Instruct]

/-! ## C22: maximum tokens -/

/-- C22. `MaxTokens` is 8192, 32768 and 131072 for the three Moonshot V1 models,
131072 for each Kimi K2 model and 0 for every other string; it is positive
exactly for the valid models. -/
theorem MaxTokens_spec (m : Model) :
    Model.MaxTokens "moonshot-v1-8k" = 8192 ∧ Model.MaxTokens "moonshot-v1-32k" = 32768 ∧
    Model.MaxTokens "moonshot-v1-128k" = 131072 ∧ Model.MaxTokens "kimi-k2" = 131072 ∧
    Model.MaxTokens "kimi-k2-base" = 131072 ∧ Model.MaxTokens "kimi-k2-instruct" = 131072 ∧
    (m ∉ ["moonshot-v1-8k", "moonshot-v1-32k", "moonshot-v1-128k", "kimi-k2", "kimi-k2-base",
            "kimi-k2-instruct"] → Model.MaxTokens m = 0) ∧
    (0 < Model.MaxTokens m ↔ Model.IsValid m = true) := by
  refine ⟨by decide, by decide, by decide, by decide, by decide, by decide, ?_, ?_⟩
  · intro h
    simp only [List.mem_cons, List.mem_singleton, not_or, List.not_mem_nil, or_false] at h
    simp [Model.MaxTokens, MoonshotV18K, MoonshotV132K, MoonshotV1128K, KimiK2, KimiK2Base,
      KimiK2Instruct, h]
  · simp only [Model.MaxTokens, Model.IsValid]
    split_ifs <;> simp_all

/-! ## C23: vision and tools -/

/-- C23. `SupportsVision` is true exactly for `kimi-k2` and `kimi-k2-instruct`
(not for `kimi-k2-base`), `SupportsTools` is `IsValid`, and a model that
supports vision supports tools. -/
theorem Supports_spec (m : Model) :
    (Model.SupportsVision m = true ↔ m = "kimi-k2" ∨ m = "kimi-k2-instruct") ∧
    Model.SupportsVision "kimi-k2-base" = false ∧
    Model.SupportsTools m = Model.IsValid m ∧
    (Model.SupportsVision m = true → Model.SupportsTools m = true) := by
  refine ⟨?_, by decide, rfl, ?_⟩
  · simp [Model.SupportsVision, KimiK2, KimiK2Instruct]
  · simp only [Model.SupportsVision, Model.SupportsTools, Model.IsValid]
    intro h
    split_ifs at h with h1
    rcases h1 with h1 | h1 <;> simp [h1]

/-! ## C24: pointer helpers -/

theorem Cells.valueOr_addressOf {α : Type} (c : Cells α) (zero v : α) :
    (c.addressOf v).1 ≠ none ∧ (c.addressOf v).2.valueOr zero (c.addressOf v).1 = v ∧
      c.valueOr zero none = zero := by
  simp [Cells.addressOf, Cells.valueOr]

/-- C24. For each helper pair and every value `v`, the pointer `X(v)` is not nil
and `XValue(X(v))` is `v`, and `XValue(nil)` is the zero value of the type:
the empty string, 0, false, the zero time. -/
theorem pointer_helpers_roundtrip :
    (∀ (c : Cells String) (v : String), (utils.String c v).1 ≠ none ∧
      utils.StringValue (utils.String c v).2 (utils.String c v).1 = v ∧
      utils.StringValue c none = "") ∧
    (∀ (c : Cells Int) (v : Int), (utils.Int c v).1 ≠ none ∧
      utils.IntValue (utils.Int c v).2 (utils.Int c v).1 = v ∧ utils.IntValue c none = 0) ∧
    (∀ (c : Cells Int) (v : Int), (utils.Int64 c v).1 ≠ none ∧
      utils.Int64Value (utils.Int64 c v).2 (utils.Int64 c v).1 = v ∧
      utils.Int64Value c none = 0) ∧
    (∀ (c : Cells Float32) (v : Float32), (utils.Float32 c v).1 ≠ none ∧
      utils.Float32Value (utils.Float32 c v).2 (utils.Float32 c v).1 = v ∧
      utils.Float32Value c none = ⟨0⟩) ∧
    (∀ (c : Cells Float64) (v : Float64), (utils.Float64 c v).1 ≠ none ∧
      utils.Float64Value (utils.Float64 c v).2 (utils.Float64 c v).1 = v ∧
      utils.Float64Value c none = ⟨0⟩) ∧
    (∀ (c : Cells Bool) (v : Bool), (utils.Bool c v).1 ≠ none ∧
      utils.BoolValue (utils.Bool c v).2 (utils.Bool c v).1 = v ∧
      utils.BoolValue c none = false) ∧
    (∀ (c : Cells Time) (v : Time), (utils.Time c v).1 ≠ none ∧
      utils.TimeValue (utils.Time c v).2 (utils.Time c v).1 = v ∧
      utils.TimeValue c none = Time.zero) :=
  ⟨fun c v => Cells.valueOr_addressOf c "" v, fun c v => Cells.valueOr_addressOf c 0 v,
   fun c v => Cells.valueOr_addressOf c 0 v, fun c v => Cells.valueOr_addressOf c ⟨0⟩ v,
   fun c v => Cells.valueOr_addressOf c ⟨0⟩ v, fun c v => Cells.valueOr_addressOf c false v,
   fun c v => Cells.valueOr_addressOf c Time.zero v⟩

/-! ## C25: the key and the base URL of a new client -/

/-- The loop of `New` on a list of well-behaved parameters in which no
`WithTimeout` option meets a nil HTTP client: it returns, with the last string
as key and the URL of the last `WithBaseURL` option as base URL. -/
theorem applyParams_key_and_url
    (setTimeout : Int → (HTTPRequest → Except GoError Response) →
      HTTPRequest → Except GoError Response) :
    ∀ (params : List Param) (c : ClientStruct) (isNil : Bool),
      (∀ p ∈ params, p.WellBehaved) → timeoutOnNil isNil params = false →
      (isNil = false → c.httpClient.isSome = true) →
      ∃ c1, Client.applyParams setTimeout c params = some c1 ∧
        c1.apiKey = (lastString params).getD c.apiKey ∧
        c1.baseURL = (lastBaseURL params).getD c.baseURL := by
  intro params
  induction params with
  | nil => intro c _ _ _ _; exact ⟨c, rfl, rfl, rfl⟩
  | cons p ps ih =>
    intro c isNil h ht hc
    have hps : ∀ x ∈ ps, x.WellBehaved := fun x hx => h x (by simp [hx])
    have hp := h p (by simp)
    -- one step of the loop, and what it keeps
    have step : ∃ c0 isNil0, Client.applyParam setTimeout c p = some c0 ∧
        timeoutOnNil isNil0 ps = false ∧ (isNil0 = false → c0.httpClient.isSome = true) ∧
        c0.apiKey = (match p with | .string v => v | _ => c.apiKey) ∧
        c0.baseURL = (match p with | .option (.WithBaseURL u) => u | _ => c.baseURL) := by
      cases p with
      | string v => exact ⟨_, isNil, rfl, by simpa [timeoutOnNil] using ht, hc, rfl, rfl⟩
      | other => exact ⟨_, isNil, rfl, by simpa [timeoutOnNil] using ht, hc, rfl, rfl⟩
      | func f =>
        obtain ⟨c1, e1, e2, e3, e4⟩ := hp c
        exact ⟨c1, isNil, e1, by simpa [timeoutOnNil] using ht, fun hn => e4 (hc hn), e2, e3⟩
      | option v =>
        cases v with
        | custom f =>
          obtain ⟨c1, e1, e2, e3, e4⟩ := hp c
          exact ⟨c1, isNil, e1, by simpa [timeoutOnNil] using ht, fun hn => e4 (hc hn), e2, e3⟩
        | WithHTTPClient httpClient =>
          refine ⟨_, httpClient.isNone, rfl, by simpa [timeoutOnNil] using ht, ?_, rfl, rfl⟩
          cases httpClient <;> simp
        | WithBaseURL u =>
          exact ⟨_, isNil, rfl, by simpa [timeoutOnNil] using ht, hc, rfl, rfl⟩
        | WithUserAgent u =>
          exact ⟨_, isNil, rfl, by simpa [timeoutOnNil] using ht, hc, rfl, rfl⟩
        | WithTimeout t =>
          simp only [timeoutOnNil, Bool.or_eq_false_iff] at ht
          have hsome := hc ht.1
          cases hh : c.httpClient with
          | none => simp [hh] at hsome
          | some httpClient =>
            refine ⟨{ c with httpClient := some (setTimeout t httpClient) }, isNil, ?_, ht.2,
              fun _ => rfl, rfl, rfl⟩
            simp [Client.applyParam, ClientOption.apply, hh]
    obtain ⟨c0, isNil0, e0, ht0, hc0, hk, hu⟩ := step
    obtain ⟨c1, e1, h1, h2⟩ := ih c0 isNil0 hps ht0 hc0
    refine ⟨c1, by simp only [Client.applyParams, e0, e1], ?_, ?_⟩
    · rw [h1, hk]
      simp only [lastString]
      cases lastString ps with
      | some s => rfl
      | none => cases p <;> rfl
    · rw [h2, hu]
      simp only [lastBaseURL]
      cases lastBaseURL ps with
      | some s => rfl
      | none =>
        cases p with
        | option v => cases v <;> rfl
        | _ => rfl

/-- C25 fails as stated. (1) The parameters are the string `k1` and a function
that overwrites the client with another one (`*c = *client.New("k2",
client.WithBaseURL("https://other"))`): `APIKey()` is `k2`, not the last string
parameter `k1`, and `BaseURL()` is `https://other` although the list holds no
`WithBaseURL` option. (2) The parameters are the string `k`, the option
`WithHTTPClient(nil)` and a `WithTimeout` option: `New` panics on the nil
pointer and returns no client. -/
theorem New_counterexample :
    lastString [.string "k1", .func (fun _ => Client.New noHTTP (fun _ h => h) exampleGetenv
      [.string "k2", .option (.WithBaseURL "https://other")])] = some "k1" ∧
    lastBaseURL [.string "k1", .func (fun _ => Client.New noHTTP (fun _ h => h) exampleGetenv
      [.string "k2", .option (.WithBaseURL "https://other")])] = none ∧
    (Client.New noHTTP (fun _ h => h) exampleGetenv
      [.string "k1", .func (fun _ => Client.New noHTTP (fun _ h => h) exampleGetenv
        [.string "k2", .option (.WithBaseURL "https://other")])]).map ClientStruct.APIKey
      = some "k2" ∧
    (Client.New noHTTP (fun _ h => h) exampleGetenv
      [.string "k1", .func (fun _ => Client.New noHTTP (fun _ h => h) exampleGetenv
        [.string "k2", .option (.WithBaseURL "https://other")])]).map ClientStruct.BaseURL
      = some "https://other" ∧
    (Client.New noHTTP (fun _ h => h) exampleGetenv
      [.string "k", .option (.WithHTTPClient none), .option (.WithTimeout 30)]).isSome = false := by
  decide

/-- C25, amended. For every parameter list in which each function value is an
option built by a constructor of the package or a function that returns and
leaves the key and the base URL alone (and an HTTP client that is not nil not
nil), and in which no `WithTimeout` option comes after a `WithHTTPClient(nil)`
option without a `WithHTTPClient` option of a client that is not nil in
between, and for every value of `MOONSHOT_API_KEY`: `New` returns a client;
its `APIKey()` is the last string parameter when that string is not empty, and
else the value of the environment variable; its `BaseURL()` is the URL of the
last `WithBaseURL` option, and the default URL when there is none. -/
theorem New_key_and_url (defaultHTTP : HTTPRequest → Except GoError Response)
    (setTimeout : Int → (HTTPRequest → Except GoError Response) →
      HTTPRequest → Except GoError Response)
    (getenv : String → String) (params : List Param) (h : ∀ p ∈ params, p.WellBehaved)
    (hnil : timeoutOnNil false params = false) :
    ∃ c, Client.New defaultHTTP setTimeout getenv params = some c ∧
      c.APIKey =
        (match lastString params with
         | some s => if s = "" then getenv "MOONSHOT_API_KEY" else s
         | none => getenv "MOONSHOT_API_KEY") ∧
      c.BaseURL =
        (match lastBaseURL params with
         | some u => u
         | none => "https://api.moonshot.ai/v1") := by
  obtain ⟨c1, e1, h1, h2⟩ := applyParams_key_and_url setTimeout params
    { httpClient := some defaultHTTP, baseURL := defaultBaseURL, apiKey := "",
      userAgent := "go-moonshot/" ++ Version } false h hnil (fun _ => rfl)
  refine ⟨if c1.apiKey = "" then { c1 with apiKey := getenv EnvAPIKey } else c1, ?_, ?_, ?_⟩
  · simp only [Client.New, e1]
  · simp only [ClientStruct.APIKey]
    split_ifs with hk
    · rw [h1] at hk
      cases hs : lastString params with
      | none => rfl
      | some s =>
        rw [hs] at hk
        simp only [Option.getD_some] at hk
        simp [hk, EnvAPIKey]
    · rw [h1] at hk ⊢
      cases hs : lastString params with
      | none => rw [hs] at hk; simp at hk
      | some s =>
        rw [hs] at hk
        simp only [Option.getD_some] at hk
        simp [hk]
  · have : (if c1.apiKey = "" then { c1 with apiKey := getenv EnvAPIKey } else c1).baseURL =
        c1.baseURL := by
      split_ifs <;> rfl
    simp only [ClientStruct.BaseURL]
    rw [this, h2]
    cases lastBaseURL params <;> rfl

/-- The amended C25 at a list that holds a `WithHTTPClient(nil)` option, then
an HTTP client and a `WithTimeout` option, and an empty string as last string. -/
theorem New_key_and_url_witness :
    ∃ c, Client.New noHTTP (fun _ h => h) exampleGetenv
        [.string "k1", .option (.WithHTTPClient none), .option (.WithBaseURL "https://a"),
         .option (.WithHTTPClient (some noHTTP)), .option (.WithTimeout 60), .other,
         .string "", .option (.WithBaseURL "https://custom.api.com")] = some c ∧
      c.APIKey = "env-key" ∧ c.BaseURL = "https://custom.api.com" :=
  New_key_and_url noHTTP (fun _ h => h) exampleGetenv
    [.string "k1", .option (.WithHTTPClient none), .option (.WithBaseURL "https://a"),
     .option (.WithHTTPClient (some noHTTP)), .option (.WithTimeout 60), .other,
     .string "", .option (.WithBaseURL "https://custom.api.com")]
    (by intro p hp; simp only [List.mem_cons, List.mem_singleton, List.not_mem_nil, or_false] at hp
        rcases hp with e | e | e | e | e | e | e | e <;> subst e <;> trivial)
    rfl

/-! ## C26: the purpose in the query of `List` -/

/-- C26: the code at a purpose that holds `&`. `List` issues a GET of
`/files?purpose=a&b`, with the purpose not escaped, and the server decodes the
query parameter `purpose` as `a`, not as `a&b`. For the purpose `assistants`
the server decodes `assistants`, and with nil params or an empty purpose the
URL ends in `/files` and has no query. -/
theorem List_purpose_not_escaped :
    (FilesService.List exampleEnv filesSend filesDecode ⟨filesClient⟩
        (some ⟨"a&b"⟩)).sent.map (fun r => (r.method, r.url)) =
      [("GET", "https://api.moonshot.ai/v1/files?purpose=a&b")] ∧
    queryGet "https://api.moonshot.ai/v1/files?purpose=a&b" "purpose" = "a" ∧
    (FilesService.List exampleEnv filesSend filesDecode ⟨filesClient⟩
        (some ⟨"assistants"⟩)).sent.map (fun r => (r.method, r.url)) =
      [("GET", "https://api.moonshot.ai/v1/files?purpose=assistants")] ∧
    queryGet "https://api.moonshot.ai/v1/files?purpose=assistants" "purpose" = "assistants" ∧
    (FilesService.List exampleEnv filesSend filesDecode ⟨filesClient⟩
        none).sent.map (fun r => (r.method, r.url)) =
      [("GET", "https://api.moonshot.ai/v1/files")] ∧
    (FilesService.List exampleEnv filesSend filesDecode ⟨filesClient⟩
        (some ⟨""⟩)).sent.map (fun r => (r.method, r.url)) =
      [("GET", "https://api.moonshot.ai/v1/files")] ∧
    rawQuery "https://api.moonshot.ai/v1/files".toList = [] := by
  decide

/-! ## C27: what else is on the wire -/

/-- The body that `json.Marshal` reads after the adjustment is the caller's
body with the stream flag set and the temperature scaled. -/
theorem adjustRequest_body (env : Env) (stream : Bool) (h : Heap) (req : ChatCompletionRequest)
    (hv : req.ValidIn h) :
    (adjustRequest env stream h req).1.body (adjustRequest env stream h req).2 =
      { req.body h with
        Stream := some stream
        Temperature := (req.body h).Temperature.map (fun t => env.fmul t Float64.c06) } := by
  obtain ⟨hf, hb⟩ := adjustRequest_frame env stream h req
  obtain ⟨v1, v2, v3, v4, v5, v6⟩ := hv
  have e2 : req.TopP.map (adjustRequest env stream h req).2.floats = req.TopP.map h.floats := by
    cases e : req.TopP with
    | none => rfl
    | some p => simp [hf p (v2 p e)]
  have e3 : req.PresencePenalty.map (adjustRequest env stream h req).2.floats =
      req.PresencePenalty.map h.floats := by
    cases e : req.PresencePenalty with
    | none => rfl
    | some p => simp [hf p (v3 p e)]
  have e4 : req.FrequencyPenalty.map (adjustRequest env stream h req).2.floats =
      req.FrequencyPenalty.map h.floats := by
    cases e : req.FrequencyPenalty with
    | none => rfl
    | some p => simp [hf p (v4 p e)]
  have e6 : req.ParallelToolCalls.map (adjustRequest env stream h req).2.bools =
      req.ParallelToolCalls.map h.bools := by
    cases e : req.ParallelToolCalls with
    | none => rfl
    | some p => simp [hb p (v6 p e)]
  have e1 := adjustRequest_stream env stream h req
  have hfields : (adjustRequest env stream h req).1 =
      { req with Stream := (adjustRequest env stream h req).1.Stream
                 Temperature := (adjustRequest env stream h req).1.Temperature } := by
    cases ht : req.Temperature <;> simp [adjustRequest, ht, Heap.newBool, Heap.newFloat]
  have et : ((adjustRequest env stream h req).1.body (adjustRequest env stream h req).2).Temperature
      = (req.body h).Temperature.map (fun t => env.fmul t Float64.c06) := by
    cases ht : req.Temperature with
    | none => simp [adjustRequest, ht, Heap.newBool, ChatCompletionRequest.body]
    | some p =>
      rw [adjustRequest_temperature env stream h req p ht]
      simp [ChatCompletionRequest.body, ht]
  simp only [ChatCompletionRequest.body] at e1 et ⊢
  rw [hfields]
  simp only [e1, et, e2, e3, e4, e6]

/-- C27. The body that `CreateCompletion` and `CreateCompletionStream` hand to
the transport is the caller's request with the stream flag replaced and the
temperature scaled: model, messages, top-p, n, stop, max tokens, penalties,
user, tools, tool choice, response format, seed, parallel tool calls and file
ids are those of the caller, and a temperature that the caller left unset is
sent unset. -/
theorem sent_body_frame (env : Env) (s : Service) (h : Heap) (req : ChatCompletionRequest)
    (r : HTTPRequest) (hv : req.ValidIn h)
    (hr : r ∈ (s.CreateCompletion env h req).sent ∨
      r ∈ (s.CreateCompletionStream env h req).sent) :
    r.body = { req.body h with
               Stream := r.body.Stream
               Temperature := (req.body h).Temperature.map (fun t => env.fmul t Float64.c06) } ∧
    (req.Temperature = none → r.body.Temperature = none) := by
  have key : ∀ stream, r.body = (adjustRequest env stream h req).1.body
      (adjustRequest env stream h req).2 →
      r.body = { req.body h with
                 Stream := r.body.Stream
                 Temperature := (req.body h).Temperature.map (fun t => env.fmul t Float64.c06) } ∧
      (req.Temperature = none → r.body.Temperature = none) := by
    intro stream e
    rw [adjustRequest_body env stream h req hv] at e
    constructor
    · rw [e]
    · intro ht
      rw [e]
      simp [ChatCompletionRequest.body, ht]
  rcases hr with hr | hr
  · rw [CreateCompletion_sent] at hr
    exact key false (Request_sent_body env _ _ _ _ r hr)
  · rw [CreateCompletionStream_sent] at hr
    exact key true (Request_sent_body env _ _ _ _ r hr)

theorem sent_body_frame_witness :
    (exampleSent true).body =
      { exampleRequest.body exampleHeap with
        Stream := (exampleSent true).body.Stream
        Temperature := (exampleRequest.body exampleHeap).Temperature.map
          (fun t => exampleEnv.fmul t Float64.c06) } ∧
    (exampleRequest.Temperature = none → (exampleSent true).body.Temperature = none) :=
  sent_body_frame exampleEnv ⟨exampleClient 200 ["data: [DONE]\n"]⟩ exampleHeap exampleRequest
    (exampleSent true) (by decide) (Or.inr (by decide))

/-! ## C28: an unterminated last line -/

/-- C28. If a stream that closes cleanly ends with a last line without newline,
the `Read` that reaches that line returns `io.EOF` whatever the line holds and
whatever `json.Unmarshal` would make of it, and leaves nothing to read: a
well-formed payload there is not emitted, a malformed one gives no decode
error. The successive `Read` calls on the stream return what they return on
the stream without that line. -/
theorem unterminated_last_line_dropped (env : Env) (ls : List (List Char)) (tail : List Char)
    (sr sr0 srt : StreamReader) (n : Nat) (hls : ∀ l ∈ ls, '\n' ∉ l) (htail : '\n' ∉ tail)
    (ht : Feeds srt .eof tail) (h : Feeds sr .eof (joinLines ls ++ tail))
    (h0 : Feeds sr0 .eof (joinLines ls)) :
    (∃ sr1, StreamReader.Read env srt = some (.error .eof, sr1) ∧ Feeds sr1 .eof []) ∧
    (StreamReader.reads env n sr).map Prod.fst = (StreamReader.reads env n sr0).map Prod.fst := by
  constructor
  · obtain ⟨e1, e2, -, -⟩ := ht.ending htail
    refine ⟨srt.advance, ?_, e2⟩
    rw [Read_step, e1]
    rfl
  · have h00 : Feeds sr0 .eof (joinLines ls ++ []) := by simpa using h0
    rw [reads_lines env .eof n ls tail sr hls htail h,
      reads_lines env .eof n ls [] sr0 hls (by simp) h00]

theorem unterminated_last_line_dropped_witness :
    (∃ sr1, StreamReader.Read exampleEnv (exampleReader ["data: \x7b\"id\":\"2\"\x7d"]) =
        some (.error .eof, sr1) ∧ Feeds sr1 .eof []) ∧
    (StreamReader.reads exampleEnv 3
        (exampleReader ["data: \x7b\"id\":\"1\"\x7d\nda", "ta: \x7b\"id\":\"2\"\x7d"])).map Prod.fst =
      (StreamReader.reads exampleEnv 3
        (exampleReader ["data: \x7b\"id\":\"1\"\x7d\n"])).map Prod.fst :=
  unterminated_last_line_dropped exampleEnv ["data: \x7b\"id\":\"1\"\x7d".toList]
    "data: \x7b\"id\":\"2\"\x7d".toList _ _ _ 3 (by decide) (by decide)
    ⟨rfl, rfl, by decide⟩ ⟨rfl, rfl, by decide⟩ ⟨rfl, rfl, by decide⟩

/-! ## C29: the classifier always returns an `APIError` -/

/-- C29. For every response, with any status, any body, readable or not, and
whatever `json.Unmarshal` makes of the body, `HandleErrorResponse` returns an
error that is an `APIError` value whose `StatusCode` is the status of the
response, and `IsAPIError` of that error returns it with true. -/
theorem HandleErrorResponse_status (env : Env) (resp : Response) :
    ∃ e, (HandleErrorResponse env resp).1 = .api e ∧ e.StatusCode = resp.StatusCode ∧
      IsAPIError (some (HandleErrorResponse env resp).1) = (some e, true) := by
  rw [HandleErrorResponse_error]
  cases resp.Body.ReadAll.1.2 with
  | some e => exact ⟨_, rfl, rfl, rfl⟩
  | none =>
    cases env.unmarshalError resp.Body.ReadAll.1.1 with
    | none => exact ⟨_, rfl, rfl, rfl⟩
    | some p => exact ⟨_, rfl, rfl, rfl⟩

/-! ## C30: termination of `Read` and what a call consumes -/

theorem not_dataMarker_skipped {l : List Char} (h : HasPrefix (TrimSpace l) dataMarker = false) :
    Skipped l :=
  Or.inr h

theorem decodeLine_isSome (env : Env) (l : List Char)
    (h : HasPrefix (TrimSpace l) dataMarker = true) :
    (decodeLine env (l ++ ['\n'])).isSome := by
  have hne : TrimSpace l ≠ [] := by
    intro e; rw [e] at h; revert h; decide
  simp only [decodeLine, TrimSpace_append_newline, hne, h, if_false, Bool.not_true,
    Bool.false_eq_true]
  split_ifs
  · rfl
  · cases env.unmarshalStream (TrimPrefix (TrimSpace l) dataMarker) <;> rfl

/-- C30. A `Read` call returns on every reader (its self-call never runs out of
fuel, each self-call having consumed a line). On a stream of lines, the call
consumes the lines up to and including the first line that, trimmed, starts
with `data: `, and leaves the text after that line for the next call; when no
line does, it consumes all the input. -/
theorem Read_terminates_and_consumes (env : Env) (term : GoError) :
    (∀ sr : StreamReader, ∃ res sr1, StreamReader.Read env sr = some (res, sr1)) ∧
    (∀ (sr : StreamReader), sr.nextLine.2 = none → sr.advance.size < sr.size) ∧
    (∀ (skipped : List (List Char)) (l rest : List Char) (sr : StreamReader),
      (∀ x ∈ skipped, '\n' ∉ x ∧ HasPrefix (TrimSpace x) dataMarker = false) → '\n' ∉ l →
      HasPrefix (TrimSpace l) dataMarker = true →
      Feeds sr term (joinLines skipped ++ (l ++ '\n' :: rest)) →
      ∃ res sr1, StreamReader.Read env sr = some (res, sr1) ∧ Feeds sr1 term rest) ∧
    (∀ (ls : List (List Char)) (tail : List Char) (sr : StreamReader),
      (∀ x ∈ ls, '\n' ∉ x ∧ HasPrefix (TrimSpace x) dataMarker = false) → '\n' ∉ tail →
      Feeds sr term (joinLines ls ++ tail) →
      ∃ sr1, StreamReader.Read env sr = some (endResult term, sr1) ∧ Feeds sr1 term []) := by
  refine ⟨?_, fun sr h => advance_size sr h, ?_, ?_⟩
  · intro sr
    have := Read_isSome env sr
    cases hr : StreamReader.Read env sr with
    | none => simp [hr] at this
    | some p => exact ⟨p.1, p.2, rfl⟩
  · intro skipped l rest sr hs hl hp h
    obtain ⟨sr0, h0, e0⟩ := Read_skip_lines env term _ skipped sr
      (fun x hx => ⟨(hs x hx).1, Or.inr (hs x hx).2⟩) h
    obtain ⟨e1, e2, -, -⟩ := h0.line hl
    have hd := decodeLine_isSome env l hp
    cases hdec : decodeLine env (l ++ ['\n']) with
    | none => simp [hdec] at hd
    | some res =>
      refine ⟨res, sr0.advance, ?_, e2⟩
      rw [e0, Read_step, e1]
      simp only [hdec]
  · intro ls tail sr hs htail h
    obtain ⟨sr0, h0, e0⟩ := Read_skip_lines env term _ ls sr
      (fun x hx => ⟨(hs x hx).1, Or.inr (hs x hx).2⟩) h
    obtain ⟨e1, e2, -, -⟩ := h0.ending htail
    refine ⟨sr0.advance, ?_, e2⟩
    rw [e0, Read_step, e1]
    simp only [endResult]
    split_ifs <;> rfl

/-- A stream with a blank line, an `event:` line, two data lines and an
unterminated tail: the first `Read` returns the first event and leaves the
text after the first data line. -/
theorem Read_terminates_and_consumes_witness :
    ∃ res sr1, StreamReader.Read exampleEnv
        (exampleReader ["\nevent: message\ndata: \x7b\"id\":\"1\"\x7d\nda", "ta: \x7b\"id\":\"2\"\x7d\ntail"]) =
          some (res, sr1) ∧
      Feeds sr1 .eof "data: \x7b\"id\":\"2\"\x7d\ntail".toList :=
  (Read_terminates_and_consumes exampleEnv .eof).2.2.1 [[], "event: message".toList]
    "data: \x7b\"id\":\"1\"\x7d".toList "data: \x7b\"id\":\"2\"\x7d\ntail".toList _
    (by decide) (by decide) (by decide) ⟨rfl, rfl, by decide⟩


end Moonshot
